import Mathlib

/-!
Nachos 4.0 (MP3 scheduler, MP4 file header): a shallow embedding.

Part I embeds `threads/scheduler.cc`: the three ready queues, `ReadyToRun`,
`FindNextToRun` and `aging`.  Part II embeds `filesys/filehdr.cc`: `Allocate`
and `ByteToSector` over a free-sector bitmap and a disk of header sectors.
Part III embeds `Deallocate` of `filesys/filehdr.cc` and `filesys/filesys.cc`:
formatting, `Create`, `CreateDirectory`, `Open`, `Close` and `Remove` over
directory tables stored in file data.

Conventions.
* C `int` values are `Int`; no arithmetic in the embedded code comes near the
  32-bit range for the tick counts and file sizes considered, and signed
  overflow has no defined behaviour that could be modelled.
* `approximate_burst_time` is a `double` in the source; it is only ever
  compared, and is modelled by a rational number (no NaN).
* `DEBUG(...)` lines only print; they are left out.
* `ASSERT` failures, and array reads outside `dataSectors`, are faults:
  the embedded function returns `none` / `Except.error`.
* A path is the list of its components, as `strtok(path, "/")` yields them.
* A directory table is stored whole under the first data sector of its file;
  the clipping of `ReadAt` and `WriteAt` to the length of the file is not
  modelled, so a directory file is assumed to hold a whole table.
-/

namespace Nachos

/-! ## Part I: scheduler -/

/-- Modelled from the spec: the thread states of section 3 (`thread.h` is not
among the sources). -/
inductive ThreadStatus where
  | JUST_CREATED
  | RUNNING
  | READY
  | BLOCKED
  | FINISHED
deriving DecidableEq, Repr

/-- Modelled from the spec: the interrupt level of the simulated machine, on
or off (`interrupt.h` is not among the sources). -/
inductive IntStatus where
  | IntOff
  | IntOn
deriving DecidableEq, Repr

/-- Modelled from the spec: the fields of `Thread` that the scheduler reads or
writes, as listed in section 3 (`thread.h` is not among the sources). -/
structure Thread where
  ID : Nat
  priority : Int
  approximate_burst_time : ℚ
  enter_ready_time : Int
  total_ready_time : Int
  start_cpu_time : Int
  status : ThreadStatus
deriving DecidableEq

/-- Comparison function of L1 (`scheduler.cc`, lines 28-36). -/
def SJFSort (x y : Thread) : Int :=
  if x.approximate_burst_time < y.approximate_burst_time then -1
  else if x.approximate_burst_time > y.approximate_burst_time then 1
  else 0

/-- Comparison function of L2 (`scheduler.cc`, lines 37-45). -/
def PrioritySort (x y : Thread) : Int :=
  if x.priority > y.priority then -1
  else if x.priority < y.priority then 1
  else 0

/-- Modelled from the spec: `SortedList<T>::Insert` of `lib/list.h`, which is
not among the sources.  The specification orders L1 and L2 by their comparison
function with ties in insertion order, so the item goes in front of the first
element that compares strictly greater, and after every element that compares
less or equal. -/
def SortedListInsert {α : Type} (compare : α → α → Int) (item : α) : List α → List α
  | [] => [item]
  | x :: rest =>
    if compare item x < 0 then item :: x :: rest
    else x :: SortedListInsert compare item rest

/-- The part of the kernel the scheduler touches: the three ready queues
(`L1`, `L2` sorted lists, `L3` a plain list), the two flags of `Scheduler`,
the interrupt level, the tick counter and the running thread. -/
structure Kernel where
  L1 : List Thread
  L2 : List Thread
  L3 : List Thread
  preemtive : Bool
  isaging : Bool
  level : IntStatus
  totalTicks : Int
  currentThread : Thread
deriving DecidableEq

/-- State of `Scheduler::Scheduler()`: empty queues, both flags clear. -/
def Kernel.init (level : IntStatus) (totalTicks : Int) (currentThread : Thread) : Kernel :=
  { L1 := [], L2 := [], L3 := [], preemtive := false, isaging := false,
    level := level, totalTicks := totalTicks, currentThread := currentThread }

/-- Every queued thread, in the order `aging` drains the queues. -/
def Kernel.queued (k : Kernel) : List Thread := k.L1 ++ k.L2 ++ k.L3

/-- Lines 93-94 of `ReadyToRun`: the thread becomes READY and its
`enter_ready_time` is the current tick. -/
def markReady (now : Int) (thread : Thread) : Thread :=
  { thread with status := ThreadStatus.READY, enter_ready_time := now }

/-- Method `Scheduler::ReadyToRun` (lines 87-113).  `none` is the failed
`ASSERT(kernel->interrupt->getLevel() == IntOff)`. -/
def ReadyToRun (k : Kernel) (thread : Thread) : Option Kernel :=
  if k.level ≠ IntStatus.IntOff then none
  else
    let thread := markReady k.totalTicks thread
    if thread.priority < 50 then
      some { k with L3 := k.L3 ++ [thread] }
    else if thread.priority < 100 then
      some { k with L2 := SortedListInsert PrioritySort thread k.L2 }
    else
      let k := { k with L1 := SortedListInsert SJFSort thread k.L1 }
      if thread.approximate_burst_time < k.currentThread.approximate_burst_time
          ∨ k.currentThread.priority < 100 then
        some { k with preemtive := true }
      else some k

/-- Method `Scheduler::FindNextToRun` (lines 123-145).  The outer `none` is the
failed interrupt assertion; the inner `none` is the `NULL` result. -/
def FindNextToRun (k : Kernel) : Option (Option Thread × Kernel) :=
  if k.level ≠ IntStatus.IntOff then none
  else
    match k.L1 with
    | t :: rest => some (some t, { k with L1 := rest, preemtive := false })
    | [] =>
      match k.L2 with
      | t :: rest => some (some t, { k with L2 := rest })
      | [] =>
        match k.L3 with
        | t :: rest => some (some t, { k with L3 := rest })
        | [] => some (none, k)

/-- Lines 266-286 of `aging`: what the loop body does to the thread before
it hands it to `ReadyToRun`. -/
def agingUpdate (now : Int) (t : Thread) : Thread :=
  let t := { t with total_ready_time := t.total_ready_time + (now - t.enter_ready_time) }
  if t.total_ready_time > 1500 then
    let t :=
      if t.priority ≤ 139 then { t with priority := t.priority + 10 }
      else if t.priority > 139 then { t with priority := 149 }
      else t
    { t with total_ready_time := t.total_ready_time - 1500 }
  else t

/-- The loop `while (!all.IsEmpty())` of `aging` (lines 264-292). -/
def agingLoop (now : Int) : List Thread → Kernel → Option Kernel
  | [], k => some k
  | t :: all, k =>
    match ReadyToRun k (agingUpdate now t) with
    | none => none
    | some k1 => agingLoop now all k1

/-- Method `Scheduler::aging` (lines 246-295): drain L1, L2, L3 into `all`, update
and re-insert every thread, restore the flag and the interrupt level. -/
def aging (k : Kernel) : Option Kernel :=
  let oldLevel := k.level
  let k := { k with isaging := true, level := IntStatus.IntOff }
  let now := k.totalTicks
  let all := k.L1 ++ k.L2 ++ k.L3
  let k := { k with L1 := [], L2 := [], L3 := [] }
  match agingLoop now all k with
  | none => none
  | some k1 => some { k1 with isaging := false, level := oldLevel }

/-! ### Drivers used to state the scheduler claims -/

/-- Hand the threads to `ReadyToRun` one after the other. -/
def readyAll : Kernel → List Thread → Option Kernel
  | k, [] => some k
  | k, t :: ts =>
    match ReadyToRun k t with
    | none => none
    | some k1 => readyAll k1 ts

/-- Call `FindNextToRun` `n` times and collect the results. -/
def findNextN : Nat → Kernel → Option (List (Option Thread) × Kernel)
  | 0, k => some ([], k)
  | n + 1, k =>
    match FindNextToRun k with
    | none => none
    | some (r, k1) =>
      match findNextN n k1 with
      | none => none
      | some (rs, k2) => some (r :: rs, k2)

/-- Scenario S1: the scheduler before the four threads arrive. -/
def S1_kernel : Kernel :=
  Kernel.init IntStatus.IntOff 0 ⟨0, 0, 0, 0, 0, 0, ThreadStatus.RUNNING⟩

/-- Scenario S1: T1 (priority 40), T2 (priority 80), T3 (priority 120, burst 30),
T4 (priority 120, burst 20), in the order in which they are enqueued. -/
def S1_threads : List Thread :=
  [⟨1, 40, 0, 0, 0, 0, ThreadStatus.JUST_CREATED⟩,
   ⟨2, 80, 0, 0, 0, 0, ThreadStatus.JUST_CREATED⟩,
   ⟨3, 120, 30, 0, 0, 0, ThreadStatus.JUST_CREATED⟩,
   ⟨4, 120, 20, 0, 0, 0, ThreadStatus.JUST_CREATED⟩]

/-- Whether the queued thread `id` has more than 1500 ticks of waiting credit
at the current tick, that is, whether an `aging` call now promotes it. -/
def creditExceeded (id : Nat) (k : Kernel) : Bool :=
  k.queued.any (fun t =>
    decide (t.ID = id ∧ t.total_ready_time + (k.totalTicks - t.enter_ready_time) > 1500))

/-- Run `aging` at each of the given ticks in turn, and count the calls in
which the credit of thread `id` exceeded 1500. -/
def agingRun (id : Nat) : Kernel → List Int → Option (Kernel × Nat)
  | k, [] => some (k, 0)
  | k, now :: rest =>
    match aging { k with totalTicks := now } with
    | none => none
    | some k1 =>
      match agingRun id k1 rest with
      | none => none
      | some (k2, c) =>
        some (k2, (if creditExceeded id { k with totalTicks := now } then 1 else 0) + c)

/-- The aging law for a wait of `w` ticks: a thread of priority 45 and
`total_ready_time` 0 that is made ready at tick `t0 = k.totalTicks`, is not
selected and is not promoted by the aging calls at `ticks`, ends the aging
call at tick `t0 + w` with priority 55, queued in L2 and not in L3. -/
def AgingLaw (w : Int) : Prop :=
  ∀ (k k1 k2 : Kernel) (t : Thread) (ticks : List Int),
    k.level = IntStatus.IntOff → t.priority = 45 → t.total_ready_time = 0 →
    (∀ u ∈ k.queued, u.ID ≠ t.ID) →
    ReadyToRun k t = some k1 →
    agingRun t.ID k1 ticks = some (k2, 0) →
    ∃ k3 t3, aging { k2 with totalTicks := k.totalTicks + w } = some k3
      ∧ t3 ∈ k3.L2 ∧ t3.ID = t.ID ∧ t3.priority = 55
      ∧ ∀ u ∈ k3.L3, u.ID ≠ t.ID

/-- Scheduler states reachable from the empty scheduler by `ReadyToRun` of a
thread that is not queued, `FindNextToRun` and `aging`, while the machine
moves the clock, the interrupt level and the running thread. -/
inductive Reachable : Kernel → Prop where
  | init (level : IntStatus) (totalTicks : Int) (currentThread : Thread) :
      Reachable (Kernel.init level totalTicks currentThread)
  | ready (k k1 : Kernel) (t : Thread) :
      Reachable k → (∀ u ∈ k.queued, u.ID ≠ t.ID) → ReadyToRun k t = some k1 → Reachable k1
  | find (k k1 : Kernel) (r : Option Thread) :
      Reachable k → FindNextToRun k = some (r, k1) → Reachable k1
  | age (k k1 : Kernel) : Reachable k → aging k = some k1 → Reachable k1
  | machine (k : Kernel) (level : IntStatus) (totalTicks : Int) (currentThread : Thread) :
      Reachable k →
      Reachable { k with level := level, totalTicks := totalTicks,
                         currentThread := currentThread }

/-- Scenario S2: T1 (priority 45), about to become ready at tick 0. -/
def S2_thread : Thread := ⟨1, 45, 0, 0, 0, 0, ThreadStatus.JUST_CREATED⟩

/-- Scenario S2: the aging ticks 100, 200, ..., 1600. -/
def S2_ticks : List Int := (List.range 16).map (fun i => ((i : Int) + 1) * 100)

/-! ## Part II: file header -/

/-- Ways in which an embedded file-system routine can stop without returning. -/
inductive Fault where
  | assertion
  | outOfBounds
  | fuel
  | nullPointer
  | wildPointer
deriving DecidableEq, Repr

/-- Disk constants of `machine/disk.h` and `filesys/filehdr.h`, which are not
among the sources; the routines take them as a parameter. -/
structure Geometry where
  SectorSize : Nat
  NumDirect : Nat
deriving DecidableEq

/-- Modelled from the spec: the geometry of the simulated disk, a header of
128 bytes filling one sector and `NumDirect = (SectorSize - 8) / 4 = 30`. -/
def Geometry.nachos : Geometry := { SectorSize := 128, NumDirect := 30 }

/-- Macro `fileLevel2` (line 33). -/
def Geometry.fileLevel2 (g : Geometry) : Int := g.NumDirect * g.SectorSize

/-- Macro `fileLevel3` (line 34). -/
def Geometry.fileLevel3 (g : Geometry) : Int := g.NumDirect * g.NumDirect * g.SectorSize

/-- Macro `fileLevel4` (line 35). -/
def Geometry.fileLevel4 (g : Geometry) : Int :=
  g.NumDirect * g.NumDirect * g.NumDirect * g.SectorSize

/-- Modelled from the spec: macro `divRoundUp` of `lib/utility.h` (not among
the sources), the `⌈n / s⌉` of the specification, with C's truncating `/`
and `%`. -/
def divRoundUp (n s : Int) : Int := Int.tdiv n s + (if Int.tmod n s > 0 then 1 else 0)

/-- Modelled from the spec: macro `divRoundDown` of `lib/utility.h` (not among
the sources), C's truncating quotient. -/
def divRoundDown (n s : Int) : Int := Int.tdiv n s

/-- Modelled from the spec: the file header of section 3, `numBytes`,
`numSectors` and the table `dataSectors[NumDirect]` (`filehdr.h` is not among
the sources). -/
structure FileHeader where
  numBytes : Int
  numSectors : Int
  dataSectors : List Int
deriving DecidableEq

/-- Constructor `FileHeader::FileHeader()` (lines 44-49): every field is -1. -/
def FileHeader.new (g : Geometry) : FileHeader :=
  { numBytes := -1, numSectors := -1, dataSectors := List.replicate g.NumDirect (-1) }

/-- The read `dataSectors[i]`; an index outside the table is a fault. -/
def FileHeader.getSector (hdr : FileHeader) (i : Int) : Except Fault Int :=
  if 0 ≤ i ∧ i < hdr.dataSectors.length then
    Except.ok (hdr.dataSectors.getD i.toNat (-1))
  else Except.error Fault.outOfBounds

/-- The write `dataSectors[i] = s`; an index outside the table is a fault. -/
def FileHeader.setSector (hdr : FileHeader) (i : Nat) (s : Int) : Except Fault FileHeader :=
  if i < hdr.dataSectors.length then
    Except.ok { hdr with dataSectors := hdr.dataSectors.set i s }
  else Except.error Fault.outOfBounds

/-- Index of the first clear bit of a bitmap. -/
def firstClear : List Bool → Option Nat
  | [] => none
  | b :: m => if b = false then some 0 else (firstClear m).map (· + 1)

/-- Modelled from the spec: `Bitmap::NumClear` of `lib/bitmap.h` (not among
the sources); a bit that is 1 is an allocated sector, so the free count is
the number of 0 bits. -/
def NumClear (m : List Bool) : Int := (m.count false : Nat)

/-- Modelled from the spec: `Bitmap::FindAndSet` of `lib/bitmap.h` (not among
the sources): the first clear bit is set and its index returned; -1, and no
change, when every bit is set. -/
def FindAndSet (m : List Bool) : Int × List Bool :=
  match firstClear m with
  | some i => ((i : Int), m.set i true)
  | none => (-1, m)

/-- Sector `x` is a sector of the disk and its bit in the free map is clear. -/
def IsFree (m : List Bool) (x : Int) : Prop := 0 ≤ x ∧ m[x.toNat]? = some false

/-- The sectors of the disk that hold file headers, by sector number.  Raw
sector I/O is infallible (section 7 of the specification): the device's own
check of the sector number is outside this embedding, so a write to the
sector -1 that a failed `FindAndSet` returned is recorded like any other. -/
abbrev Disk := Int → FileHeader

/-- Method `FileHeader::WriteBack(sector)` (lines 193-207). -/
def WriteBack (disk : Disk) (sector : Int) (hdr : FileHeader) : Disk :=
  fun x => if x = sector then hdr else disk x

/-- Method `FileHeader::FetchFrom(sector)` (lines 174-184). -/
def FetchFrom (disk : Disk) (sector : Int) : FileHeader := disk sector

/-- What `Allocate` works on: the free map and the disk.  The two remaining
fields are ghost state: the results of the `FindAndSet` calls for data blocks
(line 129) and for child headers (lines 84, 99, 114), oldest first. -/
structure FsState where
  freeMap : List Bool
  disk : Disk
  dataClaims : List Int
  headerClaims : List Int

/-- The loop of lines 128-133, with `n` iterations left and loop index `i`. -/
def allocDirect : Nat → Nat → FileHeader → FsState → Except Fault (FileHeader × FsState)
  | 0, _, hdr, st => Except.ok (hdr, st)
  | n + 1, i, hdr, st =>
    let r := FindAndSet st.freeMap
    match hdr.setSector i r.1 with
    | Except.error e => Except.error e
    | Except.ok hdr1 =>
      if r.1 ≥ 0 then
        allocDirect n (i + 1) hdr1
          { st with freeMap := r.2, dataClaims := st.dataClaims ++ [r.1] }
      else Except.error Fault.assertion

/-- The loop shared by lines 83-95, 98-110 and 113-125, for the stride `cap`,
with `n = NumDirect - i` iterations left: claim a sector for the child header,
allocate the child (its result is ignored), write the child back. -/
def allocIndirect (child : FsState → Int → Except Fault (Bool × FileHeader × FsState))
    (cap : Int) : Nat → Nat → Int → FileHeader → FsState → Except Fault (FileHeader × FsState)
  | 0, _, _, hdr, st => Except.ok (hdr, st)
  | n + 1, i, fileSize, hdr, st =>
    if fileSize > 0 then
      let r := FindAndSet st.freeMap
      match hdr.setSector i r.1 with
      | Except.error e => Except.error e
      | Except.ok hdr1 =>
        let st1 := { st with freeMap := r.2, headerClaims := st.headerClaims ++ [r.1] }
        match child st1 (if fileSize > cap then cap else fileSize) with
        | Except.error e => Except.error e
        | Except.ok (_, nextHDR, st2) =>
          allocIndirect child cap n (i + 1) (fileSize - cap) hdr1
            { st2 with disk := WriteBack st2.disk r.1 nextHDR }
    else Except.ok (hdr, st)

/-- Method `FileHeader::Allocate` (lines 74-137) on the header `this`, with a bound
on the depth of the recursion. -/
def AllocateFuel (g : Geometry) :
    Nat → FileHeader → FsState → Int → Except Fault (Bool × FileHeader × FsState)
  | 0, _, _, _ => Except.error Fault.fuel
  | fuel + 1, this, st, fileSize =>
    let hdr := { this with numBytes := fileSize,
                           numSectors := divRoundUp fileSize g.SectorSize }
    if NumClear st.freeMap < hdr.numSectors then Except.ok (false, hdr, st)
    else
      let child := fun s z => AllocateFuel g fuel (FileHeader.new g) s z
      let done := fun (r : Except Fault (FileHeader × FsState)) =>
        match r with
        | Except.error e => Except.error e
        | Except.ok (h, s) => Except.ok (true, h, s)
      if fileSize > g.fileLevel4 then
        done (allocIndirect child g.fileLevel4 g.NumDirect 0 fileSize hdr st)
      else if fileSize > g.fileLevel3 then
        done (allocIndirect child g.fileLevel3 g.NumDirect 0 fileSize hdr st)
      else if fileSize > g.fileLevel2 then
        done (allocIndirect child g.fileLevel2 g.NumDirect 0 fileSize hdr st)
      else
        done (allocDirect hdr.numSectors.toNat 0 hdr st)

/-- Method `FileHeader::Allocate`: a child is allocated with at most the stride of
its parent, so the recursion is at most four calls deep. -/
def Allocate (g : Geometry) (this : FileHeader) (st : FsState) (fileSize : Int) :
    Except Fault (Bool × FileHeader × FsState) :=
  AllocateFuel g 4 this st fileSize

/-- Method `FileHeader::ByteToSector` (lines 219-250) on the header `this`, with a
bound on the depth of the recursion. -/
def ByteToSectorFuel (g : Geometry) : Nat → Disk → FileHeader → Int → Except Fault Int
  | 0, _, _, _ => Except.error Fault.fuel
  | fuel + 1, disk, this, offset =>
    let descend := fun (stride : Int) =>
      let sector := divRoundDown offset stride
      match this.getSector sector with
      | Except.error e => Except.error e
      | Except.ok s =>
        ByteToSectorFuel g fuel disk (FetchFrom disk s) (offset - sector * stride)
    if this.numBytes > g.fileLevel4 then descend g.fileLevel4
    else if this.numBytes > g.fileLevel3 then descend g.fileLevel3
    else if this.numBytes > g.fileLevel2 then descend g.fileLevel2
    else this.getSector (Int.tdiv offset g.SectorSize)

/-- Method `FileHeader::ByteToSector` on a header built by `Allocate`. -/
def ByteToSector (g : Geometry) (disk : Disk) (this : FileHeader) (offset : Int) :
    Except Fault Int :=
  ByteToSectorFuel g 4 disk this offset

/-- Number of `FindAndSet` calls one pass of the child loop makes when every
child is allocated in full: one for each child header plus what the child
itself needs. -/
def childrenNeeded (child : Int → Nat) (cap : Int) : Nat → Int → Nat
  | 0, _ => 0
  | n + 1, fileSize =>
    if fileSize > 0 then
      1 + child (if fileSize > cap then cap else fileSize)
        + childrenNeeded child cap n (fileSize - cap)
    else 0

/-- Number of sectors a file of `fileSize` bytes takes from the free map:
its data sectors and the sectors of its child headers at every level. -/
def sectorsNeededFuel (g : Geometry) : Nat → Int → Nat
  | 0, _ => 0
  | fuel + 1, fileSize =>
    if fileSize > g.fileLevel4 then
      childrenNeeded (sectorsNeededFuel g fuel) g.fileLevel4 g.NumDirect fileSize
    else if fileSize > g.fileLevel3 then
      childrenNeeded (sectorsNeededFuel g fuel) g.fileLevel3 g.NumDirect fileSize
    else if fileSize > g.fileLevel2 then
      childrenNeeded (sectorsNeededFuel g fuel) g.fileLevel2 g.NumDirect fileSize
    else (divRoundUp fileSize g.SectorSize).toNat

/-- Sectors needed by a file of `fileSize` bytes (data and child headers). -/
def sectorsNeeded (g : Geometry) (fileSize : Int) : Nat := sectorsNeededFuel g 4 fileSize

/-- How a run of sector requests that were all served changes the state:
`need` bits were set, no bit was cleared, only sectors that were free before
were written, and `new` are the data sectors claimed, each of them free before
and set afterwards. -/
structure Extends (st st1 : FsState) (need : Nat) (new : List Int) : Prop where
  numClear : NumClear st1.freeMap + (need : Int) = NumClear st.freeMap
  mono : ∀ x, IsFree st1.freeMap x → IsFree st.freeMap x
  frame : ∀ x, ¬ IsFree st.freeMap x → st1.disk x = st.disk x
  claims : st1.dataClaims = st.dataClaims ++ new
  fresh : ∀ x ∈ new, IsFree st.freeMap x ∧ ¬ IsFree st1.freeMap x

/-- The header `hdr` maps every offset below `size` to the data sector claimed
for its block, on every disk that holds what the allocation wrote to the
sectors it claimed. -/
def ReadsBack (g : Geometry) (read : Disk → FileHeader → Int → Except Fault Int)
    (st st1 : FsState) (hdr : FileHeader) (size : Int) (new : List Int) : Prop :=
  ∀ d : Disk, (∀ x, IsFree st.freeMap x → ¬ IsFree st1.freeMap x → d x = st1.disk x) →
    ∀ o : Int, 0 ≤ o → o < size →
      ∃ s, new[(o / (g.SectorSize : Int)).toNat]? = some s ∧ read d hdr o = Except.ok s

/-- The fuel `f` covers the depth of the index tree of a file of `size` bytes. -/
def FuelOK (g : Geometry) (f : Nat) (size : Int) : Prop :=
  1 ≤ f ∧ (size ≤ g.fileLevel2 ∨ 2 ≤ f) ∧ (size ≤ g.fileLevel3 ∨ 3 ≤ f)
    ∧ (size ≤ g.fileLevel4 ∨ 4 ≤ f)

/-- What a successful allocation of `size` bytes with fuel `f` guarantees. -/
def AllocSpec (g : Geometry) (f : Nat) (size : Int) : Prop :=
  ∀ (this : FileHeader) (st : FsState), this.dataSectors.length = g.NumDirect →
    (sectorsNeededFuel g f size : Int) ≤ NumClear st.freeMap →
    ∃ hdr st1 new, AllocateFuel g f this st size = Except.ok (true, hdr, st1)
      ∧ Extends st st1 (sectorsNeededFuel g f size) new
      ∧ (new.length : Int) = divRoundUp size g.SectorSize
      ∧ ReadsBack g (ByteToSectorFuel g f) st st1 hdr size new

/-! ## Part III: deallocation, directories and the file system -/

/-- Modelled from the spec: `Bitmap::Test` of `lib/bitmap.h` (not among the
sources): whether bit `which` is set; a bit outside the map fails the
assertion of the routine. -/
def Test (m : List Bool) (which : Int) : Except Fault Bool :=
  if 0 ≤ which ∧ which < m.length then Except.ok (m.getD which.toNat false)
  else Except.error Fault.assertion

/-- Modelled from the spec: `Bitmap::Clear` of `lib/bitmap.h` (not among the
sources): bit `which` becomes 0 (free); a bit outside the map fails the
assertion of the routine. -/
def Clear (m : List Bool) (which : Int) : Except Fault (List Bool) :=
  if 0 ≤ which ∧ which < m.length then Except.ok (m.set which.toNat false)
  else Except.error Fault.assertion

/-- Modelled from the spec: `Bitmap::Mark` of `lib/bitmap.h` (not among the
sources): bit `which` becomes 1 (allocated); a bit outside the map fails the
assertion of the routine. -/
def Mark (m : List Bool) (which : Int) : Except Fault (List Bool) :=
  if 0 ≤ which ∧ which < m.length then Except.ok (m.set which.toNat true)
  else Except.error Fault.assertion

/-- The loop of lines 159-162 of `Deallocate`, with `n` iterations left and
loop index `i`: the sector must be marked, and is cleared. -/
def deallocDirect : Nat → Nat → FileHeader → List Bool → Except Fault (List Bool)
  | 0, _, _, m => Except.ok m
  | n + 1, i, hdr, m =>
    match hdr.getSector i with
    | Except.error e => Except.error e
    | Except.ok s =>
      match Test m s with
      | Except.error e => Except.error e
      | Except.ok false => Except.error Fault.assertion
      | Except.ok true =>
        match Clear m s with
        | Except.error e => Except.error e
        | Except.ok m1 => deallocDirect n (i + 1) hdr m1

/-- The loop of lines 151-156 of `Deallocate`, with `n` iterations left and
loop index `i`: the child header is fetched from `dataSectors[i]` and
deallocated; nothing else is done with `dataSectors[i]`. -/
def deallocIndirect (child : FileHeader → List Bool → Except Fault (List Bool))
    (disk : Disk) : Nat → Nat → FileHeader → List Bool → Except Fault (List Bool)
  | 0, _, _, m => Except.ok m
  | n + 1, i, hdr, m =>
    match hdr.getSector i with
    | Except.error e => Except.error e
    | Except.ok s =>
      match child (FetchFrom disk s) m with
      | Except.error e => Except.error e
      | Except.ok m1 => deallocIndirect child disk n (i + 1) hdr m1

/-- Method `FileHeader::Deallocate` (lines 146-165) on the header `this`, with
a bound `fuel` on the depth of the recursion through the headers on disk. -/
def Deallocate (g : Geometry) : Nat → Disk → FileHeader → List Bool → Except Fault (List Bool)
  | 0, _, _, _ => Except.error Fault.fuel
  | fuel + 1, disk, this, freeMap =>
    if this.numBytes > g.fileLevel2 then
      deallocIndirect (Deallocate g fuel disk) disk
        (divRoundUp this.numSectors g.NumDirect).toNat 0 this freeMap
    else
      deallocDirect this.numSectors.toNat 0 this freeMap

/-- Method `FileHeader::FileLength` (lines 257-261). -/
def FileHeader.FileLength (hdr : FileHeader) : Int := hdr.numBytes

/-- Constants of the disk and of the directory that the sources do not give:
the geometry, the number of sectors of the disk and `sizeof(DirectoryEntry)`. -/
structure DiskConfig where
  g : Geometry
  NumSectors : Nat
  DirectoryEntrySize : Nat

/-- Macro `NumDirEntries` (line 66 of `filesys.cc`). -/
def NumDirEntries : Nat := 64

/-- Macro `DirectoryFileSize` (line 67 of `filesys.cc`). -/
def DiskConfig.DirectoryFileSize (c : DiskConfig) : Int :=
  (c.DirectoryEntrySize : Int) * (NumDirEntries : Int)

/-- Macro `FreeMapFileSize` (line 64 of `filesys.cc`), with 8 bits in a byte. -/
def DiskConfig.FreeMapFileSize (c : DiskConfig) : Int := ((c.NumSectors / 8 : Nat) : Int)

/-- Macro `FreeMapSector` (line 58 of `filesys.cc`). -/
def FreeMapSector : Int := 0

/-- Macro `DirectorySector` (line 59 of `filesys.cc`). -/
def DirectorySector : Int := 1

/-- Modelled from the spec: a directory entry, `inUse`, `isFile`, `sector` and
`name` (section 3; `directory.h` is not among the sources). -/
structure DirectoryEntry where
  inUse : Bool
  isFile : Bool
  sector : Int
  name : String
deriving DecidableEq

/-- Modelled from the spec: `new Directory(size)`, a table of `size` entries
none of which is in use. -/
def Directory.new (size : Nat) : List DirectoryEntry :=
  List.replicate size { inUse := false, isFile := false, sector := 0, name := "" }

/-- Modelled from the spec: `Directory::Find(name)`, the sector of the entry
in use with that name, or -1. -/
def Directory.Find : List DirectoryEntry → String → Int
  | [], _ => -1
  | e :: table, name =>
    if e.inUse = true ∧ e.name = name then e.sector else Directory.Find table name

/-- Modelled from the spec: `Directory::IsFile(name)`, the `isFile` flag of
the entry in use with that name. -/
def Directory.IsFile : List DirectoryEntry → String → Bool
  | [], _ => false
  | e :: table, name =>
    if e.inUse = true ∧ e.name = name then e.isFile else Directory.IsFile table name

/-- Whether some entry in use has the name. -/
def Directory.hasName : List DirectoryEntry → String → Bool
  | [], _ => false
  | e :: table, name =>
    if e.inUse = true ∧ e.name = name then true else Directory.hasName table name

/-- Put an entry in the first slot that is not in use; `none` when the table
is full. -/
def Directory.fill (new : DirectoryEntry) : List DirectoryEntry → Option (List DirectoryEntry)
  | [] => none
  | e :: table =>
    if e.inUse = true then
      match Directory.fill new table with
      | none => none
      | some table1 => some (e :: table1)
    else some (new :: table)

/-- Modelled from the spec: `Directory::Add(name, sector, isFile)`; it fails
(`none`) when the name is already in the directory or the directory is full,
and otherwise fills the first unused slot. -/
def Directory.Add (table : List DirectoryEntry) (name : String) (sector : Int)
    (isFile : Bool) : Option (List DirectoryEntry) :=
  if Directory.hasName table name = true then none
  else Directory.fill { inUse := true, isFile := isFile, sector := sector, name := name } table

/-- Modelled from the spec: `Directory::Remove(name)`; the slot of the entry
is left unused, the other slots are not touched. -/
def Directory.Remove : List DirectoryEntry → String → Bool × List DirectoryEntry
  | [], _ => (false, [])
  | e :: table, name =>
    if e.inUse = true ∧ e.name = name then (true, { e with inUse := false } :: table)
    else ((Directory.Remove table name).1, e :: (Directory.Remove table name).2)

/-- Modelled from the spec: an open file, the in-memory copy of the header
that `new OpenFile(sector)` fetches (`openfile.h` is not among the sources). -/
structure OpenFile where
  hdr : FileHeader
deriving DecidableEq

/-- Modelled from the spec: `new OpenFile(sector)`. -/
def OpenFile.new (disk : Disk) (sector : Int) : OpenFile := { hdr := FetchFrom disk sector }

/-- The file system on its disk: the persisted free map (content of the file
whose header is in sector 0), the header sectors, the directory tables held
in file data (by the first data sector of the file), the two files kept open
and the single slot for the file opened by `Open`. -/
structure FileSystem where
  freeMap : List Bool
  disk : Disk
  dirData : Int → List DirectoryEntry
  freeMapFile : OpenFile
  directoryFile : OpenFile
  currentOpenedFile : Option OpenFile

/-- Modelled from the spec: `Directory::FetchFrom(file)`, the table stored in
the data of the file, which is found through the header of the open file. -/
def Directory.FetchFrom (g : Geometry) (fuel : Nat) (fs : FileSystem) (file : OpenFile) :
    Except Fault (List DirectoryEntry) :=
  match ByteToSectorFuel g fuel fs.disk file.hdr 0 with
  | Except.error e => Except.error e
  | Except.ok s => Except.ok (fs.dirData s)

/-- Modelled from the spec: `Directory::WriteBack(file)`, the table is stored
in the data of the file. -/
def Directory.WriteBack (g : Geometry) (fuel : Nat) (fs : FileSystem)
    (table : List DirectoryEntry) (file : OpenFile) : Except Fault FileSystem :=
  match ByteToSectorFuel g fuel fs.disk file.hdr 0 with
  | Except.error e => Except.error e
  | Except.ok s =>
    Except.ok { fs with dirData := fun x => if x = s then table else fs.dirData x }

/-- The loop of lines 209-220 of `Create` (the same in `CreateDirectory`,
lines 466-476) over the components `strtok` yields: every component found in
the current directory is opened and read as a directory.  The result is the
directory, the file it was read from and the name: the component not found,
or the last component when all were found. -/
def createWalk (g : Geometry) (fuel : Nat) (fs : FileSystem) :
    List DirectoryEntry → OpenFile → Option String → List String →
    Except Fault (List DirectoryEntry × OpenFile × Option String)
  | directory, tmpFile, prev_token, [] => Except.ok (directory, tmpFile, prev_token)
  | directory, tmpFile, _, token :: rest =>
    if Directory.Find directory token = -1 then Except.ok (directory, tmpFile, some token)
    else
      match Directory.FetchFrom g fuel fs
          (OpenFile.new fs.disk (Directory.Find directory token)) with
      | Except.error e => Except.error e
      | Except.ok directory1 =>
        createWalk g fuel fs directory1
          (OpenFile.new fs.disk (Directory.Find directory token)) (some token) rest

/-- The loop of lines 278-288 of `Open` (the same in `Remove`, lines 333-343):
as `createWalk`, but the walk also stops at a component that is a file. -/
def openWalk (g : Geometry) (fuel : Nat) (fs : FileSystem) :
    List DirectoryEntry → OpenFile → Option String → List String →
    Except Fault (List DirectoryEntry × OpenFile × Option String)
  | directory, tmpFile, prev_token, [] => Except.ok (directory, tmpFile, prev_token)
  | directory, tmpFile, _, token :: rest =>
    if Directory.Find directory token = -1 ∨ Directory.IsFile directory token = true then
      Except.ok (directory, tmpFile, some token)
    else
      match Directory.FetchFrom g fuel fs
          (OpenFile.new fs.disk (Directory.Find directory token)) with
      | Except.error e => Except.error e
      | Except.ok directory1 =>
        openWalk g fuel fs directory1
          (OpenFile.new fs.disk (Directory.Find directory token)) (some token) rest

/-- Method `FileSystem::Create` (lines 187-253) on the components of the
path.  The changes to the free map and to the directory stay in memory unless
everything worked (lines 241-243); what `Allocate` wrote to the disk is on the
disk. -/
def Create (c : DiskConfig) (fuel : Nat) (fs : FileSystem) (path : List String)
    (initialSize : Int) : Except Fault (Bool × FileSystem) :=
  match Directory.FetchFrom c.g fuel fs fs.directoryFile with
  | Except.error e => Except.error e
  | Except.ok root =>
    match createWalk c.g fuel fs root fs.directoryFile path.head? path with
    | Except.error e => Except.error e
    | Except.ok (_, _, none) => Except.error Fault.nullPointer
    | Except.ok (directory, tmpFile, some name) =>
      if Directory.Find directory name ≠ -1 then Except.ok (false, fs)
      else
        if (FindAndSet fs.freeMap).1 = -1 then Except.ok (false, fs)
        else
          match Directory.Add directory name (FindAndSet fs.freeMap).1 true with
          | none => Except.ok (false, fs)
          | some directory1 =>
            match Allocate c.g (FileHeader.new c.g)
                { freeMap := (FindAndSet fs.freeMap).2, disk := fs.disk,
                  dataClaims := [], headerClaims := [] } initialSize with
            | Except.error e => Except.error e
            | Except.ok (false, _, st1) => Except.ok (false, { fs with disk := st1.disk })
            | Except.ok (true, hdr, st1) =>
              match Directory.WriteBack c.g fuel
                  { fs with disk := WriteBack st1.disk (FindAndSet fs.freeMap).1 hdr }
                  directory1 tmpFile with
              | Except.error e => Except.error e
              | Except.ok fs1 => Except.ok (true, { fs1 with freeMap := st1.freeMap })

/-- Method `FileSystem::CreateDirectory` (lines 447-509) on the components of
the path.  On every path on which it does not succeed, line 504 deletes the
pointer `subDirectoryFile` that was never set: a fault. -/
def CreateDirectory (c : DiskConfig) (fuel : Nat) (fs : FileSystem) (path : List String) :
    Except Fault (Bool × FileSystem) :=
  match Directory.FetchFrom c.g fuel fs fs.directoryFile with
  | Except.error e => Except.error e
  | Except.ok root =>
    match createWalk c.g fuel fs root fs.directoryFile path.head? path with
    | Except.error e => Except.error e
    | Except.ok (_, _, none) => Except.error Fault.nullPointer
    | Except.ok (directory, tmpFile, some name) =>
      if Directory.Find directory name ≠ -1 then Except.error Fault.wildPointer
      else
        if (FindAndSet fs.freeMap).1 = -1 then Except.error Fault.wildPointer
        else
          match Directory.Add directory name (FindAndSet fs.freeMap).1 false with
          | none => Except.error Fault.wildPointer
          | some directory1 =>
            match Allocate c.g (FileHeader.new c.g)
                { freeMap := (FindAndSet fs.freeMap).2, disk := fs.disk,
                  dataClaims := [], headerClaims := [] } c.DirectoryFileSize with
            | Except.error e => Except.error e
            | Except.ok (false, _, _) => Except.error Fault.wildPointer
            | Except.ok (true, hdr, st1) =>
              match Directory.WriteBack c.g fuel
                  { fs with disk := WriteBack st1.disk (FindAndSet fs.freeMap).1 hdr }
                  (Directory.new NumDirEntries)
                  (OpenFile.new (WriteBack st1.disk (FindAndSet fs.freeMap).1 hdr)
                    (FindAndSet fs.freeMap).1) with
              | Except.error e => Except.error e
              | Except.ok fs1 =>
                match Directory.WriteBack c.g fuel fs1 directory1 tmpFile with
                | Except.error e => Except.error e
                | Except.ok fs2 => Except.ok (true, { fs2 with freeMap := st1.freeMap })

/-- Method `FileSystem::Open` (lines 266-300) on the components of the path:
the result is `currentOpenedFile`, which is only assigned when the name is
found. -/
def Open (c : DiskConfig) (fuel : Nat) (fs : FileSystem) (path : List String) :
    Except Fault (Option OpenFile × FileSystem) :=
  match Directory.FetchFrom c.g fuel fs fs.directoryFile with
  | Except.error e => Except.error e
  | Except.ok root =>
    match openWalk c.g fuel fs root fs.directoryFile path.head? path with
    | Except.error e => Except.error e
    | Except.ok (_, _, none) => Except.error Fault.nullPointer
    | Except.ok (_, tmpFile, some name) =>
      match Directory.FetchFrom c.g fuel fs tmpFile with
      | Except.error e => Except.error e
      | Except.ok directory =>
        if Directory.Find directory name ≥ 0 then
          Except.ok (some (OpenFile.new fs.disk (Directory.Find directory name)),
            { fs with
              currentOpenedFile := some (OpenFile.new fs.disk (Directory.Find directory name)) })
        else Except.ok (fs.currentOpenedFile, fs)

/-- Method `FileSystem::Close` (lines 518-523). -/
def Close (fs : FileSystem) : Int × FileSystem := (1, { fs with currentOpenedFile := none })

/-- Method `FileSystem::Remove` (lines 316-371) on the components of the
path. -/
def Remove (c : DiskConfig) (fuel : Nat) (fs : FileSystem) (path : List String) :
    Except Fault (Bool × FileSystem) :=
  match Directory.FetchFrom c.g fuel fs fs.directoryFile with
  | Except.error e => Except.error e
  | Except.ok root =>
    match openWalk c.g fuel fs root fs.directoryFile path.head? path with
    | Except.error e => Except.error e
    | Except.ok (_, _, none) => Except.error Fault.nullPointer
    | Except.ok (_, tmpFile, some name) =>
      match Directory.FetchFrom c.g fuel fs tmpFile with
      | Except.error e => Except.error e
      | Except.ok directory =>
        if Directory.Find directory name = -1 then Except.ok (false, fs)
        else
          match Deallocate c.g fuel fs.disk (FetchFrom fs.disk (Directory.Find directory name))
              fs.freeMap with
          | Except.error e => Except.error e
          | Except.ok freeMap1 =>
            match Clear freeMap1 (Directory.Find directory name) with
            | Except.error e => Except.error e
            | Except.ok freeMap2 =>
              match Directory.WriteBack c.g fuel fs (Directory.Remove directory name).2
                  tmpFile with
              | Except.error e => Except.error e
              | Except.ok fs1 => Except.ok (true, { fs1 with freeMap := freeMap2 })

/-- A sector of a disk that was never written, read as a file header. -/
def FileHeader.blank (g : Geometry) : FileHeader :=
  { numBytes := 0, numSectors := 0, dataSectors := List.replicate g.NumDirect 0 }

/-- Constructor `FileSystem::FileSystem(format = TRUE)` (lines 82-146) on a
disk that was never written: sectors 0 and 1 are marked, the two files are
allocated, their headers written and the empty directory stored. -/
def FileSystem.format (c : DiskConfig) (fuel : Nat) : Except Fault FileSystem :=
  match Mark (List.replicate c.NumSectors false) FreeMapSector with
  | Except.error e => Except.error e
  | Except.ok m0 =>
    match Mark m0 DirectorySector with
    | Except.error e => Except.error e
    | Except.ok m1 =>
      match Allocate c.g (FileHeader.new c.g)
          { freeMap := m1, disk := fun _ => FileHeader.blank c.g,
            dataClaims := [], headerClaims := [] } c.FreeMapFileSize with
      | Except.error e => Except.error e
      | Except.ok (false, _, _) => Except.error Fault.assertion
      | Except.ok (true, mapHdr, st1) =>
        match Allocate c.g (FileHeader.new c.g)
            { st1 with dataClaims := [], headerClaims := [] } c.DirectoryFileSize with
        | Except.error e => Except.error e
        | Except.ok (false, _, _) => Except.error Fault.assertion
        | Except.ok (true, dirHdr, st2) =>
          Directory.WriteBack c.g fuel
            { freeMap := st2.freeMap,
              disk := WriteBack (WriteBack st2.disk FreeMapSector mapHdr) DirectorySector dirHdr,
              dirData := fun _ => Directory.new NumDirEntries,
              freeMapFile := OpenFile.new
                (WriteBack (WriteBack st2.disk FreeMapSector mapHdr) DirectorySector dirHdr)
                FreeMapSector,
              directoryFile := OpenFile.new
                (WriteBack (WriteBack st2.disk FreeMapSector mapHdr) DirectorySector dirHdr)
                DirectorySector,
              currentOpenedFile := none }
            (Directory.new NumDirEntries)
            (OpenFile.new
              (WriteBack (WriteBack st2.disk FreeMapSector mapHdr) DirectorySector dirHdr)
              DirectorySector)

/-- The machine of the examples: sectors of 128 bytes, 30 direct pointers,
1024 sectors, directory entries of 20 bytes. -/
def DiskConfig.nachos : DiskConfig :=
  { g := Geometry.nachos, NumSectors := 1024, DirectoryEntrySize := 20 }

/-- Whether the walk of `Open` and `Remove` (lines 333-343) reaches a
component that is not found in the directory reached at that point. -/
def openWalkMisses (g : Geometry) (fuel : Nat) (fs : FileSystem) :
    List DirectoryEntry → List String → Bool
  | _, [] => false
  | directory, token :: rest =>
    if Directory.Find directory token = -1 then true
    else if Directory.IsFile directory token = true then false
    else
      match Directory.FetchFrom g fuel fs
          (OpenFile.new fs.disk (Directory.Find directory token)) with
      | Except.error _ => false
      | Except.ok directory1 => openWalkMisses g fuel fs directory1 rest

/-- The stride of the branch of `Allocate` (lines 82, 97, 112) that a size
above `fileLevel2` takes: the size given to a child that is allocated in
full. -/
def Geometry.stride (g : Geometry) (fileSize : Int) : Int :=
  if fileSize > g.fileLevel4 then g.fileLevel4
  else if fileSize > g.fileLevel3 then g.fileLevel3
  else g.fileLevel2

/-- What the sector requests of a run of `Allocate` have in common, whether
or not all of them were served: `nd` are the data sectors claimed and `nh` the
results of the requests for child headers, no bit was cleared, every data
sector was free before and is set afterwards, no data sector was claimed
twice, and none is one of `nh`; a request for a child header that was not
served gave -1. -/
structure Claims (st st1 : FsState) (nd nh : List Int) : Prop where
  data : st1.dataClaims = st.dataClaims ++ nd
  headers : st1.headerClaims = st.headerClaims ++ nh
  mono : ∀ x, IsFree st1.freeMap x → IsFree st.freeMap x
  freshData : ∀ x ∈ nd, IsFree st.freeMap x ∧ ¬ IsFree st1.freeMap x
  freshHeaders : ∀ x ∈ nh, x = -1 ∨ (IsFree st.freeMap x ∧ ¬ IsFree st1.freeMap x)
  nodup : nd.Nodup
  disjoint : ∀ x ∈ nd, x ∉ nh

/-- Walk of `Create` over components that are all found: the directory
reached and the file it was read from; `none` when a component is missing or
cannot be read. -/
def walkAll (g : Geometry) (fuel : Nat) (fs : FileSystem) :
    List DirectoryEntry → OpenFile → List String → Option (List DirectoryEntry × OpenFile)
  | directory, tmpFile, [] => some (directory, tmpFile)
  | directory, _, token :: rest =>
    if Directory.Find directory token = -1 then none
    else
      match Directory.FetchFrom g fuel fs
          (OpenFile.new fs.disk (Directory.Find directory token)) with
      | Except.error _ => none
      | Except.ok directory1 =>
        walkAll g fuel fs directory1
          (OpenFile.new fs.disk (Directory.Find directory token)) rest

section SortedInsert
variable {α : Type} {κ : Type} [LinearOrder κ]

theorem SortedListInsert_perm (cmp : α → α → Int) (x : α) (l : List α) :
    List.Perm (SortedListInsert cmp x l) (x :: l) := by
  induction l with
  | nil => simp [SortedListInsert]
  | cons y l ih =>
    unfold SortedListInsert
    split_ifs
    · exact List.Perm.refl _
    · exact (List.Perm.cons y ih).trans (List.Perm.swap x y l)

theorem SortedListInsert_mem (cmp : α → α → Int) (x a : α) (l : List α) :
    a ∈ SortedListInsert cmp x l ↔ a = x ∨ a ∈ l := by
  rw [(SortedListInsert_perm cmp x l).mem_iff]; simp

theorem SortedListInsert_length (cmp : α → α → Int) (x : α) (l : List α) :
    (SortedListInsert cmp x l).length = l.length + 1 := by
  rw [(SortedListInsert_perm cmp x l).length_eq]; simp

theorem SortedListInsert_pairwise (cmp : α → α → Int) (key : α → κ)
    (hc : ∀ a b, cmp a b < 0 ↔ key a < key b) (x : α) (l : List α)
    (hl : l.Pairwise (fun a b => key a ≤ key b)) :
    (SortedListInsert cmp x l).Pairwise (fun a b => key a ≤ key b) := by
  induction l with
  | nil => simp [SortedListInsert]
  | cons y l ih =>
    rw [List.pairwise_cons] at hl
    unfold SortedListInsert
    split_ifs with h
    · rw [hc] at h
      refine List.pairwise_cons.2 ⟨?_, List.pairwise_cons.2 hl⟩
      intro b hb
      rcases List.mem_cons.1 hb with rfl | hb
      · exact le_of_lt h
      · exact le_trans (le_of_lt h) (hl.1 b hb)
    · rw [hc, not_lt] at h
      refine List.pairwise_cons.2 ⟨?_, ih hl.2⟩
      intro b hb
      rcases (SortedListInsert_mem cmp x b l).1 hb with rfl | hb
      · exact h
      · exact hl.1 b hb

theorem SortedListInsert_filter (cmp : α → α → Int) (key : α → κ)
    (hc : ∀ a b, cmp a b < 0 ↔ key a < key b) (x : α) (l : List α)
    (hl : l.Pairwise (fun a b => key a ≤ key b)) (c : κ) :
    (SortedListInsert cmp x l).filter (fun a => decide (key a = c))
      = l.filter (fun a => decide (key a = c)) ++ (if key x = c then [x] else []) := by
  induction l with
  | nil => by_cases hx : key x = c <;> simp [SortedListInsert, hx]
  | cons y l ih =>
    rw [List.pairwise_cons] at hl
    unfold SortedListInsert
    split_ifs with h hx hx
    · -- x goes in front; nothing behind it has key c
      rw [hc] at h
      have hy : key y ≠ c := by rw [← hx]; exact ne_of_gt h
      have hnone : l.filter (fun a => decide (key a = c)) = [] := by
        rw [List.filter_eq_nil_iff]
        intro b hb
        have := hl.1 b hb
        simp only [decide_eq_true_eq]
        intro hbc
        rw [← hx] at hbc
        exact absurd (lt_of_lt_of_le h this) (by rw [hbc]; exact lt_irrefl _)
      simp [List.filter_cons, hx, hy, hnone]
    · simp [List.filter_cons, hx]
    · simp only [List.filter_cons, ih hl.2, if_pos hx]
      split_ifs <;> simp
    · simp only [List.filter_cons, ih hl.2, if_neg hx]
      split_ifs <;> simp

end SortedInsert

theorem SJFSort_lt (a b : Thread) :
    SJFSort a b < 0 ↔ a.approximate_burst_time < b.approximate_burst_time := by
  unfold SJFSort
  split_ifs <;> simp_all

theorem PrioritySort_lt (a b : Thread) :
    PrioritySort a b < 0 ↔ -a.priority < -b.priority := by
  unfold PrioritySort
  split_ifs <;> simp_all

/-! ## `ReadyToRun`, `FindNextToRun` -/

/-- The condition under which `ReadyToRun` raises the preemption flag. -/
theorem ReadyToRun_eq (k : Kernel) (t : Thread) (hoff : k.level = IntStatus.IntOff) :
    ∃ k1, ReadyToRun k t = some k1 ∧ k1.level = IntStatus.IntOff
      ∧ k1.totalTicks = k.totalTicks ∧ k1.currentThread = k.currentThread
      ∧ k1.isaging = k.isaging
      ∧ k1.L1 = (if 100 ≤ t.priority then
                  SortedListInsert SJFSort (markReady k.totalTicks t) k.L1 else k.L1)
      ∧ k1.L2 = (if 50 ≤ t.priority ∧ t.priority < 100 then
                  SortedListInsert PrioritySort (markReady k.totalTicks t) k.L2 else k.L2)
      ∧ k1.L3 = (if t.priority < 50 then k.L3 ++ [markReady k.totalTicks t] else k.L3)
      ∧ k1.preemtive = (k.preemtive || decide (100 ≤ t.priority ∧
          (k.currentThread.priority < 100
            ∨ k.currentThread.approximate_burst_time > t.approximate_burst_time))) := by
  unfold ReadyToRun
  simp only [hoff, ne_eq, not_true_eq_false, if_false, markReady]
  by_cases h1 : t.priority < 50
  · have h2 : ¬ (100 ≤ t.priority) := by omega
    have h3 : ¬ (50 ≤ t.priority ∧ t.priority < 100) := by omega
    simp [h1, h2, h3, hoff]
  · by_cases h2 : t.priority < 100
    · have h3 : ¬ (100 ≤ t.priority) := by omega
      have h4 : 50 ≤ t.priority ∧ t.priority < 100 := by omega
      simp [h1, h2, h3, h4, hoff]
    · have h3 : 100 ≤ t.priority := by omega
      have h4 : ¬ (50 ≤ t.priority ∧ t.priority < 100) := by omega
      by_cases h5 : t.approximate_burst_time < k.currentThread.approximate_burst_time
          ∨ k.currentThread.priority < 100
      · have h6 : k.currentThread.priority < 100
            ∨ k.currentThread.approximate_burst_time > t.approximate_burst_time := by
          rcases h5 with h | h
          · exact Or.inr h
          · exact Or.inl h
        have h7 : ¬ (t.priority < 100) := h2
        simp only [h1, h7, h3, h4, if_false, if_true, h5, h6, hoff]
        simp
      · have h6 : ¬ (k.currentThread.priority < 100
            ∨ k.currentThread.approximate_burst_time > t.approximate_burst_time) := by
          intro h; apply h5
          rcases h with h | h
          · exact Or.inr h
          · exact Or.inl h
        simp only [h1, h2, h3, h4, if_false, if_true, h5, h6, hoff]
        simp

theorem markReady_priority (now : Int) (t : Thread) : (markReady now t).priority = t.priority := rfl

theorem markReady_burst (now : Int) (t : Thread) :
    (markReady now t).approximate_burst_time = t.approximate_burst_time := rfl

theorem markReady_ID (now : Int) (t : Thread) : (markReady now t).ID = t.ID := rfl

/-- Facts about a run of `readyAll` from a state with interrupts off. -/
theorem readyAll_eq (ts : List Thread) : ∀ (k : Kernel), k.level = IntStatus.IntOff →
    ∃ k1, readyAll k ts = some k1 ∧ k1.level = IntStatus.IntOff
      ∧ k1.totalTicks = k.totalTicks ∧ k1.currentThread = k.currentThread
      ∧ k1.isaging = k.isaging
      ∧ k1.L3 = k.L3 ++ (ts.map (markReady k.totalTicks)).filter (fun t => decide (t.priority < 50))
      ∧ List.Perm k1.L1
          (k.L1 ++ (ts.map (markReady k.totalTicks)).filter (fun t => decide (100 ≤ t.priority)))
      ∧ List.Perm k1.L2 (k.L2 ++ (ts.map (markReady k.totalTicks)).filter
          (fun t => decide (50 ≤ t.priority ∧ t.priority < 100)))
      ∧ (k.L1.Pairwise (fun a b => a.approximate_burst_time ≤ b.approximate_burst_time) →
          k1.L1.Pairwise (fun a b => a.approximate_burst_time ≤ b.approximate_burst_time)
          ∧ ∀ c, k1.L1.filter (fun a => decide (a.approximate_burst_time = c))
              = k.L1.filter (fun a => decide (a.approximate_burst_time = c))
                ++ (ts.map (markReady k.totalTicks)).filter
                    (fun t => decide (100 ≤ t.priority ∧ t.approximate_burst_time = c)))
      ∧ (k.L2.Pairwise (fun a b => -a.priority ≤ -b.priority) →
          k1.L2.Pairwise (fun a b => -a.priority ≤ -b.priority)
          ∧ ∀ c, k1.L2.filter (fun a => decide (-a.priority = c))
              = k.L2.filter (fun a => decide (-a.priority = c))
                ++ (ts.map (markReady k.totalTicks)).filter
                    (fun t => decide ((50 ≤ t.priority ∧ t.priority < 100) ∧ -t.priority = c))) := by
  induction ts with
  | nil =>
    intro k hoff
    exact ⟨k, rfl, hoff, rfl, rfl, rfl, by simp, by simp, by simp,
      fun h => ⟨h, by simp⟩, fun h => ⟨h, by simp⟩⟩
  | cons t ts ih =>
    intro k hoff
    obtain ⟨k1, hk1, hoff1, htick1, hcur1, hag1, hL1, hL2, hL3, -⟩ := ReadyToRun_eq k t hoff
    obtain ⟨k2, hk2, hoff2, htick2, hcur2, hag2, hM3, hM1, hM2, hS1, hS2⟩ := ih k1 hoff1
    refine ⟨k2, ?_, hoff2, by rw [htick2, htick1], by rw [hcur2, hcur1], by rw [hag2, hag1],
      ?_, ?_, ?_, ?_, ?_⟩
    · simp [readyAll, hk1, hk2]
    · rw [hM3, hL3, htick1]
      by_cases h : t.priority < 50 <;> simp [List.filter_cons, markReady_priority, h]
    · rw [htick1, hL1] at hM1
      refine hM1.trans ?_
      by_cases h : 100 ≤ t.priority
      · simp only [if_pos h, List.map_cons, List.filter_cons, markReady_priority, h,
          decide_True, if_true]
        exact ((SortedListInsert_perm _ _ _).append_right _).trans (by
          simp only [List.cons_append]; exact List.perm_middle.symm)
      · simp [List.filter_cons, markReady_priority, h]
    · rw [htick1, hL2] at hM2
      refine hM2.trans ?_
      by_cases h : 50 ≤ t.priority ∧ t.priority < 100
      · simp only [if_pos h, List.map_cons, List.filter_cons, markReady_priority, h,
          decide_True, if_true, and_self]
        exact ((SortedListInsert_perm _ _ _).append_right _).trans (by
          simp only [List.cons_append]; exact List.perm_middle.symm)
      · simp [List.filter_cons, markReady_priority, h]
    · intro hs
      have hs1 : k1.L1.Pairwise
          (fun a b => a.approximate_burst_time ≤ b.approximate_burst_time) := by
        rw [hL1]; split_ifs
        · exact SortedListInsert_pairwise _ _ SJFSort_lt _ _ hs
        · exact hs
      refine ⟨(hS1 hs1).1, fun c => ?_⟩
      rw [(hS1 hs1).2 c, htick1, hL1]
      by_cases h : 100 ≤ t.priority
      · rw [if_pos h, SortedListInsert_filter _ _ SJFSort_lt _ _ hs]
        by_cases hc : t.approximate_burst_time = c
        · simp [List.filter_cons, markReady_priority, markReady_burst, h, hc]
        · simp [List.filter_cons, markReady_priority, markReady_burst, h, hc]
      · simp [List.filter_cons, markReady_priority, h]
    · intro hs
      have hs1 : k1.L2.Pairwise (fun a b => -a.priority ≤ -b.priority) := by
        rw [hL2]; split_ifs
        · exact SortedListInsert_pairwise _ _ PrioritySort_lt _ _ hs
        · exact hs
      refine ⟨(hS2 hs1).1, fun c => ?_⟩
      rw [(hS2 hs1).2 c, htick1, hL2]
      by_cases h : 50 ≤ t.priority ∧ t.priority < 100
      · rw [if_pos h, SortedListInsert_filter _ _ PrioritySort_lt _ _ hs]
        by_cases hc : -t.priority = c
        · simp [List.filter_cons, markReady_priority, h, hc]
        · simp [List.filter_cons, markReady_priority, h, hc]
      · simp [List.filter_cons, markReady_priority, h]

/-- Draining the three queues. -/
theorem findNextN_L3 (l3 : List Thread) : ∀ (k : Kernel), k.level = IntStatus.IntOff →
    k.L1 = [] → k.L2 = [] → k.L3 = l3 →
    ∃ k1, findNextN (l3.length + 1) k = some (l3.map some ++ [none], k1)
      ∧ k1.L1 = [] ∧ k1.L2 = [] ∧ k1.L3 = [] := by
  induction l3 with
  | nil =>
    intro k hoff h1 h2 h3
    exact ⟨k, by simp [findNextN, FindNextToRun, hoff, h1, h2, h3], h1, h2, h3⟩
  | cons t l3 ih =>
    intro k hoff h1 h2 h3
    obtain ⟨k1, hk1, h⟩ := ih { k with L3 := l3 } hoff h1 h2 rfl
    refine ⟨k1, ?_, h⟩
    rw [findNextN]
    simp only [h1, h2, hoff] at hk1
    simp [FindNextToRun, hoff, h1, h2, h3, hk1]

theorem findNextN_L2 (l2 : List Thread) : ∀ (k : Kernel), k.level = IntStatus.IntOff →
    k.L1 = [] → k.L2 = l2 →
    ∃ k1, findNextN (l2.length + k.L3.length + 1) k
        = some ((l2 ++ k.L3).map some ++ [none], k1)
      ∧ k1.L1 = [] ∧ k1.L2 = [] ∧ k1.L3 = [] := by
  induction l2 with
  | nil =>
    intro k hoff h1 h2
    simpa using findNextN_L3 k.L3 k hoff h1 h2 rfl
  | cons t l2 ih =>
    intro k hoff h1 h2
    obtain ⟨k1, hk1, h⟩ := ih { k with L2 := l2 } hoff h1 rfl
    refine ⟨k1, ?_, h⟩
    have : (t :: l2).length + k.L3.length + 1 = (l2.length + k.L3.length + 1) + 1 := by
      simp; omega
    rw [this, findNextN]
    simp only [h1, hoff] at hk1
    simp [FindNextToRun, hoff, h1, h2, hk1]

theorem findNextN_L1 (l1 : List Thread) : ∀ (k : Kernel), k.level = IntStatus.IntOff →
    k.L1 = l1 →
    ∃ k1, findNextN (l1.length + k.L2.length + k.L3.length + 1) k
        = some ((l1 ++ k.L2 ++ k.L3).map some ++ [none], k1)
      ∧ k1.L1 = [] ∧ k1.L2 = [] ∧ k1.L3 = [] := by
  induction l1 with
  | nil =>
    intro k hoff h1
    simpa using findNextN_L2 k.L2 k hoff h1 rfl
  | cons t l1 ih =>
    intro k hoff h1
    obtain ⟨k1, hk1, h⟩ := ih { k with L1 := l1, preemtive := false } hoff rfl
    refine ⟨k1, ?_, h⟩
    have : (t :: l1).length + k.L2.length + k.L3.length + 1
        = (l1.length + k.L2.length + k.L3.length + 1) + 1 := by
      simp; omega
    rw [this, findNextN]
    simp only [hoff] at hk1
    simp [FindNextToRun, hoff, h1, hk1]

/-! ## Bands -/

theorem band_partition_length (l : List Thread) :
    (l.filter (fun t => decide (100 ≤ t.priority))).length
      + (l.filter (fun t => decide (50 ≤ t.priority ∧ t.priority < 100))).length
      + (l.filter (fun t => decide (t.priority < 50))).length = l.length := by
  induction l with
  | nil => rfl
  | cons t l ih =>
    by_cases h1 : t.priority < 50
    · have h2 : ¬ (100 ≤ t.priority) := by omega
      have h3 : ¬ (50 ≤ t.priority ∧ t.priority < 100) := by omega
      simp only [List.filter_cons, h1, h2, h3, decide_True, decide_False, if_true,
        List.length_cons]
      simp only [Bool.false_eq_true, if_false]
      omega
    · by_cases h2 : t.priority < 100
      · have h3 : ¬ (100 ≤ t.priority) := by omega
        have h4 : 50 ≤ t.priority := by omega
        simp only [List.filter_cons, h1, h2, h3, h4, decide_True, decide_False, if_true,
          List.length_cons, and_self]
        simp only [Bool.false_eq_true, if_false]
        omega
      · have h3 : 100 ≤ t.priority := by omega
        have h4 : ¬ (50 ≤ t.priority ∧ t.priority < 100) := by omega
        simp only [List.filter_cons, h1, h3, h4, decide_True, decide_False, if_true,
          List.length_cons]
        simp only [Bool.false_eq_true, if_false]
        omega

theorem band_partition_perm (l : List Thread) :
    List.Perm (l.filter (fun t => decide (100 ≤ t.priority))
      ++ l.filter (fun t => decide (50 ≤ t.priority ∧ t.priority < 100))
      ++ l.filter (fun t => decide (t.priority < 50))) l := by
  induction l with
  | nil => simp
  | cons t l ih =>
    by_cases h1 : t.priority < 50
    · have h2 : ¬ (100 ≤ t.priority) := by omega
      have h3 : ¬ (50 ≤ t.priority ∧ t.priority < 100) := by omega
      simp only [List.filter_cons, h1, h2, h3, decide_True, decide_False, if_true]
      simp only [Bool.false_eq_true, if_false]
      exact List.perm_middle.trans (List.Perm.cons t ih)
    · by_cases h2 : t.priority < 100
      · have h3 : ¬ (100 ≤ t.priority) := by omega
        have h4 : 50 ≤ t.priority := by omega
        simp only [List.filter_cons, h1, h2, h3, h4, decide_True, decide_False, if_true,
          and_self]
        simp only [Bool.false_eq_true, if_false]
        refine List.Perm.trans ?_ (List.Perm.cons t ih)
        rw [List.append_assoc, List.append_assoc]
        exact List.perm_middle
      · have h3 : 100 ≤ t.priority := by omega
        have h4 : ¬ (50 ≤ t.priority ∧ t.priority < 100) := by omega
        simp only [List.filter_cons, h1, h3, h4, decide_True, decide_False, if_true]
        simp only [Bool.false_eq_true, if_false]
        simpa using ih

/-! ## `aging` -/

theorem agingLoop_eq_readyAll (now : Int) (all : List Thread) : ∀ (k : Kernel),
    agingLoop now all k = readyAll k (all.map (agingUpdate now)) := by
  induction all with
  | nil => intro k; rfl
  | cons t all ih =>
    intro k
    simp only [agingLoop, List.map_cons, readyAll]
    cases ReadyToRun k (agingUpdate now t) with
    | none => rfl
    | some k1 => exact ih k1

/-- The thread as `aging` puts it back on a queue at tick `now`. -/
theorem aging_eq (k : Kernel) :
    ∃ k1, aging k = some k1 ∧ k1.level = k.level ∧ k1.totalTicks = k.totalTicks
      ∧ k1.currentThread = k.currentThread ∧ k1.isaging = false
      ∧ k1.L3 = (k.queued.map (fun t => markReady k.totalTicks (agingUpdate k.totalTicks t))).filter
          (fun t => decide (t.priority < 50))
      ∧ List.Perm k1.L1
          ((k.queued.map (fun t => markReady k.totalTicks (agingUpdate k.totalTicks t))).filter
            (fun t => decide (100 ≤ t.priority)))
      ∧ List.Perm k1.L2
          ((k.queued.map (fun t => markReady k.totalTicks (agingUpdate k.totalTicks t))).filter
            (fun t => decide (50 ≤ t.priority ∧ t.priority < 100)))
      ∧ k1.L1.Pairwise (fun a b => a.approximate_burst_time ≤ b.approximate_burst_time)
      ∧ k1.L2.Pairwise (fun a b => -a.priority ≤ -b.priority) := by
  obtain ⟨k1, hk1, hoff1, htick1, hcur1, hag1, hM3, hM1, hM2, hS1, hS2⟩ :=
    readyAll_eq ((k.L1 ++ k.L2 ++ k.L3).map (agingUpdate k.totalTicks))
      { k with isaging := true, level := IntStatus.IntOff, L1 := [], L2 := [], L3 := [] } rfl
  simp only [List.nil_append, List.map_map] at hM3 hM1 hM2
  refine ⟨{ k1 with isaging := false, level := k.level }, ?_, rfl, htick1, hcur1, rfl,
    hM3, hM1, hM2, (hS1 List.Pairwise.nil).1, (hS2 List.Pairwise.nil).1⟩
  simp only [aging, agingLoop_eq_readyAll, hk1]

theorem aging_queued_perm (k : Kernel) :
    ∃ k1, aging k = some k1 ∧ k1.level = k.level ∧ k1.totalTicks = k.totalTicks
      ∧ k1.currentThread = k.currentThread
      ∧ List.Perm k1.queued
          (k.queued.map (fun t => markReady k.totalTicks (agingUpdate k.totalTicks t)))
      ∧ (∀ t ∈ k1.L1, 100 ≤ t.priority)
      ∧ (∀ t ∈ k1.L2, 50 ≤ t.priority ∧ t.priority < 100)
      ∧ (∀ t ∈ k1.L3, t.priority < 50) := by
  obtain ⟨k1, hk1, hl, ht, hc, -, h3, h1, h2, -, -⟩ := aging_eq k
  refine ⟨k1, hk1, hl, ht, hc, ?_, ?_, ?_, ?_⟩
  · unfold Kernel.queued at *
    rw [h3]
    exact ((h1.append h2).append_right _).trans (band_partition_perm _)
  · intro t ht
    have := (h1.mem_iff).1 ht
    simpa using (List.mem_filter.1 this).2
  · intro t ht
    have := (h2.mem_iff).1 ht
    simpa using (List.mem_filter.1 this).2
  · intro t ht
    rw [h3] at ht
    simpa using (List.mem_filter.1 ht).2

theorem agingUpdate_ID (now : Int) (t : Thread) : (agingUpdate now t).ID = t.ID := by
  unfold agingUpdate; simp only; split_ifs <;> rfl

theorem agingUpdate_burst (now : Int) (t : Thread) :
    (agingUpdate now t).approximate_burst_time = t.approximate_burst_time := by
  unfold agingUpdate; simp only; split_ifs <;> rfl

theorem agingUpdate_enter (now : Int) (t : Thread) :
    (agingUpdate now t).enter_ready_time = t.enter_ready_time := by
  unfold agingUpdate; simp only; split_ifs <;> rfl

theorem agingUpdate_promoted (now : Int) (t : Thread)
    (h : t.total_ready_time + (now - t.enter_ready_time) > 1500) :
    (agingUpdate now t).priority = (if t.priority ≤ 139 then t.priority + 10 else 149)
      ∧ (agingUpdate now t).total_ready_time
          = t.total_ready_time + (now - t.enter_ready_time) - 1500 := by
  by_cases hp : t.priority ≤ 139
  · simp [agingUpdate, h, hp]
  · have hp2 : t.priority > 139 := by omega
    simp [agingUpdate, h, hp, hp2]

theorem agingUpdate_kept (now : Int) (t : Thread)
    (h : ¬ t.total_ready_time + (now - t.enter_ready_time) > 1500) :
    (agingUpdate now t).priority = t.priority
      ∧ (agingUpdate now t).total_ready_time
          = t.total_ready_time + (now - t.enter_ready_time) := by
  simp [agingUpdate, h]

/-! ## Claims about the scheduler -/

/-- C1: threads handed to `ReadyToRun` from an empty scheduler, with interrupts
off and no aging, come back from the following `FindNextToRun` calls as
`A ++ B ++ C` and then `NULL`: `A` holds the threads of priority at least 100
in ascending `approximate_burst_time`, equal estimates in enqueue order; `B`
the threads of priority 50..99 in descending priority, equal priorities in
enqueue order; `C` the threads of priority below 50 in enqueue order. -/
theorem dispatch_order (k : Kernel) (ts : List Thread)
    (hoff : k.level = IntStatus.IntOff)
    (h1 : k.L1 = []) (h2 : k.L2 = []) (h3 : k.L3 = []) :
    ∃ k1 k2 A B C, readyAll k ts = some k1
      ∧ findNextN (ts.length + 1) k1 = some ((A ++ B ++ C).map some ++ [none], k2)
      ∧ A.Pairwise (fun a b => a.approximate_burst_time ≤ b.approximate_burst_time)
      ∧ (∀ c : ℚ, A.filter (fun a => decide (a.approximate_burst_time = c))
          = (ts.map (markReady k.totalTicks)).filter
              (fun t => decide (100 ≤ t.priority ∧ t.approximate_burst_time = c)))
      ∧ B.Pairwise (fun a b => a.priority ≥ b.priority)
      ∧ (∀ p : Int, B.filter (fun a => decide (a.priority = p))
          = (ts.map (markReady k.totalTicks)).filter
              (fun t => decide ((50 ≤ t.priority ∧ t.priority < 100) ∧ t.priority = p)))
      ∧ C = (ts.map (markReady k.totalTicks)).filter (fun t => decide (t.priority < 50)) := by
  obtain ⟨k1, hk1, hoff1, -, -, -, hM3, hM1, hM2, hS1, hS2⟩ := readyAll_eq ts k hoff
  rw [h1] at hM1 hS1
  rw [h2] at hM2 hS2
  rw [h3] at hM3
  simp only [List.nil_append, List.filter_nil] at hM1 hM2 hM3 hS1 hS2
  obtain ⟨hA1, hA2⟩ := hS1 List.Pairwise.nil
  obtain ⟨hB1, hB2⟩ := hS2 List.Pairwise.nil
  obtain ⟨k2, hk2, -⟩ := findNextN_L1 k1.L1 k1 hoff1 rfl
  have hlen : k1.L1.length + k1.L2.length + k1.L3.length + 1 = ts.length + 1 := by
    rw [hM1.length_eq, hM2.length_eq, hM3, band_partition_length, List.length_map]
  rw [hlen] at hk2
  refine ⟨k1, k2, k1.L1, k1.L2, k1.L3, hk1, hk2, hA1, hA2, ?_, ?_, hM3⟩
  · exact hB1.imp (fun h => by omega)
  · intro p
    have := hB2 (-p)
    have e1 : ∀ (l : List Thread), l.filter (fun a => decide (-a.priority = -p))
        = l.filter (fun a => decide (a.priority = p)) := by
      intro l; apply List.filter_congr; intro a _; simp
    have e2 : ∀ (l : List Thread),
        l.filter (fun t => decide ((50 ≤ t.priority ∧ t.priority < 100) ∧ -t.priority = -p))
        = l.filter (fun t => decide ((50 ≤ t.priority ∧ t.priority < 100) ∧ t.priority = p)) := by
      intro l; apply List.filter_congr; intro a _; simp
    rw [e1, e2] at this
    exact this

/-- The scenario S1 of the specification run through `dispatch_order`, and its
outcome: T4, T3, T2, T1, then `NULL`. -/
theorem dispatch_order_witness :
    S1_kernel.level = IntStatus.IntOff
    ∧ (∃ k1 k2 A B C, readyAll S1_kernel S1_threads = some k1
      ∧ findNextN (S1_threads.length + 1) k1 = some ((A ++ B ++ C).map some ++ [none], k2)
      ∧ A.Pairwise (fun a b => a.approximate_burst_time ≤ b.approximate_burst_time)
      ∧ (∀ c : ℚ, A.filter (fun a => decide (a.approximate_burst_time = c))
          = (S1_threads.map (markReady S1_kernel.totalTicks)).filter
              (fun t => decide (100 ≤ t.priority ∧ t.approximate_burst_time = c)))
      ∧ B.Pairwise (fun a b => a.priority ≥ b.priority)
      ∧ (∀ p : Int, B.filter (fun a => decide (a.priority = p))
          = (S1_threads.map (markReady S1_kernel.totalTicks)).filter
              (fun t => decide ((50 ≤ t.priority ∧ t.priority < 100) ∧ t.priority = p)))
      ∧ C = (S1_threads.map (markReady S1_kernel.totalTicks)).filter
              (fun t => decide (t.priority < 50)))
    ∧ ((readyAll S1_kernel S1_threads).bind (findNextN 5)).map (fun r => r.1.map (Option.map Thread.ID))
        = some [some 4, some 3, some 2, some 1, none] :=
  ⟨rfl, dispatch_order S1_kernel S1_threads rfl rfl rfl rfl, by decide⟩

/-- C2: with interrupts off, `ReadyToRun(t)` leaves the preemption flag equal
to (old flag) OR (t.priority >= 100 AND (running priority < 100 OR running
burst estimate > t's burst estimate)); an arrival of priority below 100 does
not change the flag, and an L1 arrival whose estimate equals that of the
running L1 thread does not set it. -/
theorem ReadyToRun_preemption (k : Kernel) (t : Thread)
    (hoff : k.level = IntStatus.IntOff) :
    ∃ k1, ReadyToRun k t = some k1
      ∧ k1.preemtive = (k.preemtive || decide (100 ≤ t.priority ∧
          (k.currentThread.priority < 100
            ∨ k.currentThread.approximate_burst_time > t.approximate_burst_time)))
      ∧ (t.priority < 100 → k1.preemtive = k.preemtive)
      ∧ (100 ≤ t.priority → 100 ≤ k.currentThread.priority →
          k.currentThread.approximate_burst_time = t.approximate_burst_time →
          k1.preemtive = k.preemtive) := by
  obtain ⟨k1, hk1, -, -, -, -, -, -, -, hp⟩ := ReadyToRun_eq k t hoff
  refine ⟨k1, hk1, hp, ?_, ?_⟩
  · intro h
    have : ¬ (100 ≤ t.priority) := by omega
    rw [hp]; simp [this]
  · intro _ h2 h3
    have : ¬ (k.currentThread.priority < 100) := by omega
    rw [hp, h3]; simp [this]

/-- The preemption law of the specification: (priority 120, burst 50) arrives
while (priority 120, burst 100) is running, and the flag becomes set. -/
theorem ReadyToRun_preemption_witness :
    (Kernel.init IntStatus.IntOff 7 ⟨1, 120, 100, 0, 0, 0, ThreadStatus.RUNNING⟩).level
        = IntStatus.IntOff
    ∧ (∃ k1, ReadyToRun (Kernel.init IntStatus.IntOff 7 ⟨1, 120, 100, 0, 0, 0, ThreadStatus.RUNNING⟩)
          ⟨2, 120, 50, 0, 0, 0, ThreadStatus.JUST_CREATED⟩ = some k1
      ∧ k1.preemtive = ((Kernel.init IntStatus.IntOff 7
            ⟨1, 120, 100, 0, 0, 0, ThreadStatus.RUNNING⟩).preemtive
          || decide (100 ≤ (⟨2, 120, 50, 0, 0, 0, ThreadStatus.JUST_CREATED⟩ : Thread).priority ∧
          ((Kernel.init IntStatus.IntOff 7
              ⟨1, 120, 100, 0, 0, 0, ThreadStatus.RUNNING⟩).currentThread.priority < 100
            ∨ (Kernel.init IntStatus.IntOff 7
              ⟨1, 120, 100, 0, 0, 0, ThreadStatus.RUNNING⟩).currentThread.approximate_burst_time
              > (⟨2, 120, 50, 0, 0, 0, ThreadStatus.JUST_CREATED⟩ : Thread).approximate_burst_time)))
      ∧ k1.preemtive = true) := by
  refine ⟨rfl, ?_⟩
  obtain ⟨k1, hk1, hp, -⟩ := ReadyToRun_preemption
    (Kernel.init IntStatus.IntOff 7 ⟨1, 120, 100, 0, 0, 0, ThreadStatus.RUNNING⟩)
    ⟨2, 120, 50, 0, 0, 0, ThreadStatus.JUST_CREATED⟩ rfl
  refine ⟨k1, hk1, hp, ?_⟩
  rw [hp]
  decide

/-- C3: with interrupts off, `FindNextToRun` returns the front of L1 if L1 is
not empty, else the front of L2 if L2 is not empty, else the front of L3 if
L3 is not empty, else `NULL`; the returned thread is removed from the front
of its queue and the other queues keep their contents and order. -/
theorem FindNextToRun_front (k : Kernel) (hoff : k.level = IntStatus.IntOff) :
    ∃ r k1, FindNextToRun k = some (r, k1)
      ∧ r = (if k.L1 ≠ [] then k.L1.head?
             else if k.L2 ≠ [] then k.L2.head?
             else if k.L3 ≠ [] then k.L3.head?
             else none)
      ∧ k1.L1 = k.L1.tail
      ∧ k1.L2 = (if k.L1 = [] then k.L2.tail else k.L2)
      ∧ k1.L3 = (if k.L1 = [] ∧ k.L2 = [] then k.L3.tail else k.L3)
      ∧ (k.L1 = [] → k.L2 = [] → k.L3 = [] → r = none ∧ k1 = k) := by
  unfold FindNextToRun
  simp only [hoff, ne_eq, not_true_eq_false, if_false]
  cases h1 : k.L1 with
  | cons t rest => exact ⟨_, _, rfl, by simp, by simp, by simp, by simp, by simp⟩
  | nil =>
    cases h2 : k.L2 with
    | cons t rest => exact ⟨_, _, rfl, by simp, by simp [h1], by simp, by simp, by simp⟩
    | nil =>
      cases h3 : k.L3 with
      | cons t rest =>
        exact ⟨_, _, rfl, by simp, by simp [h1], by simp [h2], by simp, by simp⟩
      | nil => exact ⟨_, _, rfl, by simp, by simp [h1], by simp [h2], by simp [h3], by simp⟩

/-- The queues of scenario S1 after the four arrivals: the front of L1 (T4) is
returned and only L1 loses its front. -/
theorem FindNextToRun_front_witness :
    ∃ k, readyAll S1_kernel S1_threads = some k ∧ k.level = IntStatus.IntOff
      ∧ ∃ r k1, FindNextToRun k = some (r, k1)
      ∧ r = (if k.L1 ≠ [] then k.L1.head?
             else if k.L2 ≠ [] then k.L2.head?
             else if k.L3 ≠ [] then k.L3.head?
             else none)
      ∧ k1.L1 = k.L1.tail
      ∧ k1.L2 = (if k.L1 = [] then k.L2.tail else k.L2)
      ∧ k1.L3 = (if k.L1 = [] ∧ k.L2 = [] then k.L3.tail else k.L3)
      ∧ (k.L1 = [] → k.L2 = [] → k.L3 = [] → r = none ∧ k1 = k) := by
  obtain ⟨k, hk, hoff, -⟩ := readyAll_eq S1_threads S1_kernel rfl
  exact ⟨k, hk, hoff, FindNextToRun_front k hoff⟩

/-- C4: `aging` at tick `now` returns, and puts every queued thread `t` back as
`markReady now (agingUpdate now t)`.  For a priority in 0..149 and
`w = t.total_ready_time + (now - t.enter_ready_time)`: if `w > 1500` the new
priority is `min (priority + 10) 149` and the new `total_ready_time` is
`w - 1500`; otherwise the priority is unchanged and `total_ready_time = w`; in
both cases `enter_ready_time = now`, and the priority rises by at most 10,
never falls, and stays within 0..149. -/
theorem aging_thread (k : Kernel) (t : Thread) (ht : t ∈ k.queued)
    (hp : 0 ≤ t.priority ∧ t.priority ≤ 149) :
    ∃ k1 t1, aging k = some k1
      ∧ t1 = markReady k.totalTicks (agingUpdate k.totalTicks t)
      ∧ t1 ∈ k1.queued ∧ t1.ID = t.ID
      ∧ (t.total_ready_time + (k.totalTicks - t.enter_ready_time) > 1500 →
          t1.priority = min (t.priority + 10) 149
          ∧ t1.total_ready_time
              = t.total_ready_time + (k.totalTicks - t.enter_ready_time) - 1500)
      ∧ (¬ t.total_ready_time + (k.totalTicks - t.enter_ready_time) > 1500 →
          t1.priority = t.priority
          ∧ t1.total_ready_time = t.total_ready_time + (k.totalTicks - t.enter_ready_time))
      ∧ t1.enter_ready_time = k.totalTicks
      ∧ t.priority ≤ t1.priority ∧ t1.priority ≤ t.priority + 10
      ∧ 0 ≤ t1.priority ∧ t1.priority ≤ 149 := by
  obtain ⟨k1, hk1, -, -, -, hperm, -⟩ := aging_queued_perm k
  refine ⟨k1, _, hk1, rfl, ?_, ?_, ?_, ?_, rfl, ?_⟩
  · rw [hperm.mem_iff]
    exact List.mem_map.2 ⟨t, ht, rfl⟩
  · rw [markReady_ID, agingUpdate_ID]
  · intro h
    rw [markReady_priority]
    obtain ⟨h1, h2⟩ := agingUpdate_promoted k.totalTicks t h
    refine ⟨?_, h2⟩
    rw [h1]; split_ifs <;> omega
  · intro h
    rw [markReady_priority]
    exact agingUpdate_kept k.totalTicks t h
  · rw [markReady_priority]
    by_cases h : t.total_ready_time + (k.totalTicks - t.enter_ready_time) > 1500
    · rw [(agingUpdate_promoted k.totalTicks t h).1]; split_ifs <;> omega
    · rw [(agingUpdate_kept k.totalTicks t h).1]; omega

/-- Scenario S2 at tick 1600: the thread of priority 45 that became ready at
tick 0 is promoted to 55 and keeps the credit 100. -/
theorem aging_thread_witness :
    (⟨1, 45, 0, 0, 0, 0, ThreadStatus.READY⟩ : Thread)
        ∈ (Kernel.mk [] [] [⟨1, 45, 0, 0, 0, 0, ThreadStatus.READY⟩] false false
            IntStatus.IntOff 1600 ⟨0, 0, 0, 0, 0, 0, ThreadStatus.RUNNING⟩).queued
    ∧ ∃ k1 t1, aging (Kernel.mk [] [] [⟨1, 45, 0, 0, 0, 0, ThreadStatus.READY⟩] false false
            IntStatus.IntOff 1600 ⟨0, 0, 0, 0, 0, 0, ThreadStatus.RUNNING⟩) = some k1
      ∧ t1 ∈ k1.queued ∧ t1.ID = 1 ∧ t1.priority = 55 ∧ t1.total_ready_time = 100
      ∧ t1.enter_ready_time = 1600 := by
  refine ⟨by decide, ?_⟩
  obtain ⟨k1, t1, hk1, -, hmem, hid, hprom, -, hent, -⟩ :=
    aging_thread (Kernel.mk [] [] [⟨1, 45, 0, 0, 0, 0, ThreadStatus.READY⟩] false false
      IntStatus.IntOff 1600 ⟨0, 0, 0, 0, 0, 0, ThreadStatus.RUNNING⟩)
      ⟨1, 45, 0, 0, 0, 0, ThreadStatus.READY⟩ (by decide) (by decide)
  obtain ⟨h1, h2⟩ := hprom (by decide)
  exact ⟨k1, t1, hk1, hmem, hid, by rw [h1]; decide, by rw [h2]; decide, hent⟩

theorem ReadyToRun_queued (k : Kernel) (t : Thread) (hoff : k.level = IntStatus.IntOff) :
    ∃ k1, ReadyToRun k t = some k1 ∧ k1.level = IntStatus.IntOff
      ∧ k1.totalTicks = k.totalTicks
      ∧ List.Perm k1.queued (markReady k.totalTicks t :: k.queued)
      ∧ ((∀ u ∈ k.L1, 100 ≤ u.priority) → ∀ u ∈ k1.L1, 100 ≤ u.priority)
      ∧ ((∀ u ∈ k.L2, 50 ≤ u.priority ∧ u.priority < 100) →
          ∀ u ∈ k1.L2, 50 ≤ u.priority ∧ u.priority < 100)
      ∧ ((∀ u ∈ k.L3, u.priority < 50) → ∀ u ∈ k1.L3, u.priority < 50) := by
  obtain ⟨k1, hk1, hoff1, htick, -, -, h1, h2, h3, -⟩ := ReadyToRun_eq k t hoff
  refine ⟨k1, hk1, hoff1, htick, ?_, ?_, ?_, ?_⟩
  · unfold Kernel.queued
    rw [h1, h2, h3]
    by_cases c1 : t.priority < 50
    · have c2 : ¬ (100 ≤ t.priority) := by omega
      have c3 : ¬ (50 ≤ t.priority ∧ t.priority < 100) := by omega
      simp only [c1, c2, c3, if_true, if_false]
      rw [← List.append_assoc]
      exact List.perm_append_singleton _ _
    · by_cases c2 : t.priority < 100
      · have c3 : ¬ (100 ≤ t.priority) := by omega
        have c4 : 50 ≤ t.priority ∧ t.priority < 100 := by omega
        simp only [c1, c3, c4, if_true, if_false, and_self]
        refine (((SortedListInsert_perm _ _ _).append_left _).append_right _).trans ?_
        rw [List.append_assoc, List.append_assoc]
        simp only [List.cons_append]
        exact List.perm_middle
      · have c3 : 100 ≤ t.priority := by omega
        have c4 : ¬ (50 ≤ t.priority ∧ t.priority < 100) := by omega
        simp only [c1, c3, c4, if_true, if_false]
        exact (((SortedListInsert_perm _ _ _).append_right _).append_right _)
  · intro hb u hu
    rw [h1] at hu
    split_ifs at hu with c
    · rcases (SortedListInsert_mem _ _ _ _).1 hu with rfl | hu
      · exact c
      · exact hb u hu
    · exact hb u hu
  · intro hb u hu
    rw [h2] at hu
    split_ifs at hu with c
    · rcases (SortedListInsert_mem _ _ _ _).1 hu with rfl | hu
      · exact c
      · exact hb u hu
    · exact hb u hu
  · intro hb u hu
    rw [h3] at hu
    split_ifs at hu with c
    · rcases List.mem_append.1 hu with hu | hu
      · exact hb u hu
      · rw [List.mem_singleton.1 hu]; exact c
    · exact hb u hu

/-- One `aging` call seen from a queued thread that is the only one with its ID. -/
theorem aging_track (id : Nat) (k : Kernel) (u : Thread) (hu : u ∈ k.queued) (hid : u.ID = id)
    (huniq : ∀ v ∈ k.queued, v.ID = id → v = u) :
    ∃ k1, aging k = some k1 ∧ k1.level = k.level ∧ k1.totalTicks = k.totalTicks
      ∧ markReady k.totalTicks (agingUpdate k.totalTicks u) ∈ k1.queued
      ∧ (∀ v ∈ k1.queued, v.ID = id → v = markReady k.totalTicks (agingUpdate k.totalTicks u))
      ∧ (∀ v ∈ k1.L1, 100 ≤ v.priority)
      ∧ (∀ v ∈ k1.L2, 50 ≤ v.priority ∧ v.priority < 100)
      ∧ (∀ v ∈ k1.L3, v.priority < 50)
      ∧ creditExceeded id k
          = decide (u.total_ready_time + (k.totalTicks - u.enter_ready_time) > 1500) := by
  obtain ⟨k1, hk1, hl, ht, -, hperm, hb1, hb2, hb3⟩ := aging_queued_perm k
  refine ⟨k1, hk1, hl, ht, ?_, ?_, hb1, hb2, hb3, ?_⟩
  · rw [hperm.mem_iff]; exact List.mem_map.2 ⟨u, hu, rfl⟩
  · intro v hv hvid
    rw [hperm.mem_iff] at hv
    obtain ⟨v0, hv0, rfl⟩ := List.mem_map.1 hv
    rw [markReady_ID, agingUpdate_ID] at hvid
    rw [huniq v0 hv0 hvid]
  · unfold creditExceeded
    by_cases h : u.total_ready_time + (k.totalTicks - u.enter_ready_time) > 1500
    · simp only [h, decide_True, List.any_eq_true]
      exact ⟨u, hu, by simp [hid, h]⟩
    · simp only [h, decide_False]
      rw [Bool.eq_false_iff]
      intro hany
      rw [List.any_eq_true] at hany
      obtain ⟨v, hv, hvp⟩ := hany
      simp only [decide_eq_true_eq] at hvp
      rw [huniq v hv hvp.1] at hvp
      exact h hvp.2

theorem agingRun_track (id : Nat) (ticks : List Int) : ∀ (k : Kernel) (u : Thread),
    u ∈ k.queued → u.ID = id → (∀ v ∈ k.queued, v.ID = id → v = u) →
    ∃ k2 c u2, agingRun id k ticks = some (k2, c) ∧ k2.level = k.level
      ∧ u2 ∈ k2.queued ∧ u2.ID = id ∧ (∀ v ∈ k2.queued, v.ID = id → v = u2)
      ∧ u2.total_ready_time - u2.enter_ready_time + 1500 * (c : Int)
          = u.total_ready_time - u.enter_ready_time
      ∧ (∀ h : ticks ≠ [], u2.enter_ready_time = ticks.getLast h)
      ∧ (c = 0 → u2.priority = u.priority) := by
  induction ticks with
  | nil =>
    intro k u hu hid huniq
    exact ⟨k, 0, u, rfl, rfl, hu, hid, huniq, by simp, fun h => absurd rfl h, fun _ => rfl⟩
  | cons now rest ih =>
    intro k u hu hid huniq
    obtain ⟨k1, hk1, hl1, ht1, hmem1, huniq1, -, -, -, hce⟩ :=
      aging_track id { k with totalTicks := now } u hu hid huniq
    simp only at hmem1 huniq1 hce ht1 hl1
    obtain ⟨k2, c, u2, hk2, hl2, hmem2, hid2, huniq2, hcons, hlast, hprio⟩ :=
      ih k1 (markReady now (agingUpdate now u)) hmem1
        (by rw [markReady_ID, agingUpdate_ID, hid]) huniq1
    refine ⟨k2, (if creditExceeded id { k with totalTicks := now } then 1 else 0) + c, u2,
      ?_, by rw [hl2, hl1], hmem2, hid2, huniq2, ?_, ?_, ?_⟩
    · simp only [agingRun, hk1, hk2]
    · rw [hce]
      have hm : (markReady now (agingUpdate now u)).total_ready_time
          = (agingUpdate now u).total_ready_time := rfl
      have he : (markReady now (agingUpdate now u)).enter_ready_time = now := rfl
      rw [hm, he] at hcons
      by_cases h : u.total_ready_time + (now - u.enter_ready_time) > 1500
      · rw [(agingUpdate_promoted now u h).2] at hcons
        simp only [h, decide_True, if_true]
        push_cast
        omega
      · rw [(agingUpdate_kept now u h).2] at hcons
        simp only [h, decide_False, Bool.false_eq_true, if_false]
        push_cast
        omega
    · intro _
      by_cases hr : rest = []
      · subst hr
        simp only [agingRun] at hk2
        cases hk2
        simp only [List.getLast_singleton]
        have := huniq2 _ hmem1 (by rw [markReady_ID, agingUpdate_ID, hid])
        rw [← this]; rfl
      · rw [List.getLast_cons hr]; exact hlast hr
    · intro hc
      rw [hce] at hc
      by_cases h : u.total_ready_time + (now - u.enter_ready_time) > 1500
      · simp [h] at hc
      · simp only [h, decide_False, Bool.false_eq_true, if_false, zero_add] at hc
        rw [hprio hc, markReady_priority, (agingUpdate_kept now u h).1]

/-- The state after `ReadyToRun k t` for a thread whose ID is not queued. -/
theorem ReadyToRun_fresh (k : Kernel) (t : Thread) (hoff : k.level = IntStatus.IntOff)
    (hfresh : ∀ u ∈ k.queued, u.ID ≠ t.ID) :
    ∃ k1, ReadyToRun k t = some k1 ∧ k1.level = IntStatus.IntOff
      ∧ markReady k.totalTicks t ∈ k1.queued
      ∧ (∀ v ∈ k1.queued, v.ID = t.ID → v = markReady k.totalTicks t) := by
  obtain ⟨k1, hk1, hoff1, -, hperm, -⟩ := ReadyToRun_queued k t hoff
  refine ⟨k1, hk1, hoff1, ?_, ?_⟩
  · rw [hperm.mem_iff]; exact List.mem_cons_self _ _
  · intro v hv hvid
    rw [hperm.mem_iff] at hv
    rcases List.mem_cons.1 hv with h | h
    · exact h
    · exact absurd hvid (hfresh v h)

/-- C5 (as amended): for every wait `w > 1500` the aging law holds: the thread of
priority 45 made ready at `t0`, never selected and not promoted by earlier aging
calls, leaves the aging call at `t0 + w` with priority 55, queued in L2 and
not in L3. -/
theorem aging_law (w : Int) (hw : 1500 < w) : AgingLaw w := by
  intro k k1 k2 t ticks hoff hp htot hfresh hk1 hrun
  obtain ⟨k1', hk1', -, hmem1, huniq1⟩ := ReadyToRun_fresh k t hoff hfresh
  rw [hk1] at hk1'
  cases hk1'
  obtain ⟨k2', c, u2, hk2', -, hmem2, hid2, huniq2, hcons, -, hprio⟩ :=
    agingRun_track t.ID ticks k1 (markReady k.totalTicks t) hmem1 rfl huniq1
  rw [hrun] at hk2'
  cases hk2'
  have hprio2 : u2.priority = 45 := by rw [hprio rfl, markReady_priority, hp]
  have hm : (markReady k.totalTicks t).total_ready_time = 0 := htot
  have he : (markReady k.totalTicks t).enter_ready_time = k.totalTicks := rfl
  rw [hm, he] at hcons
  obtain ⟨k3, hk3, -, -, -, -, hM3, -, hM2, -, -⟩ :=
    aging_eq { k2 with totalTicks := k.totalTicks + w }
  have hcredit : u2.total_ready_time + (k.totalTicks + w - u2.enter_ready_time) > 1500 := by
    simp only [CharP.cast_eq_zero, mul_zero, add_zero] at hcons
    omega
  have h55 : (markReady (k.totalTicks + w) (agingUpdate (k.totalTicks + w) u2)).priority
      = 55 := by
    rw [markReady_priority, (agingUpdate_promoted _ u2 hcredit).1, hprio2]; decide
  refine ⟨k3, markReady (k.totalTicks + w) (agingUpdate (k.totalTicks + w) u2), hk3, ?_, ?_,
    h55, ?_⟩
  · rw [hM2.mem_iff, List.mem_filter]
    refine ⟨List.mem_map.2 ⟨u2, hmem2, rfl⟩, ?_⟩
    rw [h55]; decide
  · rw [markReady_ID, agingUpdate_ID, hid2]
  · intro v hv hvid
    rw [hM3, List.mem_filter] at hv
    obtain ⟨v0, hv0, hv0e⟩ := List.mem_map.1 hv.1
    have hv0id : v0.ID = t.ID := by
      rw [← hvid, ← hv0e, markReady_ID, agingUpdate_ID]
    have := huniq2 v0 hv0 hv0id
    subst this
    have hlt := hv.2
    simp only [decide_eq_true_eq] at hlt
    rw [← hv0e] at hlt
    simp only at h55
    simp only at hlt
    omega

/-- The aging law at `w = 1600`, on scenario S2 with the aging calls at ticks
100, ..., 1500 in between: none of them promotes, and the call at 1600 puts the
thread in L2 with priority 55. -/
theorem aging_law_witness :
    (1500 : Int) < 1600
    ∧ ∃ k1 k2 k3 t3, ReadyToRun S1_kernel S2_thread = some k1
      ∧ agingRun S2_thread.ID k1 (S2_ticks.take 15) = some (k2, 0)
      ∧ aging { k2 with totalTicks := S1_kernel.totalTicks + 1600 } = some k3
      ∧ t3 ∈ k3.L2 ∧ t3.ID = S2_thread.ID ∧ t3.priority = 55
      ∧ ∀ u ∈ k3.L3, u.ID ≠ S2_thread.ID := by
  refine ⟨by decide, ?_⟩
  have h1 : ReadyToRun S1_kernel S2_thread
      = some { S1_kernel with L3 := [⟨1, 45, 0, 0, 0, 0, ThreadStatus.READY⟩] } := by decide
  have h2 : agingRun S2_thread.ID
      { S1_kernel with L3 := [⟨1, 45, 0, 0, 0, 0, ThreadStatus.READY⟩] } (S2_ticks.take 15)
      = some ({ S1_kernel with L3 := [⟨1, 45, 0, 1500, 1500, 0, ThreadStatus.READY⟩],
                               totalTicks := 1500 }, 0) := by decide
  obtain ⟨k3, t3, h3⟩ := aging_law 1600 (by decide) S1_kernel _ _ S2_thread (S2_ticks.take 15)
    rfl rfl rfl (by decide) h1 h2
  exact ⟨_, _, k3, t3, h1, h2, h3⟩

/-- C5 as stated fails at `w = 1500`: a thread of priority 45 made ready at tick
0 has credit exactly 1500 at the aging call of tick 1500, which is not more
than 1500, so it keeps priority 45 and stays in L3. -/
theorem boundary_wait_keeps_priority :
    ¬ AgingLaw 1500
    ∧ (ReadyToRun S1_kernel S2_thread).bind
        (fun k1 => aging { k1 with totalTicks := S1_kernel.totalTicks + 1500 })
      = some { S1_kernel with L3 := [⟨1, 45, 0, 1500, 1500, 0, ThreadStatus.READY⟩],
                              totalTicks := 1500 } := by
  refine ⟨?_, by decide⟩
  intro h
  obtain ⟨k3, t3, hk3, hmem, -⟩ := h S1_kernel
    { S1_kernel with L3 := [⟨1, 45, 0, 0, 0, 0, ThreadStatus.READY⟩] }
    { S1_kernel with L3 := [⟨1, 45, 0, 0, 0, 0, ThreadStatus.READY⟩] }
    S2_thread [] rfl rfl rfl (by decide) (by decide) rfl
  have e : aging { ({ S1_kernel with L3 := [⟨1, 45, 0, 0, 0, 0, ThreadStatus.READY⟩] } : Kernel)
        with totalTicks := S1_kernel.totalTicks + 1500 }
      = some { S1_kernel with L3 := [⟨1, 45, 0, 1500, 1500, 0, ThreadStatus.READY⟩],
                              totalTicks := 1500 } := by decide
  rw [e] at hk3
  cases hk3
  simp [S1_kernel, Kernel.init] at hmem

/-- C6: waiting credit is conserved.  A thread with a fresh ID and
`total_ready_time = c0` is made ready at tick `t0 = k.totalTicks` and stays
queued through aging calls at the ticks `ticks` (at least one); after the last
call, `total_ready_time + 1500 * (number of calls in which its credit exceeded
1500) = c0 + (last tick - t0)`. -/
theorem aging_credit_conserved (k : Kernel) (t : Thread) (ticks : List Int)
    (hoff : k.level = IntStatus.IntOff) (hfresh : ∀ u ∈ k.queued, u.ID ≠ t.ID)
    (hne : ticks ≠ []) :
    ∃ k1 k2 c t2, ReadyToRun k t = some k1
      ∧ agingRun t.ID k1 ticks = some (k2, c)
      ∧ t2 ∈ k2.queued ∧ t2.ID = t.ID ∧ (∀ v ∈ k2.queued, v.ID = t.ID → v = t2)
      ∧ t2.total_ready_time + 1500 * (c : Int)
          = t.total_ready_time + (ticks.getLast hne - k.totalTicks) := by
  obtain ⟨k1, hk1, -, hmem1, huniq1⟩ := ReadyToRun_fresh k t hoff hfresh
  obtain ⟨k2, c, u2, hk2, -, hmem2, hid2, huniq2, hcons, hlast, -⟩ :=
    agingRun_track t.ID ticks k1 (markReady k.totalTicks t) hmem1 rfl huniq1
  refine ⟨k1, k2, c, u2, hk1, hk2, hmem2, hid2, huniq2, ?_⟩
  have hm : (markReady k.totalTicks t).total_ready_time = t.total_ready_time := rfl
  have he : (markReady k.totalTicks t).enter_ready_time = k.totalTicks := rfl
  rw [hm, he, hlast hne] at hcons
  omega

/-- Scenario S2: priority 45, ready at tick 0, aging every 100 ticks up to tick
1600 gives priority 55, queue L2 and `total_ready_time = 100`, with one call
(the last) in which the credit exceeded 1500. -/
theorem aging_credit_conserved_witness :
    S1_kernel.level = IntStatus.IntOff ∧ (∀ u ∈ S1_kernel.queued, u.ID ≠ S2_thread.ID)
    ∧ (∃ hne : S2_ticks ≠ [], ∃ k1 k2 c t2, ReadyToRun S1_kernel S2_thread = some k1
      ∧ agingRun S2_thread.ID k1 S2_ticks = some (k2, c)
      ∧ t2 ∈ k2.queued ∧ t2.ID = S2_thread.ID
      ∧ (∀ v ∈ k2.queued, v.ID = S2_thread.ID → v = t2)
      ∧ t2.total_ready_time + 1500 * (c : Int)
          = S2_thread.total_ready_time + (S2_ticks.getLast hne - S1_kernel.totalTicks))
    ∧ (ReadyToRun S1_kernel S2_thread).bind (fun k1 => agingRun S2_thread.ID k1 S2_ticks)
        = some ({ S1_kernel with L2 := [⟨1, 55, 0, 1600, 100, 0, ThreadStatus.READY⟩],
                                 totalTicks := 1600 }, 1) :=
  ⟨rfl, by decide, ⟨by decide, aging_credit_conserved S1_kernel S2_thread S2_ticks rfl
    (by decide) (by decide)⟩, by decide⟩

/-- What every reachable scheduler state satisfies: each queue holds only
threads of its band, and no ID is queued twice. -/
theorem Reachable_bands (k : Kernel) (h : Reachable k) :
    (∀ t ∈ k.L1, 100 ≤ t.priority)
    ∧ (∀ t ∈ k.L2, 50 ≤ t.priority ∧ t.priority < 100)
    ∧ (∀ t ∈ k.L3, t.priority < 50)
    ∧ (k.queued.map Thread.ID).Nodup := by
  induction h with
  | init level totalTicks currentThread =>
    simp [Kernel.init, Kernel.queued]
  | ready k k1 t _ hfresh hk1 ih =>
    obtain ⟨ih1, ih2, ih3, ihn⟩ := ih
    have hoff : k.level = IntStatus.IntOff := by
      by_contra hc
      simp [ReadyToRun, hc] at hk1
    obtain ⟨k1', hk1', -, -, hperm, hb1, hb2, hb3⟩ := ReadyToRun_queued k t hoff
    rw [hk1] at hk1'
    cases hk1'
    refine ⟨hb1 ih1, hb2 ih2, hb3 ih3, ?_⟩
    rw [(hperm.map Thread.ID).nodup_iff, List.map_cons, List.nodup_cons]
    refine ⟨?_, ihn⟩
    intro hmem
    obtain ⟨u, hu, hue⟩ := List.mem_map.1 hmem
    exact hfresh u hu hue
  | find k k1 r _ hk1 ih =>
    obtain ⟨ih1, ih2, ih3, ihn⟩ := ih
    have hoff : k.level = IntStatus.IntOff := by
      by_contra hc
      simp [FindNextToRun, hc] at hk1
    have hsub : List.Sublist k1.queued k.queued ∧ List.Sublist k1.L1 k.L1
        ∧ List.Sublist k1.L2 k.L2 ∧ List.Sublist k1.L3 k.L3 := by
      unfold FindNextToRun at hk1
      simp only [hoff, ne_eq, not_true_eq_false, if_false] at hk1
      unfold Kernel.queued
      cases h1 : k.L1 with
      | cons t rest =>
        simp only [h1, Option.some.injEq, Prod.mk.injEq] at hk1
        obtain ⟨-, rfl⟩ := hk1
        simp
      | nil =>
        cases h2 : k.L2 with
        | cons t rest =>
          simp only [h1, h2, Option.some.injEq, Prod.mk.injEq] at hk1
          obtain ⟨-, rfl⟩ := hk1
          simp [h1]
        | nil =>
          cases h3 : k.L3 with
          | cons t rest =>
            simp only [h1, h2, h3, Option.some.injEq, Prod.mk.injEq] at hk1
            obtain ⟨-, rfl⟩ := hk1
            simp [h1, h2]
          | nil =>
            simp only [h1, h2, h3, Option.some.injEq, Prod.mk.injEq] at hk1
            obtain ⟨-, rfl⟩ := hk1
            simp [h1, h2, h3]
    exact ⟨fun t ht => ih1 t (hsub.2.1.subset ht), fun t ht => ih2 t (hsub.2.2.1.subset ht),
      fun t ht => ih3 t (hsub.2.2.2.subset ht), (hsub.1.map Thread.ID).nodup ihn⟩
  | age k k1 _ hk1 ih =>
    obtain ⟨-, -, -, ihn⟩ := ih
    obtain ⟨k1', hk1', -, -, -, hperm, hb1, hb2, hb3⟩ := aging_queued_perm k
    rw [hk1] at hk1'
    cases hk1'
    refine ⟨hb1, hb2, hb3, ?_⟩
    rw [(hperm.map Thread.ID).nodup_iff, List.map_map]
    have : (Thread.ID ∘ fun t => markReady k.totalTicks (agingUpdate k.totalTicks t))
        = Thread.ID := by
      funext t
      simp [Function.comp, markReady_ID, agingUpdate_ID]
    rw [this]
    exact ihn
  | machine k level totalTicks currentThread _ ih => exact ih

/-- C7: in every reachable scheduler state a queued thread is in L3 iff its
priority is below 50, in L2 iff it is in 50..99, in L1 iff it is at least 100
(so also right after `aging` moved it across a band boundary), and no thread
ID occurs twice in `L1 ++ L2 ++ L3`: each queued thread is in exactly one
queue. -/
theorem band_invariant (k : Kernel) (h : Reachable k) :
    (∀ t ∈ k.queued,
        (t ∈ k.L3 ↔ t.priority < 50)
        ∧ (t ∈ k.L2 ↔ 50 ≤ t.priority ∧ t.priority < 100)
        ∧ (t ∈ k.L1 ↔ 100 ≤ t.priority))
    ∧ (k.L1.map Thread.ID ++ k.L2.map Thread.ID ++ k.L3.map Thread.ID).Nodup := by
  obtain ⟨h1, h2, h3, hn⟩ := Reachable_bands k h
  refine ⟨?_, by simpa [Kernel.queued] using hn⟩
  intro t ht
  unfold Kernel.queued at ht
  rw [List.mem_append, List.mem_append] at ht
  refine ⟨⟨h3 t, fun hp => ?_⟩, ⟨h2 t, fun hp => ?_⟩, ⟨h1 t, fun hp => ?_⟩⟩
  · rcases ht with (ht | ht) | ht
    · have := h1 t ht; omega
    · have := h2 t ht; omega
    · exact ht
  · rcases ht with (ht | ht) | ht
    · have := h1 t ht; omega
    · exact ht
    · have := h3 t ht; omega
  · rcases ht with (ht | ht) | ht
    · exact ht
    · have := h2 t ht; omega
    · have := h3 t ht; omega

/-- Scenario S2 is reachable: T1 is made ready at tick 0, the clock moves to
1600 and `aging` runs; T1 has crossed from L3 into L2. -/
theorem band_invariant_witness :
    Reachable { S1_kernel with L2 := [⟨1, 55, 0, 1600, 100, 0, ThreadStatus.READY⟩],
                               totalTicks := 1600 }
    ∧ ((∀ t ∈ ({ S1_kernel with L2 := [⟨1, 55, 0, 1600, 100, 0, ThreadStatus.READY⟩],
                                totalTicks := 1600 } : Kernel).queued,
        (t ∈ ({ S1_kernel with L2 := [⟨1, 55, 0, 1600, 100, 0, ThreadStatus.READY⟩],
                               totalTicks := 1600 } : Kernel).L3 ↔ t.priority < 50)
        ∧ (t ∈ ({ S1_kernel with L2 := [⟨1, 55, 0, 1600, 100, 0, ThreadStatus.READY⟩],
                                 totalTicks := 1600 } : Kernel).L2
            ↔ 50 ≤ t.priority ∧ t.priority < 100)
        ∧ (t ∈ ({ S1_kernel with L2 := [⟨1, 55, 0, 1600, 100, 0, ThreadStatus.READY⟩],
                                 totalTicks := 1600 } : Kernel).L1 ↔ 100 ≤ t.priority))
      ∧ (({ S1_kernel with L2 := [⟨1, 55, 0, 1600, 100, 0, ThreadStatus.READY⟩],
                            totalTicks := 1600 } : Kernel).L1.map Thread.ID
          ++ ({ S1_kernel with L2 := [⟨1, 55, 0, 1600, 100, 0, ThreadStatus.READY⟩],
                               totalTicks := 1600 } : Kernel).L2.map Thread.ID
          ++ ({ S1_kernel with L2 := [⟨1, 55, 0, 1600, 100, 0, ThreadStatus.READY⟩],
                               totalTicks := 1600 } : Kernel).L3.map Thread.ID).Nodup) := by
  have hr : Reachable { S1_kernel with L2 := [⟨1, 55, 0, 1600, 100, 0, ThreadStatus.READY⟩],
                                       totalTicks := 1600 } := by
    have r0 : Reachable S1_kernel := Reachable.init _ _ _
    have r1 := Reachable.ready S1_kernel
      { S1_kernel with L3 := [⟨1, 45, 0, 0, 0, 0, ThreadStatus.READY⟩] } S2_thread r0
      (by decide) (by decide)
    have r2 := Reachable.machine _ IntStatus.IntOff 1600 S1_kernel.currentThread r1
    exact Reachable.age _ _ r2 (by decide)
  exact ⟨hr, band_invariant _ hr⟩

/-! ## Arithmetic of `divRoundUp` and of the strides -/

theorem divRoundUp_spec (n b : Int) (hn : 0 ≤ n) (hb : 0 < b) :
    n ≤ divRoundUp n b * b ∧ divRoundUp n b * b < n + b := by
  unfold divRoundUp
  rw [Int.tdiv_eq_ediv hn (le_of_lt hb), Int.tmod_eq_emod hn (le_of_lt hb)]
  have h1 := Int.ediv_add_emod n b
  have h2 := Int.emod_nonneg n (ne_of_gt hb)
  have h3 := Int.emod_lt_of_pos n hb
  have h4 : b * (n / b) = n / b * b := mul_comm _ _
  split_ifs with h
  · rw [add_mul, one_mul]; constructor <;> omega
  · rw [add_zero]; constructor <;> omega

theorem divRoundUp_unique (n b q : Int) (hn : 0 ≤ n) (hb : 0 < b)
    (h1 : n ≤ q * b) (h2 : q * b < n + b) : divRoundUp n b = q := by
  obtain ⟨c1, c2⟩ := divRoundUp_spec n b hn hb
  rcases lt_trichotomy (divRoundUp n b) q with h | h | h
  · exfalso
    have : (divRoundUp n b + 1) * b ≤ q * b :=
      Int.mul_le_mul_of_nonneg_right (by omega) (le_of_lt hb)
    rw [add_mul, one_mul] at this
    omega
  · exact h
  · exfalso
    have : (q + 1) * b ≤ divRoundUp n b * b :=
      Int.mul_le_mul_of_nonneg_right (by omega) (le_of_lt hb)
    rw [add_mul, one_mul] at this
    omega

theorem divRoundUp_nonneg (n b : Int) (hn : 0 ≤ n) (hb : 0 < b) : 0 ≤ divRoundUp n b := by
  obtain ⟨c1, c2⟩ := divRoundUp_spec n b hn hb
  by_contra h
  have : (divRoundUp n b + 1) * b ≤ 0 * b :=
    Int.mul_le_mul_of_nonneg_right (by omega) (le_of_lt hb)
  rw [add_mul, one_mul, zero_mul] at this
  omega

theorem divRoundUp_le (n b k : Int) (hn : 0 ≤ n) (hb : 0 < b) (h : n ≤ k * b) :
    divRoundUp n b ≤ k := by
  obtain ⟨-, c2⟩ := divRoundUp_spec n b hn hb
  by_contra hc
  have : (k + 1) * b ≤ divRoundUp n b * b :=
    Int.mul_le_mul_of_nonneg_right (by omega) (le_of_lt hb)
  rw [add_mul, one_mul] at this
  omega

theorem divRoundUp_mul (m b : Int) (hm : 0 ≤ m) (hb : 0 < b) : divRoundUp (m * b) b = m :=
  divRoundUp_unique (m * b) b m (Int.mul_nonneg hm (le_of_lt hb)) hb (le_refl _) (by omega)

theorem divRoundUp_add_mul (n m b : Int) (hn : 0 ≤ n) (hm : 0 ≤ m) (hb : 0 < b) :
    divRoundUp (n + m * b) b = divRoundUp n b + m := by
  obtain ⟨c1, c2⟩ := divRoundUp_spec n b hn hb
  have hmb : 0 ≤ m * b := Int.mul_nonneg hm (le_of_lt hb)
  apply divRoundUp_unique _ _ _ (by omega) hb
  · rw [add_mul]; omega
  · rw [add_mul]; omega

theorem divRoundUp_pos (n b : Int) (hn : 0 < n) (hb : 0 < b) : 0 < divRoundUp n b := by
  obtain ⟨c1, -⟩ := divRoundUp_spec n b (le_of_lt hn) hb
  by_contra h
  have : divRoundUp n b * b ≤ 0 * b :=
    Int.mul_le_mul_of_nonneg_right (by omega) (le_of_lt hb)
  rw [zero_mul] at this
  omega

theorem ediv_spec (o b : Int) (hb : 0 < b) : o / b * b ≤ o ∧ o < (o / b + 1) * b := by
  have h1 := Int.ediv_add_emod o b
  have h2 := Int.emod_nonneg o (ne_of_gt hb)
  have h3 := Int.emod_lt_of_pos o hb
  have h4 : b * (o / b) = o / b * b := mul_comm _ _
  rw [add_mul, one_mul]
  constructor <;> omega

theorem ediv_unique (o b q : Int) (hb : 0 < b) (h1 : q * b ≤ o) (h2 : o < (q + 1) * b) :
    o / b = q := by
  obtain ⟨c1, c2⟩ := ediv_spec o b hb
  rw [add_mul, one_mul] at h2 c2
  rcases lt_trichotomy (o / b) q with h | h | h
  · exfalso
    have : (o / b + 1) * b ≤ q * b :=
      Int.mul_le_mul_of_nonneg_right (by omega) (le_of_lt hb)
    rw [add_mul, one_mul] at this
    omega
  · exact h
  · exfalso
    have : (q + 1) * b ≤ o / b * b :=
      Int.mul_le_mul_of_nonneg_right (by omega) (le_of_lt hb)
    rw [add_mul, one_mul] at this
    omega

/-- A byte below `n` lies in a block below `divRoundUp n b`. -/
theorem ediv_lt_divRoundUp (o n b : Int) (ho : 0 ≤ o) (hon : o < n) (hb : 0 < b) :
    0 ≤ o / b ∧ o / b < divRoundUp n b := by
  obtain ⟨c1, c2⟩ := ediv_spec o b hb
  obtain ⟨d1, d2⟩ := divRoundUp_spec n b (by omega) hb
  refine ⟨Int.ediv_nonneg ho (le_of_lt hb), ?_⟩
  by_contra h
  have : divRoundUp n b * b ≤ o / b * b :=
    Int.mul_le_mul_of_nonneg_right (by omega) (le_of_lt hb)
  omega

/-- Macro `divRoundUp` is the ceiling of the quotient. -/
theorem divRoundUp_eq_ceil (n b : Int) (hn : 0 ≤ n) (hb : 0 < b) :
    divRoundUp n b = ⌈(n : ℚ) / (b : ℚ)⌉ := by
  obtain ⟨c1, c2⟩ := divRoundUp_spec n b hn hb
  have hbq : (0 : ℚ) < (b : ℚ) := by exact_mod_cast hb
  symm
  rw [Int.ceil_eq_iff]
  constructor
  · rw [lt_div_iff₀ hbq]
    have : (divRoundUp n b - 1) * b < n := by rw [sub_mul, one_mul]; omega
    exact_mod_cast this
  · rw [div_le_iff₀ hbq]
    exact_mod_cast c1

theorem fileLevel2_nonneg (g : Geometry) : 0 ≤ g.fileLevel2 := by
  unfold Geometry.fileLevel2; positivity

theorem fileLevel3_eq (g : Geometry) : g.fileLevel3 = g.NumDirect * g.fileLevel2 := by
  unfold Geometry.fileLevel3 Geometry.fileLevel2; ring

theorem fileLevel4_eq (g : Geometry) : g.fileLevel4 = g.NumDirect * g.fileLevel3 := by
  unfold Geometry.fileLevel4 Geometry.fileLevel3; ring

theorem fileLevel2_le_3 (g : Geometry) : g.fileLevel2 ≤ g.fileLevel3 := by
  rw [fileLevel3_eq]
  rcases Nat.eq_zero_or_pos g.NumDirect with h | h
  · simp [Geometry.fileLevel2, h]
  · have h1 : (1 : Int) ≤ g.NumDirect := by exact_mod_cast h
    have := Int.mul_le_mul_of_nonneg_right h1 (fileLevel2_nonneg g)
    rwa [one_mul] at this

theorem fileLevel3_le_4 (g : Geometry) : g.fileLevel3 ≤ g.fileLevel4 := by
  rw [fileLevel4_eq]
  have h0 : 0 ≤ g.fileLevel3 := le_trans (fileLevel2_nonneg g) (fileLevel2_le_3 g)
  rcases Nat.eq_zero_or_pos g.NumDirect with h | h
  · simp [Geometry.fileLevel3, h]
  · have h1 : (1 : Int) ≤ g.NumDirect := by exact_mod_cast h
    have := Int.mul_le_mul_of_nonneg_right h1 h0
    rwa [one_mul] at this

/-! ## The free map -/

theorem firstClear_some : ∀ (m : List Bool) (i : Nat), firstClear m = some i →
    m[i]? = some false := by
  intro m
  induction m with
  | nil => intro i h; simp [firstClear] at h
  | cons b m ih =>
    intro i h
    unfold firstClear at h
    split_ifs at h with hb
    · cases h; simp [hb]
    · cases hm : firstClear m with
      | none => simp [hm] at h
      | some j =>
        simp only [hm, Option.map_some', Option.some.injEq] at h
        subst h
        simpa using ih j hm

theorem firstClear_none : ∀ (m : List Bool), firstClear m = none → m.count false = 0 := by
  intro m
  induction m with
  | nil => intro _; rfl
  | cons b m ih =>
    intro h
    unfold firstClear at h
    split_ifs at h with hb
    cases hm : firstClear m with
    | none =>
      have hb' : b = true := by simpa using hb
      simp [hb', ih hm]
    | some j => simp [hm] at h

theorem count_set_true : ∀ (m : List Bool) (i : Nat), m[i]? = some false →
    (m.set i true).count false + 1 = m.count false := by
  intro m
  induction m with
  | nil => intro i h; simp at h
  | cons b m ih =>
    intro i h
    cases i with
    | zero =>
      simp only [List.getElem?_cons_zero, Option.some.injEq] at h
      subst h
      simp
    | succ j =>
      simp only [List.getElem?_cons_succ] at h
      have := ih j h
      simp only [List.set_cons_succ, List.count_cons]
      omega

theorem NumClear_nonneg (m : List Bool) : 0 ≤ NumClear m := by
  unfold NumClear; exact Int.ofNat_nonneg _

theorem FindAndSet_some (m : List Bool) (h : 0 < NumClear m) :
    ∃ i : Nat, FindAndSet m = ((i : Int), m.set i true) ∧ m[i]? = some false
      ∧ NumClear (m.set i true) + 1 = NumClear m := by
  unfold FindAndSet
  cases hf : firstClear m with
  | none =>
    have := firstClear_none m hf
    unfold NumClear at h
    omega
  | some i =>
    have hi := firstClear_some m i hf
    refine ⟨i, rfl, hi, ?_⟩
    unfold NumClear
    have := count_set_true m i hi
    omega

theorem IsFree_set (m : List Bool) (i : Nat) (x : Int) :
    IsFree (m.set i true) x ↔ IsFree m x ∧ x ≠ (i : Int) := by
  unfold IsFree
  constructor
  · rintro ⟨h0, h⟩
    by_cases hx : x = (i : Int)
    · subst hx
      simp only [Int.toNat_ofNat] at h
      rw [List.getElem?_set] at h
      simp only [if_true] at h
      split_ifs at h
      simp at h
    · have hne : i ≠ x.toNat := by omega
      rw [List.getElem?_set_ne hne] at h
      exact ⟨⟨h0, h⟩, hx⟩
  · rintro ⟨⟨h0, h⟩, hx⟩
    have hne : i ≠ x.toNat := by omega
    rw [List.getElem?_set_ne hne]
    exact ⟨h0, h⟩

theorem IsFree_of_getElem (m : List Bool) (i : Nat) (h : m[i]? = some false) :
    IsFree m (i : Int) := ⟨Int.ofNat_nonneg _, by simpa using h⟩

/-! ## `Extends` -/

theorem Extends.refl (st : FsState) : Extends st st 0 [] :=
  { numClear := by simp
    mono := fun _ h => h
    frame := fun _ _ => rfl
    claims := by simp
    fresh := by simp }

theorem Extends.trans {st st1 st2 : FsState} {n1 n2 : Nat} {new1 new2 : List Int}
    (h1 : Extends st st1 n1 new1) (h2 : Extends st1 st2 n2 new2) :
    Extends st st2 (n1 + n2) (new1 ++ new2) :=
  { numClear := by
      have a := h1.numClear
      have b := h2.numClear
      push_cast
      omega
    mono := fun x h => h1.mono x (h2.mono x h)
    frame := fun x h => by
      rw [h2.frame x (fun hc => h (h1.mono x hc)), h1.frame x h]
    claims := by rw [h2.claims, h1.claims, List.append_assoc]
    fresh := fun x hx => by
      rcases List.mem_append.1 hx with hx | hx
      · exact ⟨(h1.fresh x hx).1, fun hc => (h1.fresh x hx).2 (h2.mono x hc)⟩
      · exact ⟨h1.mono x (h2.fresh x hx).1, (h2.fresh x hx).2⟩ }

/-- Claiming one sector for a data block. -/
theorem Extends.claimData (st : FsState) (i : Nat) (hi : st.freeMap[i]? = some false)
    (hc : NumClear (st.freeMap.set i true) + 1 = NumClear st.freeMap) :
    Extends st { st with freeMap := st.freeMap.set i true,
                         dataClaims := st.dataClaims ++ [(i : Int)] } 1 [(i : Int)] :=
  { numClear := by simpa using hc
    mono := fun x h => ((IsFree_set _ _ _).1 h).1
    frame := fun _ _ => rfl
    claims := rfl
    fresh := fun x hx => by
      rw [List.mem_singleton.1 hx]
      exact ⟨IsFree_of_getElem _ _ hi, fun h => ((IsFree_set _ _ _).1 h).2 rfl⟩ }

/-- Claiming one sector for a child header. -/
theorem Extends.claimHeader (st : FsState) (i : Nat)
    (hc : NumClear (st.freeMap.set i true) + 1 = NumClear st.freeMap) :
    Extends st { st with freeMap := st.freeMap.set i true,
                         headerClaims := st.headerClaims ++ [(i : Int)] } 1 [] :=
  { numClear := by simpa using hc
    mono := fun x h => ((IsFree_set _ _ _).1 h).1
    frame := fun _ _ => rfl
    claims := by simp
    fresh := by simp }

/-! ## The direct loop -/

theorem setSector_ok (hdr : FileHeader) (i : Nat) (s : Int) (h : i < hdr.dataSectors.length) :
    hdr.setSector i s = Except.ok { hdr with dataSectors := hdr.dataSectors.set i s } := by
  unfold FileHeader.setSector; rw [if_pos h]

theorem allocDirect_spec : ∀ (n i : Nat) (hdr : FileHeader) (st : FsState),
    i + n ≤ hdr.dataSectors.length → (n : Int) ≤ NumClear st.freeMap →
    ∃ hdr1 st1 new, allocDirect n i hdr st = Except.ok (hdr1, st1)
      ∧ hdr1.numBytes = hdr.numBytes ∧ hdr1.numSectors = hdr.numSectors
      ∧ hdr1.dataSectors.length = hdr.dataSectors.length
      ∧ Extends st st1 n new ∧ new.length = n
      ∧ (∀ j, j < n → hdr1.dataSectors[i + j]? = new[j]?)
      ∧ (∀ j, j < i → hdr1.dataSectors[j]? = hdr.dataSectors[j]?) := by
  intro n
  induction n with
  | zero =>
    intro i hdr st _ _
    exact ⟨hdr, st, [], rfl, rfl, rfl, rfl, Extends.refl st, rfl,
      fun j hj => absurd hj (Nat.not_lt_zero j), fun _ _ => rfl⟩
  | succ n ih =>
    intro i hdr st hlen hclear
    obtain ⟨s, hfs, hs, hcount⟩ := FindAndSet_some st.freeMap (by push_cast at hclear; omega)
    have hi : i < hdr.dataSectors.length := by omega
    obtain ⟨hdr1, st1, new, hrun, hnb, hns, hl, hext, hnl, hnew, hold⟩ :=
      ih (i + 1) { hdr with dataSectors := hdr.dataSectors.set i (s : Int) }
        { st with freeMap := st.freeMap.set s true,
                  dataClaims := st.dataClaims ++ [(s : Int)] }
        (by simp only [List.length_set]; omega)
        (by simp only; push_cast at hclear; omega)
    refine ⟨hdr1, st1, (s : Int) :: new, ?_, hnb, hns, ?_, ?_, by simp [hnl], ?_, ?_⟩
    · unfold allocDirect
      simp only [hfs, setSector_ok hdr i _ hi]
      rw [if_pos (Int.ofNat_nonneg s)]
      exact hrun
    · rw [hl]; simp
    · have := (Extends.claimData st s hs hcount).trans hext
      rw [Nat.add_comm] at this
      simpa using this
    · intro j hj
      cases j with
      | zero =>
        rw [Nat.add_zero, hold i (Nat.lt_succ_self i)]
        simp [List.getElem?_set, hi]
      | succ j =>
        have := hnew j (by omega)
        rw [List.getElem?_cons_succ, ← this]
        congr 1
        omega
    · intro j hj
      rw [hold j (by omega)]
      simp only
      rw [List.getElem?_set_ne (by omega)]

/-! ## `Allocate` always returns -/

theorem allocIndirect_total
    (child : FsState → Int → Except Fault (Bool × FileHeader × FsState)) (cap : Int)
    (hcap : 0 ≤ cap)
    (hchild : ∀ st c, 0 ≤ c → c ≤ cap → ∃ b h st1, child st c = Except.ok (b, h, st1)) :
    ∀ (n i : Nat) (size : Int) (hdr : FileHeader) (st : FsState),
      i + n ≤ hdr.dataSectors.length →
      ∃ hdr1 st1, allocIndirect child cap n i size hdr st = Except.ok (hdr1, st1) := by
  intro n
  induction n with
  | zero => intro i size hdr st _; exact ⟨hdr, st, rfl⟩
  | succ n ih =>
    intro i size hdr st hlen
    rw [allocIndirect]
    by_cases hpos : size > 0
    · have hi : i < hdr.dataSectors.length := by omega
      simp only [hpos, if_true, setSector_ok hdr i _ hi]
      obtain ⟨b, h, st1, hc⟩ := hchild
        { st with freeMap := (FindAndSet st.freeMap).2,
                  headerClaims := st.headerClaims ++ [(FindAndSet st.freeMap).1] }
        (if size > cap then cap else size) (by split_ifs <;> omega) (by split_ifs <;> omega)
      simp only [hc]
      exact ih (i + 1) _ _ _ (by simp only [List.length_set]; omega)
    · simp only [hpos, if_false]
      exact ⟨hdr, st, rfl⟩

theorem FileHeader.new_length (g : Geometry) :
    (FileHeader.new g).dataSectors.length = g.NumDirect := by
  simp [FileHeader.new]

/-- With enough fuel `AllocateFuel` returns `TRUE` or `FALSE`; it returns
`FALSE` exactly when the first test fails, and then it has changed nothing
but `numBytes` and `numSectors` of the header. -/
theorem AllocateFuel_total (g : Geometry) (hss : 0 < g.SectorSize) :
    ∀ (f : Nat) (this : FileHeader) (st : FsState) (size : Int),
      FuelOK g f size → 0 ≤ size → this.dataSectors.length = g.NumDirect →
      ∃ b hdr st1, AllocateFuel g f this st size = Except.ok (b, hdr, st1)
        ∧ (b = false ↔ NumClear st.freeMap < divRoundUp size g.SectorSize)
        ∧ (b = false → st1 = st) := by
  intro f
  induction f with
  | zero => intro this st size hf; exact absurd hf.1 (by decide)
  | succ f ih =>
    intro this st size hf hsize hlen
    obtain ⟨-, hf2, hf3, hf4⟩ := hf
    have l0 := fileLevel2_nonneg g
    have l23 := fileLevel2_le_3 g
    have l34 := fileLevel3_le_4 g
    unfold AllocateFuel
    simp only
    split_ifs with hcheck h4 h3 h2
    · exact ⟨false, _, st, rfl, by simp [hcheck], fun _ => rfl⟩
    · obtain ⟨hdr1, st1, hrun⟩ := allocIndirect_total
        (fun s z => AllocateFuel g f (FileHeader.new g) s z) g.fileLevel4
        (by omega)
        (fun s c hc0 hc => by
          obtain ⟨b, h, s1, hr, -⟩ := ih (FileHeader.new g) s c
            ⟨by omega, by omega, by omega, Or.inl hc⟩ hc0 (FileHeader.new_length g)
          exact ⟨b, h, s1, hr⟩)
        g.NumDirect 0 size
        { this with numBytes := size, numSectors := divRoundUp size g.SectorSize } st
        (by simp [hlen])
      rw [hrun]
      exact ⟨true, hdr1, st1, rfl, by simp [hcheck], by simp⟩
    · obtain ⟨hdr1, st1, hrun⟩ := allocIndirect_total
        (fun s z => AllocateFuel g f (FileHeader.new g) s z) g.fileLevel3
        (by omega)
        (fun s c hc0 hc => by
          obtain ⟨b, h, s1, hr, -⟩ := ih (FileHeader.new g) s c
            ⟨by omega, by omega, Or.inl hc, Or.inl (by omega)⟩ hc0 (FileHeader.new_length g)
          exact ⟨b, h, s1, hr⟩)
        g.NumDirect 0 size
        { this with numBytes := size, numSectors := divRoundUp size g.SectorSize } st
        (by simp [hlen])
      rw [hrun]
      exact ⟨true, hdr1, st1, rfl, by simp [hcheck], by simp⟩
    · obtain ⟨hdr1, st1, hrun⟩ := allocIndirect_total
        (fun s z => AllocateFuel g f (FileHeader.new g) s z) g.fileLevel2
        (by omega)
        (fun s c hc0 hc => by
          obtain ⟨b, h, s1, hr, -⟩ := ih (FileHeader.new g) s c
            ⟨by omega, Or.inl hc, Or.inl (by omega), Or.inl (by omega)⟩
            hc0 (FileHeader.new_length g)
          exact ⟨b, h, s1, hr⟩)
        g.NumDirect 0 size
        { this with numBytes := size, numSectors := divRoundUp size g.SectorSize } st
        (by simp [hlen])
      rw [hrun]
      exact ⟨true, hdr1, st1, rfl, by simp [hcheck], by simp⟩
    · have hb : (0 : Int) < g.SectorSize := by exact_mod_cast hss
      have hle : divRoundUp size g.SectorSize ≤ g.NumDirect :=
        divRoundUp_le _ _ _ hsize hb (by unfold Geometry.fileLevel2 at h2; omega)
      have hge := divRoundUp_nonneg size g.SectorSize hsize hb
      obtain ⟨hdr1, st1, new, hrun, -⟩ := allocDirect_spec
        (divRoundUp size g.SectorSize).toNat 0
        { this with numBytes := size, numSectors := divRoundUp size g.SectorSize } st
        (by simp only [hlen]; omega)
        (by have := NumClear_nonneg st.freeMap; omega)
      rw [hrun]
      exact ⟨true, hdr1, st1, rfl, by simp [hcheck], by simp⟩

/-! ## Claims about `FileHeader::Allocate` -/

/-- C8: for a fresh header, every free map and every size >= 0, `Allocate`
returns; it returns `FALSE` exactly when the number of clear bits is less than
the ceiling of `size / SectorSize`, and then the free map and the disk are
those it was given (no bit set, no sector written). -/
theorem Allocate_false_iff (g : Geometry) (this : FileHeader) (st : FsState) (size : Int)
    (hss : 0 < g.SectorSize) (hlen : this.dataSectors.length = g.NumDirect)
    (hsize : 0 ≤ size) :
    ∃ b hdr st1, Allocate g this st size = Except.ok (b, hdr, st1)
      ∧ (b = false ↔ NumClear st.freeMap < ⌈(size : ℚ) / (g.SectorSize : ℚ)⌉)
      ∧ (b = false → st1.freeMap = st.freeMap ∧ st1.disk = st.disk ∧ st1 = st) := by
  obtain ⟨b, hdr, st1, hrun, hiff, hsame⟩ := AllocateFuel_total g hss 4 this st size
    ⟨by decide, Or.inr (by decide), Or.inr (by decide), Or.inr (by decide)⟩ hsize hlen
  refine ⟨b, hdr, st1, hrun, ?_, fun hb => ?_⟩
  · rw [hiff, divRoundUp_eq_ceil size g.SectorSize hsize (by exact_mod_cast hss)]
    simp
  · rw [hsame hb]; exact ⟨rfl, rfl, rfl⟩

/-- A file of 300 bytes (3 sectors) on the machine's geometry with 2 free
sectors: `Allocate` returns `FALSE`. -/
theorem Allocate_false_iff_witness :
    0 < Geometry.nachos.SectorSize
    ∧ (FileHeader.new Geometry.nachos).dataSectors.length = Geometry.nachos.NumDirect
    ∧ (0 : Int) ≤ 300
    ∧ ∃ b hdr st1, Allocate Geometry.nachos (FileHeader.new Geometry.nachos)
          ⟨[true, false, true, false], fun _ => FileHeader.new Geometry.nachos, [], []⟩ 300
          = Except.ok (b, hdr, st1)
      ∧ (b = false ↔ NumClear [true, false, true, false]
            < ⌈((300 : Int) : ℚ) / (Geometry.nachos.SectorSize : ℚ)⌉)
      ∧ (b = false → st1.freeMap = [true, false, true, false]
            ∧ st1.disk = (fun _ => FileHeader.new Geometry.nachos)
            ∧ st1 = ⟨[true, false, true, false], fun _ => FileHeader.new Geometry.nachos,
                      [], []⟩) :=
  ⟨by decide, by decide, by decide,
    Allocate_false_iff Geometry.nachos (FileHeader.new Geometry.nachos)
      ⟨[true, false, true, false], fun _ => FileHeader.new Geometry.nachos, [], []⟩ 300
      (by decide) (by decide) (by decide)⟩

/-- C9 fails on the code: on the machine's geometry (SectorSize 128, NumDirect
30) a file of 3841 bytes needs 31 data sectors and 2 child headers, 33 sectors;
with 32 free sectors `Allocate` returns `TRUE`.  The second child's own
`Allocate` found no free sector and returned `FALSE`, which the parent ignores:
only 30 data sectors were claimed, and the block of byte 3840 has no sector
(`ByteToSector` yields the -1 the constructor left in the child's table). -/
theorem Allocate_true_without_space :
    NumClear (List.replicate 32 false) = 32
    ∧ sectorsNeeded Geometry.nachos 3841 = 33
    ∧ ∃ hdr st1, Allocate Geometry.nachos (FileHeader.new Geometry.nachos)
          ⟨List.replicate 32 false, fun _ => FileHeader.new Geometry.nachos, [], []⟩ 3841
          = Except.ok (true, hdr, st1)
      ∧ hdr.numSectors = 31
      ∧ st1.dataClaims.length = 30
      ∧ st1.headerClaims = [0, 31]
      ∧ NumClear st1.freeMap = 0
      ∧ st1.disk 31 = { numBytes := 1, numSectors := 1,
                        dataSectors := List.replicate 30 (-1) }
      ∧ ByteToSector Geometry.nachos st1.disk hdr 3840 = Except.ok (-1) := by
  refine ⟨by decide, by decide, _, _, rfl, ?_, ?_, ?_, ?_, ?_, ?_⟩
  · decide
  · decide
  · decide
  · decide
  · decide
  · rfl

/-! ## The child loop -/

/-- Writing a header to a sector that was free at the start keeps `Extends`. -/
theorem Extends.writeBack {st st1 : FsState} {n : Nat} {new : List Int}
    (h : Extends st st1 n new) (r : Int) (hr : IsFree st.freeMap r) (hd : FileHeader) :
    Extends st { st1 with disk := WriteBack st1.disk r hd } n new :=
  { numClear := h.numClear
    mono := h.mono
    frame := fun x hx => by
      have hne : x ≠ r := fun e => hx (e ▸ hr)
      simp only [WriteBack, if_neg hne]
      exact h.frame x hx
    claims := h.claims
    fresh := h.fresh }

theorem childrenNeeded_nonpos (child : Int → Nat) (cap : Int) (n : Nat) (size : Int)
    (h : ¬ 0 < size) : childrenNeeded child cap n size = 0 := by
  cases n with
  | zero => rfl
  | succ n => simp [childrenNeeded, h]

theorem childrenNeeded_pos (child : Int → Nat) (cap : Int) (n : Nat) (size : Int)
    (h : 0 < size) : childrenNeeded child cap (n + 1) size
      = 1 + child (if size > cap then cap else size)
        + childrenNeeded child cap n (size - cap) := by
  simp [childrenNeeded, h]

theorem allocIndirect_spec (g : Geometry) (f m : Nat) (hss : 0 < g.SectorSize) (hm : 0 < m)
    (cap : Int) (hcap : cap = (m : Int) * (g.SectorSize : Int))
    (hchild : ∀ c, 0 < c → c ≤ cap → AllocSpec g f c) :
    ∀ (n i : Nat) (size : Int) (hdr : FileHeader) (st : FsState),
      i + n ≤ hdr.dataSectors.length → size ≤ (n : Int) * cap →
      (childrenNeeded (sectorsNeededFuel g f) cap n size : Int) ≤ NumClear st.freeMap →
      ∃ hdr1 st1 new,
        allocIndirect (fun s z => AllocateFuel g f (FileHeader.new g) s z) cap n i size hdr st
          = Except.ok (hdr1, st1)
        ∧ hdr1.numBytes = hdr.numBytes ∧ hdr1.numSectors = hdr.numSectors
        ∧ hdr1.dataSectors.length = hdr.dataSectors.length
        ∧ (∀ j, j < i → hdr1.dataSectors[j]? = hdr.dataSectors[j]?)
        ∧ Extends st st1 (childrenNeeded (sectorsNeededFuel g f) cap n size) new
        ∧ (0 < size → (new.length : Int) = divRoundUp size g.SectorSize)
        ∧ (size ≤ 0 → new = [])
        ∧ ∀ d : Disk,
            (∀ x, IsFree st.freeMap x → ¬ IsFree st1.freeMap x → d x = st1.disk x) →
            ∀ o : Int, 0 ≤ o → o < size →
              ∃ sec s, hdr1.dataSectors[i + (o / cap).toNat]? = some sec
                ∧ new[(o / (g.SectorSize : Int)).toNat]? = some s
                ∧ ByteToSectorFuel g f d (d sec) (o - o / cap * cap) = Except.ok s := by
  have hb : (0 : Int) < g.SectorSize := by exact_mod_cast hss
  have hcappos : 0 < cap := by
    rw [hcap]; exact Int.mul_pos (by exact_mod_cast hm) hb
  intro n
  induction n with
  | zero =>
    intro i size hdr st _ hfit _
    simp only [CharP.cast_eq_zero, zero_mul] at hfit
    exact ⟨hdr, st, [], rfl, rfl, rfl, rfl, fun _ _ => rfl, Extends.refl st,
      fun h => by omega, fun _ => rfl, fun _ _ o h1 h2 => by omega⟩
  | succ n ih =>
    intro i size hdr st hlen hfit hneed
    by_cases hpos : 0 < size
    swap
    · refine ⟨hdr, st, [], ?_, rfl, rfl, rfl, fun _ _ => rfl, ?_,
        fun h => absurd h hpos, fun _ => rfl, fun _ _ o h1 h2 => by omega⟩
      · rw [allocIndirect]; simp only [gt_iff_lt, hpos, if_false]
      · rw [childrenNeeded_nonpos _ _ _ _ hpos]; exact Extends.refl st
    · -- one child, then the rest of the loop
      have hc0 : 0 < (if size > cap then cap else size) := by split_ifs <;> omega
      have hc1 : (if size > cap then cap else size) ≤ cap := by split_ifs <;> omega
      rw [childrenNeeded_pos _ _ _ _ hpos] at hneed ⊢
      push_cast at hneed
      obtain ⟨r, hfs, hr, hcount⟩ := FindAndSet_some st.freeMap (by omega)
      have hi : i < hdr.dataSectors.length := by omega
      have hrfree : IsFree st.freeMap (r : Int) := IsFree_of_getElem _ _ hr
      obtain ⟨nextHDR, stb, new0, hrunc, hextc, hlenc, hreadc⟩ :=
        hchild _ hc0 hc1 (FileHeader.new g)
          { st with freeMap := st.freeMap.set r true,
                    headerClaims := st.headerClaims ++ [(r : Int)] }
          (FileHeader.new_length g) (by simp only; omega)
      have hexta := Extends.claimHeader st r hcount
      have hextb := hexta.trans hextc
      have hextw := hextb.writeBack (r : Int) hrfree nextHDR
      simp only [List.nil_append] at hextw
      have hnc := hextw.numClear
      push_cast at hnc
      obtain ⟨hdr1, st1, newR, hrunR, hnb, hns, hl, hold, hextR, hlenR, hnilR, hreadR⟩ :=
        ih (i + 1) (size - cap) { hdr with dataSectors := hdr.dataSectors.set i (r : Int) }
          { stb with disk := WriteBack stb.disk (r : Int) nextHDR }
          (by simp only [List.length_set]; omega)
          (by push_cast at hfit; rw [add_mul, one_mul] at hfit; omega)
          (by simp only at hnc ⊢; omega)
      refine ⟨hdr1, st1, new0 ++ newR, ?_, hnb, hns, ?_, ?_, ?_, ?_, ?_, ?_⟩
      · rw [allocIndirect]
        simp only [gt_iff_lt, hpos, if_true, hfs, setSector_ok hdr i _ hi]
        simp only [gt_iff_lt] at hrunc
        simp only [hrunc]
        exact hrunR
      · rw [hl]; simp
      · intro j hj
        rw [hold j (by omega)]
        simp only
        rw [List.getElem?_set_ne (by omega)]
      · exact hextw.trans hextR
      · intro _
        rw [List.length_append]
        push_cast
        by_cases hbig : size > cap
        · have e1 : (new0.length : Int) = m := by
            rw [hlenc, if_pos hbig, hcap, divRoundUp_mul _ _ (by omega) hb]
          have e2 : (newR.length : Int) = divRoundUp (size - cap) g.SectorSize :=
            hlenR (by omega)
          have e3 : divRoundUp size g.SectorSize
              = divRoundUp (size - cap) g.SectorSize + m := by
            have := divRoundUp_add_mul (size - cap) m g.SectorSize (by omega) (by omega) hb
            rw [← hcap, show size - cap + cap = size by ring] at this
            exact this
          omega
        · rw [hlenc, if_neg hbig, hnilR (by omega)]
          simp
      · intro h; omega
      · intro d hd o ho0 ho1
        by_cases hsmall : o < cap
        · -- the offset lies in the first child
          have hq : o / cap = 0 := Int.ediv_eq_zero_of_lt ho0 hsmall
          have hoc : o < (if size > cap then cap else size) := by split_ifs <;> omega
          have hdisk : ∀ x, IsFree (st.freeMap.set r true) x → ¬ IsFree stb.freeMap x →
              d x = stb.disk x := by
            intro x hx1 hx2
            obtain ⟨hxf, hxr⟩ := (IsFree_set _ _ _).1 hx1
            have hx3 : ¬ IsFree st1.freeMap x := fun h => hx2 (hextR.mono x h)
            rw [hd x hxf hx3, hextR.frame x hx2]
            simp only [WriteBack, if_neg hxr]
          obtain ⟨s, hs1, hs2⟩ := hreadc d hdisk o ho0 hoc
          have hdr_r : d (r : Int) = nextHDR := by
            have hnf : ¬ IsFree stb.freeMap (r : Int) := fun h =>
              ((IsFree_set _ _ _).1 (hextc.mono _ h)).2 rfl
            rw [hd _ hrfree (fun h => hnf (hextR.mono _ h)), hextR.frame _ hnf]
            simp [WriteBack]
          refine ⟨(r : Int), s, ?_, ?_, ?_⟩
          · rw [hq]
            simp only [Int.toNat_zero, Nat.add_zero]
            rw [hold i (Nat.lt_succ_self i)]
            simp [List.getElem?_set, hi]
          · rw [List.getElem?_append_left]
            · exact hs1
            · have := (List.getElem?_eq_some_iff.1 hs1).1
              exact this
          · rw [hq, hdr_r]
            simpa using hs2
        · -- the offset lies in a later child
          have hbig : size > cap := by omega
          have hq : o / cap = (o - cap) / cap + 1 := by
            have := Int.add_mul_ediv_right (o - cap) 1 (ne_of_gt hcappos)
            rw [one_mul, show o - cap + cap = o by ring] at this
            exact this
          have hq0 : 0 ≤ (o - cap) / cap := Int.ediv_nonneg (by omega) (le_of_lt hcappos)
          have hqs : o / (g.SectorSize : Int) = (o - cap) / (g.SectorSize : Int) + m := by
            have := Int.add_mul_ediv_right (o - cap) m (ne_of_gt hb)
            rw [← hcap, show o - cap + cap = o by ring] at this
            exact this
          have hqs0 : 0 ≤ (o - cap) / (g.SectorSize : Int) :=
            Int.ediv_nonneg (by omega) (le_of_lt hb)
          have hlen0 : new0.length = m := by
            rw [if_pos hbig, hcap, divRoundUp_mul _ _ (by omega) hb] at hlenc
            exact_mod_cast hlenc
          have hdisk : ∀ x, IsFree stb.freeMap x → ¬ IsFree st1.freeMap x →
              d x = st1.disk x := fun x hx1 hx2 => hd x (hextb.mono x hx1) hx2
          obtain ⟨sec, s, h1, h2, h3⟩ := hreadR d hdisk (o - cap) (by omega) (by omega)
          refine ⟨sec, s, ?_, ?_, ?_⟩
          · rw [hq]
            have : i + ((o - cap) / cap + 1).toNat = i + 1 + ((o - cap) / cap).toNat := by
              omega
            rw [this]; exact h1
          · rw [hqs]
            have : ((o - cap) / (g.SectorSize : Int) + m).toNat
                = new0.length + ((o - cap) / (g.SectorSize : Int)).toNat := by
              rw [hlen0]; omega
            rw [this, List.getElem?_append_right (Nat.le_add_right _ _)]
            simpa using h2
          · rw [hq]
            have : o - ((o - cap) / cap + 1) * cap = o - cap - (o - cap) / cap * cap := by
              ring
            rw [this]; exact h3

/-! ## Data sectors are part of what a file needs -/

theorem childrenNeeded_ge (g : Geometry) (m : Nat) (hss : 0 < g.SectorSize)
    (child : Int → Nat) (cap : Int) (hcap : cap = (m : Int) * (g.SectorSize : Int))
    (hchild : ∀ c, 0 < c → c ≤ cap → divRoundUp c g.SectorSize ≤ (child c : Int)) :
    ∀ (n : Nat) (size : Int), 0 < size → size ≤ (n : Int) * cap →
      divRoundUp size g.SectorSize ≤ (childrenNeeded child cap n size : Int) := by
  have hb : (0 : Int) < g.SectorSize := by exact_mod_cast hss
  intro n
  induction n with
  | zero =>
    intro size hpos hfit
    simp only [CharP.cast_eq_zero, zero_mul] at hfit
    omega
  | succ n ih =>
    intro size hpos hfit
    rw [childrenNeeded_pos _ _ _ _ hpos]
    push_cast
    push_cast at hfit
    rw [add_mul, one_mul] at hfit
    by_cases hbig : size > cap
    · rw [if_pos hbig]
      have hcappos : 0 < cap := by
        rcases Nat.eq_zero_or_pos m with h0 | h0
        · exfalso
          rw [hcap, h0] at hfit
          simp at hfit
          omega
        · rw [hcap]; exact Int.mul_pos (by exact_mod_cast h0) hb
      have h1 := hchild cap (by omega) (le_refl _)
      have h2 := ih (size - cap) (by omega) (by omega)
      have h3 := divRoundUp_add_mul (size - cap) m g.SectorSize (by omega) (by omega) hb
      rw [← hcap, show size - cap + cap = size by ring] at h3
      have h4 : divRoundUp cap g.SectorSize = m := by
        rw [hcap]; exact divRoundUp_mul _ _ (by omega) hb
      omega
    · rw [if_neg hbig]
      have h1 := hchild size hpos (by omega)
      omega

theorem NumDirect_pos_of_lt (g : Geometry) (size cap : Int) (hcap : 0 ≤ cap)
    (h1 : cap < size) (h2 : size ≤ (g.NumDirect : Int) * cap) : 0 < g.NumDirect := by
  rcases Nat.eq_zero_or_pos g.NumDirect with h | h
  · rw [h] at h2; simp at h2; omega
  · exact h

theorem le_NumDirect_mul (g : Geometry) (c cap : Int) (hd : 0 < g.NumDirect) (hcap : 0 ≤ cap)
    (h : c ≤ cap) : c ≤ (g.NumDirect : Int) * cap := by
  have h1 : (1 : Int) ≤ g.NumDirect := by exact_mod_cast hd
  have := Int.mul_le_mul_of_nonneg_right h1 hcap
  rw [one_mul] at this
  omega

theorem data_le_needed (g : Geometry) (hss : 0 < g.SectorSize) :
    ∀ (f : Nat) (size : Int), FuelOK g f size → 0 ≤ size →
      size ≤ (g.NumDirect : Int) * g.fileLevel4 →
      divRoundUp size g.SectorSize ≤ (sectorsNeededFuel g f size : Int) := by
  have hb : (0 : Int) < g.SectorSize := by exact_mod_cast hss
  intro f
  induction f with
  | zero => intro size hf; exact absurd hf.1 (by decide)
  | succ f ih =>
    intro size hf hsize hfit
    obtain ⟨-, hf2, hf3, hf4⟩ := hf
    have l0 := fileLevel2_nonneg g
    have l23 := fileLevel2_le_3 g
    have l34 := fileLevel3_le_4 g
    unfold sectorsNeededFuel
    split_ifs with h4 h3 h2
    · have hd := NumDirect_pos_of_lt g size g.fileLevel4 (by omega) h4 hfit
      exact childrenNeeded_ge g (g.NumDirect * g.NumDirect * g.NumDirect) hss _ _
        (by unfold Geometry.fileLevel4; push_cast; ring)
        (fun c hc0 hc => ih c ⟨by omega, by omega, by omega, Or.inl hc⟩ (le_of_lt hc0)
          (le_NumDirect_mul g c _ hd (by omega) hc))
        g.NumDirect size (by omega) hfit
    · have hfit3 : size ≤ (g.NumDirect : Int) * g.fileLevel3 := by
        rw [← fileLevel4_eq]; omega
      have hd := NumDirect_pos_of_lt g size g.fileLevel3 (by omega) h3 hfit3
      exact childrenNeeded_ge g (g.NumDirect * g.NumDirect) hss _ _
        (by unfold Geometry.fileLevel3; push_cast; ring)
        (fun c hc0 hc => ih c ⟨by omega, by omega, Or.inl hc, Or.inl (by omega)⟩
          (le_of_lt hc0) (le_NumDirect_mul g c _ hd (by omega) (by omega)))
        g.NumDirect size (by omega) hfit3
    · have hfit2 : size ≤ (g.NumDirect : Int) * g.fileLevel2 := by
        rw [← fileLevel3_eq]; omega
      have hd := NumDirect_pos_of_lt g size g.fileLevel2 (by omega) h2 hfit2
      exact childrenNeeded_ge g g.NumDirect hss _ _
        (by unfold Geometry.fileLevel2; rfl)
        (fun c hc0 hc => ih c
          ⟨by omega, Or.inl hc, Or.inl (by omega), Or.inl (by omega)⟩
          (le_of_lt hc0) (le_NumDirect_mul g c _ hd (by omega) (by omega)))
        g.NumDirect size (by omega) hfit2
    · have := divRoundUp_nonneg size g.SectorSize hsize hb
      omega

/-! ## `Allocate` followed by `ByteToSector` -/

theorem getSector_of_getElem (hdr : FileHeader) (q s : Int) (hq : 0 ≤ q)
    (h : hdr.dataSectors[q.toNat]? = some s) : hdr.getSector q = Except.ok s := by
  obtain ⟨hlt, hget⟩ := List.getElem?_eq_some_iff.1 h
  unfold FileHeader.getSector
  have hlt' : q < (hdr.dataSectors.length : Int) := by omega
  rw [if_pos ⟨hq, hlt'⟩]
  simp [List.getD, h]

/-- A size in the branch of stride `cap`: the three routines dispatch to the
child loop, and the specification of the children gives that of the parent. -/
theorem AllocSpec_of_indirect (g : Geometry) (f m : Nat) (hss : 0 < g.SectorSize)
    (hm : 0 < m) (cap : Int) (hcap : cap = (m : Int) * (g.SectorSize : Int))
    (hchild : ∀ c, 0 < c → c ≤ cap → AllocSpec g f c)
    (size : Int) (hpos : 0 < size) (hfit : size ≤ (g.NumDirect : Int) * cap)
    (hdata : divRoundUp size g.SectorSize ≤ (sectorsNeededFuel g (f + 1) size : Int))
    (hN : sectorsNeededFuel g (f + 1) size
      = childrenNeeded (sectorsNeededFuel g f) cap g.NumDirect size)
    (hA : ∀ (this : FileHeader) (st : FsState),
      ¬ NumClear st.freeMap < divRoundUp size g.SectorSize →
      AllocateFuel g (f + 1) this st size
        = (match allocIndirect (fun s z => AllocateFuel g f (FileHeader.new g) s z) cap
              g.NumDirect 0 size
              { this with numBytes := size,
                          numSectors := divRoundUp size g.SectorSize } st with
           | Except.error e => Except.error e
           | Except.ok (h, s) => Except.ok (true, h, s)))
    (hB : ∀ (d : Disk) (hdr : FileHeader) (o : Int), hdr.numBytes = size →
      ByteToSectorFuel g (f + 1) d hdr o
        = (match hdr.getSector (divRoundDown o cap) with
           | Except.error e => Except.error e
           | Except.ok s =>
             ByteToSectorFuel g f d (FetchFrom d s) (o - divRoundDown o cap * cap))) :
    AllocSpec g (f + 1) size := by
  intro this st hlen hneed
  have hb : (0 : Int) < g.SectorSize := by exact_mod_cast hss
  have hcappos : 0 < cap := by
    rw [hcap]; exact Int.mul_pos (by exact_mod_cast hm) hb
  rw [hN] at hneed
  obtain ⟨hdr1, st1, new, hrun, hnb, -, -, -, hext, hlen1, -, hread⟩ :=
    allocIndirect_spec g f m hss hm cap hcap hchild g.NumDirect 0 size
      { this with numBytes := size, numSectors := divRoundUp size g.SectorSize } st
      (by simp [hlen]) hfit hneed
  refine ⟨hdr1, st1, new, ?_, ?_, hlen1 hpos, ?_⟩
  · rw [hA this st (by rw [hN] at hdata; omega), hrun]
  · rw [hN]; exact hext
  · intro d hd o ho0 ho1
    obtain ⟨sec, s, h1, h2, h3⟩ := hread d hd o ho0 ho1
    refine ⟨s, h2, ?_⟩
    rw [hB d hdr1 o hnb]
    have hq : divRoundDown o cap = o / cap := by
      unfold divRoundDown; exact Int.tdiv_eq_ediv ho0 (le_of_lt hcappos)
    rw [hq]
    rw [Nat.zero_add] at h1
    rw [getSector_of_getElem hdr1 (o / cap) sec
      (Int.ediv_nonneg ho0 (le_of_lt hcappos)) h1]
    exact h3

/-- A size that fits the header's own table: the direct loop. -/
theorem AllocSpec_direct (g : Geometry) (f : Nat) (hss : 0 < g.SectorSize)
    (size : Int) (hsize : 0 ≤ size) (h2 : ¬ size > g.fileLevel2) (h3 : ¬ size > g.fileLevel3)
    (h4 : ¬ size > g.fileLevel4) : AllocSpec g (f + 1) size := by
  intro this st hlen hneed
  have hb : (0 : Int) < g.SectorSize := by exact_mod_cast hss
  have hN : sectorsNeededFuel g (f + 1) size = (divRoundUp size g.SectorSize).toNat := by
    simp [sectorsNeededFuel, h2, h3, h4]
  have hge := divRoundUp_nonneg size g.SectorSize hsize hb
  have hle : divRoundUp size g.SectorSize ≤ g.NumDirect :=
    divRoundUp_le _ _ _ hsize hb (by unfold Geometry.fileLevel2 at h2; omega)
  rw [hN] at hneed ⊢
  obtain ⟨hdr1, st1, new, hrun, hnb, -, -, hext, hnl, hnew, -⟩ := allocDirect_spec
    (divRoundUp size g.SectorSize).toNat 0
    { this with numBytes := size, numSectors := divRoundUp size g.SectorSize } st
    (by simp only [hlen]; omega) hneed
  refine ⟨hdr1, st1, new, ?_, hext, by omega, ?_⟩
  · have hcheck : ¬ NumClear st.freeMap < divRoundUp size g.SectorSize := by omega
    simp only [AllocateFuel, hcheck, h2, h3, h4, if_false, hrun]
  · intro d _ o ho0 ho1
    obtain ⟨hq0, hq1⟩ := ediv_lt_divRoundUp o size g.SectorSize ho0 ho1 hb
    have hj : (o / (g.SectorSize : Int)).toNat < new.length := by omega
    refine ⟨new[(o / (g.SectorSize : Int)).toNat], List.getElem?_eq_getElem hj, ?_⟩
    have hnbs : ¬ hdr1.numBytes > g.fileLevel2 ∧ ¬ hdr1.numBytes > g.fileLevel3
        ∧ ¬ hdr1.numBytes > g.fileLevel4 := by
      rw [hnb]; exact ⟨h2, h3, h4⟩
    simp only [ByteToSectorFuel, hnbs.1, hnbs.2.1, hnbs.2.2, if_false]
    rw [Int.tdiv_eq_ediv ho0 (le_of_lt hb)]
    apply getSector_of_getElem _ _ _ hq0
    have := hnew (o / (g.SectorSize : Int)).toNat (by omega)
    rw [Nat.zero_add] at this
    rw [this, List.getElem?_eq_getElem hj]

/-- Every file that fits four levels is allocated in full when the free map
holds the sectors it needs, and `ByteToSector` then finds its blocks. -/
theorem AllocateFuel_spec (g : Geometry) (hss : 0 < g.SectorSize) :
    ∀ (f : Nat) (size : Int), FuelOK g f size → 0 ≤ size →
      size ≤ (g.NumDirect : Int) * g.fileLevel4 → AllocSpec g f size := by
  intro f
  induction f with
  | zero => intro size hf; exact absurd hf.1 (by decide)
  | succ f ih =>
    intro size hf hsize hfit
    have hdata := data_le_needed g hss (f + 1) size hf hsize hfit
    obtain ⟨-, hf2, hf3, hf4⟩ := hf
    have l0 := fileLevel2_nonneg g
    have l23 := fileLevel2_le_3 g
    have l34 := fileLevel3_le_4 g
    by_cases h4 : size > g.fileLevel4
    · have hd := NumDirect_pos_of_lt g size g.fileLevel4 (by omega) h4 hfit
      refine AllocSpec_of_indirect g f (g.NumDirect * g.NumDirect * g.NumDirect) hss
        (Nat.mul_pos (Nat.mul_pos hd hd) hd) g.fileLevel4
        (by unfold Geometry.fileLevel4; push_cast; ring)
        (fun c hc0 hc => ih c ⟨by omega, by omega, by omega, Or.inl hc⟩ (le_of_lt hc0)
          (le_NumDirect_mul g c _ hd (by omega) hc))
        size (by omega) hfit hdata ?_ ?_ ?_
      · simp [sectorsNeededFuel, h4]
      · intro this st hcheck
        simp only [AllocateFuel, hcheck, h4, if_false, if_true]
      · intro d hdr o hnb
        have : hdr.numBytes > g.fileLevel4 := by rw [hnb]; exact h4
        simp only [ByteToSectorFuel, this, if_true]
    · by_cases h3 : size > g.fileLevel3
      · have hfit3 : size ≤ (g.NumDirect : Int) * g.fileLevel3 := by
          rw [← fileLevel4_eq]; omega
        have hd := NumDirect_pos_of_lt g size g.fileLevel3 (by omega) h3 hfit3
        refine AllocSpec_of_indirect g f (g.NumDirect * g.NumDirect) hss
          (Nat.mul_pos hd hd) g.fileLevel3
          (by unfold Geometry.fileLevel3; push_cast; ring)
          (fun c hc0 hc => ih c ⟨by omega, by omega, Or.inl hc, Or.inl (by omega)⟩
            (le_of_lt hc0) (le_NumDirect_mul g c _ hd (by omega) (by omega)))
          size (by omega) hfit3 hdata ?_ ?_ ?_
        · simp [sectorsNeededFuel, h4, h3]
        · intro this st hcheck
          simp only [AllocateFuel, hcheck, h4, h3, if_false, if_true]
        · intro d hdr o hnb
          have e4 : ¬ hdr.numBytes > g.fileLevel4 := by rw [hnb]; exact h4
          have e3 : hdr.numBytes > g.fileLevel3 := by rw [hnb]; exact h3
          simp only [ByteToSectorFuel, e4, e3, if_true, if_false]
      · by_cases h2 : size > g.fileLevel2
        · have hfit2 : size ≤ (g.NumDirect : Int) * g.fileLevel2 := by
            rw [← fileLevel3_eq]; omega
          have hd := NumDirect_pos_of_lt g size g.fileLevel2 (by omega) h2 hfit2
          refine AllocSpec_of_indirect g f g.NumDirect hss hd g.fileLevel2
            (by unfold Geometry.fileLevel2; rfl)
            (fun c hc0 hc => ih c
              ⟨by omega, Or.inl hc, Or.inl (by omega), Or.inl (by omega)⟩
              (le_of_lt hc0) (le_NumDirect_mul g c _ hd (by omega) (by omega)))
            size (by omega) hfit2 hdata ?_ ?_ ?_
          · simp [sectorsNeededFuel, h4, h3, h2]
          · intro this st hcheck
            simp only [AllocateFuel, hcheck, h4, h3, h2, if_false, if_true]
          · intro d hdr o hnb
            have e4 : ¬ hdr.numBytes > g.fileLevel4 := by rw [hnb]; exact h4
            have e3 : ¬ hdr.numBytes > g.fileLevel3 := by rw [hnb]; exact h3
            have e2 : hdr.numBytes > g.fileLevel2 := by rw [hnb]; exact h2
            simp only [ByteToSectorFuel, e4, e3, e2, if_true, if_false]
        · exact AllocSpec_direct g f hss size hsize h2 h3 h4

/-- C10: a header built by `Allocate` for `0 < size <= NumDirect * fileLevel4`
on a free map that holds the `sectorsNeeded` sectors (data and child headers)
is built in full: `Allocate` returns `TRUE`, it claims one data sector per
block, each free before and set afterwards, and for every offset
`0 <= o < size` `ByteToSector o` returns the data sector claimed for block
`o / SectorSize`.  So the result depends on `o` only through `o / SectorSize`.
This holds at every level, whatever the heights of the children. -/
theorem ByteToSector_of_Allocate (g : Geometry) (this : FileHeader) (st : FsState)
    (size : Int) (hss : 0 < g.SectorSize) (hlen : this.dataSectors.length = g.NumDirect)
    (hpos : 0 < size) (hfit : size ≤ (g.NumDirect : Int) * g.fileLevel4)
    (hfree : (sectorsNeeded g size : Int) ≤ NumClear st.freeMap) :
    ∃ hdr st1 new, Allocate g this st size = Except.ok (true, hdr, st1)
      ∧ st1.dataClaims = st.dataClaims ++ new
      ∧ (new.length : Int) = ⌈(size : ℚ) / (g.SectorSize : ℚ)⌉
      ∧ (∀ x ∈ new, IsFree st.freeMap x ∧ ¬ IsFree st1.freeMap x)
      ∧ (∀ o : Int, 0 ≤ o → o < size →
          ∃ s, new[(o / (g.SectorSize : Int)).toNat]? = some s
            ∧ ByteToSector g st1.disk hdr o = Except.ok s)
      ∧ (∀ o o2 : Int, 0 ≤ o → o < size → 0 ≤ o2 → o2 < size →
          o / (g.SectorSize : Int) = o2 / (g.SectorSize : Int) →
          ByteToSector g st1.disk hdr o = ByteToSector g st1.disk hdr o2) := by
  obtain ⟨hdr, st1, new, hrun, hext, hnl, hread⟩ := AllocateFuel_spec g hss 4 size
    ⟨by decide, Or.inr (by decide), Or.inr (by decide), Or.inr (by decide)⟩
    (le_of_lt hpos) hfit this st hlen hfree
  have hr : ∀ o : Int, 0 ≤ o → o < size →
      ∃ s, new[(o / (g.SectorSize : Int)).toNat]? = some s
        ∧ ByteToSector g st1.disk hdr o = Except.ok s :=
    fun o h0 h1 => hread st1.disk (fun _ _ _ => rfl) o h0 h1
  refine ⟨hdr, st1, new, hrun, hext.claims, ?_, hext.fresh, hr, ?_⟩
  · rw [hnl, divRoundUp_eq_ceil size g.SectorSize (le_of_lt hpos) (by exact_mod_cast hss)]
    simp
  · intro o o2 h0 h1 h2 h3 he
    obtain ⟨s, hs1, hs2⟩ := hr o h0 h1
    obtain ⟨s2, ht1, ht2⟩ := hr o2 h2 h3
    rw [he, ht1] at hs1
    cases hs1
    rw [hs2, ht2]

/-- A file of 9 bytes with `SectorSize = 2`, `NumDirect = 2`: a level-3 header
whose first child is a level-2 header (8 bytes) and whose last child is a
level-1 header (1 byte).  The five blocks are found in the sectors 2, 3, 5, 6, 8
that `Allocate` claimed for them. -/
theorem ByteToSector_of_Allocate_witness :
    0 < (Geometry.mk 2 2).SectorSize
    ∧ (FileHeader.new (Geometry.mk 2 2)).dataSectors.length = (Geometry.mk 2 2).NumDirect
    ∧ (0 : Int) < 9 ∧ (9 : Int) ≤ ((Geometry.mk 2 2).NumDirect : Int) * (Geometry.mk 2 2).fileLevel4
    ∧ (sectorsNeeded (Geometry.mk 2 2) 9 : Int) ≤ NumClear (List.replicate 12 false)
    ∧ (∃ hdr st1 new, Allocate (Geometry.mk 2 2) (FileHeader.new (Geometry.mk 2 2))
          ⟨List.replicate 12 false, fun _ => FileHeader.new (Geometry.mk 2 2), [], []⟩ 9
          = Except.ok (true, hdr, st1)
      ∧ st1.dataClaims = [] ++ new
      ∧ (new.length : Int) = ⌈((9 : Int) : ℚ) / ((Geometry.mk 2 2).SectorSize : ℚ)⌉
      ∧ (∀ x ∈ new, IsFree (List.replicate 12 false) x ∧ ¬ IsFree st1.freeMap x)
      ∧ (∀ o : Int, 0 ≤ o → o < 9 →
          ∃ s, new[(o / ((Geometry.mk 2 2).SectorSize : Int)).toNat]? = some s
            ∧ ByteToSector (Geometry.mk 2 2) st1.disk hdr o = Except.ok s)
      ∧ (∀ o o2 : Int, 0 ≤ o → o < 9 → 0 ≤ o2 → o2 < 9 →
          o / ((Geometry.mk 2 2).SectorSize : Int) = o2 / ((Geometry.mk 2 2).SectorSize : Int) →
          ByteToSector (Geometry.mk 2 2) st1.disk hdr o
            = ByteToSector (Geometry.mk 2 2) st1.disk hdr o2))
    ∧ (∃ hdr st1, Allocate (Geometry.mk 2 2) (FileHeader.new (Geometry.mk 2 2))
          ⟨List.replicate 12 false, fun _ => FileHeader.new (Geometry.mk 2 2), [], []⟩ 9
          = Except.ok (true, hdr, st1)
      ∧ st1.dataClaims = [2, 3, 5, 6, 8]
      ∧ ByteToSector (Geometry.mk 2 2) st1.disk hdr 0 = Except.ok 2
      ∧ ByteToSector (Geometry.mk 2 2) st1.disk hdr 3 = Except.ok 3
      ∧ ByteToSector (Geometry.mk 2 2) st1.disk hdr 7 = Except.ok 6
      ∧ ByteToSector (Geometry.mk 2 2) st1.disk hdr 8 = Except.ok 8) :=
  ⟨by decide, by decide, by decide, by decide, by decide,
    ByteToSector_of_Allocate (Geometry.mk 2 2) (FileHeader.new (Geometry.mk 2 2))
      ⟨List.replicate 12 false, fun _ => FileHeader.new (Geometry.mk 2 2), [], []⟩ 9
      (by decide) (by decide) (by decide) (by decide) (by decide),
    ⟨_, _, rfl, by decide, rfl, rfl, rfl, rfl⟩⟩

/-! ## What `Allocate` leaves alone -/

theorem FindAndSet_mono (m : List Bool) (x : Int) (h : IsFree (FindAndSet m).2 x) :
    IsFree m x := by
  unfold FindAndSet at h
  cases hf : firstClear m with
  | none => simpa [hf] using h
  | some i =>
    simp only [hf] at h
    exact ((IsFree_set _ _ _).1 h).1

theorem FindAndSet_result (m : List Bool) :
    (FindAndSet m).1 = -1 ∨ (IsFree m (FindAndSet m).1 ∧ ¬ IsFree (FindAndSet m).2 (FindAndSet m).1) := by
  unfold FindAndSet
  cases hf : firstClear m with
  | none => exact Or.inl rfl
  | some i =>
    refine Or.inr ⟨IsFree_of_getElem _ _ (firstClear_some m i hf), fun h => ?_⟩
    exact ((IsFree_set _ _ _).1 h).2 rfl

theorem FindAndSet_nonneg (m : List Bool) (h : (FindAndSet m).1 ≠ -1) :
    0 ≤ (FindAndSet m).1 := by
  rcases FindAndSet_result m with h1 | h1
  · exact absurd h1 h
  · exact h1.1.1

theorem allocDirect_frame : ∀ (n i : Nat) (hdr : FileHeader) (st : FsState)
    (hdr1 : FileHeader) (st1 : FsState),
    allocDirect n i hdr st = Except.ok (hdr1, st1) →
    (∀ x, IsFree st1.freeMap x → IsFree st.freeMap x) ∧ st1.disk = st.disk
      ∧ hdr1.numBytes = hdr.numBytes := by
  intro n
  induction n with
  | zero =>
    intro i hdr st hdr1 st1 h
    simp only [allocDirect, Except.ok.injEq, Prod.mk.injEq] at h
    obtain ⟨rfl, rfl⟩ := h
    exact ⟨fun _ h => h, rfl, rfl⟩
  | succ n ih =>
    intro i hdr st hdr1 st1 h
    rw [allocDirect] at h
    cases hs : hdr.setSector i (FindAndSet st.freeMap).1 with
    | error e => simp [hs] at h
    | ok hdr2 =>
      simp only [hs] at h
      split_ifs at h with hge
      obtain ⟨h1, h2, h3⟩ := ih _ _ _ _ _ h
      refine ⟨fun x hx => FindAndSet_mono _ _ (h1 x hx), h2, ?_⟩
      rw [h3]
      unfold FileHeader.setSector at hs
      split_ifs at hs
      cases hs
      rfl

theorem allocIndirect_frame
    (child : FsState → Int → Except Fault (Bool × FileHeader × FsState)) (cap : Int)
    (hchild : ∀ st c b h st1, child st c = Except.ok (b, h, st1) →
      (∀ x, IsFree st1.freeMap x → IsFree st.freeMap x)
      ∧ (∀ x, 0 ≤ x → ¬ IsFree st.freeMap x → st1.disk x = st.disk x)) :
    ∀ (n i : Nat) (size : Int) (hdr : FileHeader) (st : FsState)
      (hdr1 : FileHeader) (st1 : FsState),
      allocIndirect child cap n i size hdr st = Except.ok (hdr1, st1) →
      (∀ x, IsFree st1.freeMap x → IsFree st.freeMap x)
      ∧ (∀ x, 0 ≤ x → ¬ IsFree st.freeMap x → st1.disk x = st.disk x)
      ∧ hdr1.numBytes = hdr.numBytes := by
  intro n
  induction n with
  | zero =>
    intro i size hdr st hdr1 st1 h
    simp only [allocIndirect, Except.ok.injEq, Prod.mk.injEq] at h
    obtain ⟨rfl, rfl⟩ := h
    exact ⟨fun _ h => h, fun _ _ _ => rfl, rfl⟩
  | succ n ih =>
    intro i size hdr st hdr1 st1 h
    rw [allocIndirect] at h
    by_cases hpos : size > 0
    swap
    · simp only [hpos, if_false, Except.ok.injEq, Prod.mk.injEq] at h
      obtain ⟨rfl, rfl⟩ := h
      exact ⟨fun _ h => h, fun _ _ _ => rfl, rfl⟩
    · simp only [hpos, if_true] at h
      cases hs : hdr.setSector i (FindAndSet st.freeMap).1 with
      | error e => simp [hs] at h
      | ok hdr2 =>
        simp only [hs] at h
        cases hc : child { st with freeMap := (FindAndSet st.freeMap).2,
                                   headerClaims := st.headerClaims ++ [(FindAndSet st.freeMap).1] }
            (if size > cap then cap else size) with
        | error e => simp [hc] at h
        | ok r =>
          obtain ⟨b, nextHDR, st2⟩ := r
          simp only [hc] at h
          obtain ⟨c1, c2⟩ := hchild _ _ _ _ _ hc
          obtain ⟨h1, h2, h3⟩ := ih _ _ _ _ _ _ h
          simp only at c1 c2 h1 h2
          refine ⟨fun x hx => FindAndSet_mono _ _ (c1 x (h1 x hx)), fun x hx0 hx => ?_, ?_⟩
          · have hx1 : ¬ IsFree (FindAndSet st.freeMap).2 x := fun hc => hx (FindAndSet_mono _ _ hc)
            have hx2 : ¬ IsFree st2.freeMap x := fun hc => hx1 (c1 x hc)
            rw [h2 x hx0 hx2]
            have hne : x ≠ (FindAndSet st.freeMap).1 := by
              rcases FindAndSet_result st.freeMap with hr | hr
              · rw [hr]; omega
              · intro e; exact hx (e ▸ hr.1)
            simp only [WriteBack, if_neg hne]
            exact c2 x hx0 hx1
          · rw [h3]
            unfold FileHeader.setSector at hs
            split_ifs at hs
            cases hs
            rfl

/-- Whatever `AllocateFuel` returns: no bit of the free map was cleared, only
sectors that were free (or the sector -1) were written, and `numBytes` of the
header is the size asked for. -/
theorem AllocateFuel_frame (g : Geometry) : ∀ (f : Nat) (this : FileHeader) (st : FsState)
    (size : Int) (b : Bool) (hdr : FileHeader) (st1 : FsState),
    AllocateFuel g f this st size = Except.ok (b, hdr, st1) →
    (∀ x, IsFree st1.freeMap x → IsFree st.freeMap x)
    ∧ (∀ x, 0 ≤ x → ¬ IsFree st.freeMap x → st1.disk x = st.disk x)
    ∧ hdr.numBytes = size
    ∧ (b = false → st1 = st) := by
  intro f
  induction f with
  | zero => intro this st size b hdr st1 h; simp [AllocateFuel] at h
  | succ f ih =>
    intro this st size b hdr st1 h
    have hchild : ∀ st c b h st1,
        (fun s z => AllocateFuel g f (FileHeader.new g) s z) st c = Except.ok (b, h, st1) →
        (∀ x, IsFree st1.freeMap x → IsFree st.freeMap x)
        ∧ (∀ x, 0 ≤ x → ¬ IsFree st.freeMap x → st1.disk x = st.disk x) := by
      intro st c b h st1 hr
      obtain ⟨a1, a2, -⟩ := ih _ _ _ _ _ _ hr
      exact ⟨a1, a2⟩
    rw [AllocateFuel] at h
    simp only at h
    split_ifs at h with hcheck h4 h3 h2
    · simp only [Except.ok.injEq, Prod.mk.injEq] at h
      obtain ⟨rfl, rfl, rfl⟩ := h
      exact ⟨fun _ h => h, fun _ _ _ => rfl, rfl, fun _ => rfl⟩
    · cases hr : allocIndirect (fun s z => AllocateFuel g f (FileHeader.new g) s z)
          g.fileLevel4 g.NumDirect 0 size
          { this with numBytes := size, numSectors := divRoundUp size g.SectorSize } st with
      | error e => simp [hr] at h
      | ok r =>
        obtain ⟨h1, s1⟩ := r
        simp only [hr, Except.ok.injEq, Prod.mk.injEq] at h
        obtain ⟨rfl, rfl, rfl⟩ := h
        obtain ⟨a1, a2, a3⟩ := allocIndirect_frame _ _ hchild _ _ _ _ _ _ _ hr
        exact ⟨a1, a2, a3, fun hb => by simp at hb⟩
    · cases hr : allocIndirect (fun s z => AllocateFuel g f (FileHeader.new g) s z)
          g.fileLevel3 g.NumDirect 0 size
          { this with numBytes := size, numSectors := divRoundUp size g.SectorSize } st with
      | error e => simp [hr] at h
      | ok r =>
        obtain ⟨h1, s1⟩ := r
        simp only [hr, Except.ok.injEq, Prod.mk.injEq] at h
        obtain ⟨rfl, rfl, rfl⟩ := h
        obtain ⟨a1, a2, a3⟩ := allocIndirect_frame _ _ hchild _ _ _ _ _ _ _ hr
        exact ⟨a1, a2, a3, fun hb => by simp at hb⟩
    · cases hr : allocIndirect (fun s z => AllocateFuel g f (FileHeader.new g) s z)
          g.fileLevel2 g.NumDirect 0 size
          { this with numBytes := size, numSectors := divRoundUp size g.SectorSize } st with
      | error e => simp [hr] at h
      | ok r =>
        obtain ⟨h1, s1⟩ := r
        simp only [hr, Except.ok.injEq, Prod.mk.injEq] at h
        obtain ⟨rfl, rfl, rfl⟩ := h
        obtain ⟨a1, a2, a3⟩ := allocIndirect_frame _ _ hchild _ _ _ _ _ _ _ hr
        exact ⟨a1, a2, a3, fun hb => by simp at hb⟩
    · cases hr : allocDirect (divRoundUp size g.SectorSize).toNat 0
          { this with numBytes := size, numSectors := divRoundUp size g.SectorSize } st with
      | error e => simp [hr] at h
      | ok r =>
        obtain ⟨h1, s1⟩ := r
        simp only [hr, Except.ok.injEq, Prod.mk.injEq] at h
        obtain ⟨rfl, rfl, rfl⟩ := h
        obtain ⟨a1, a2, a3⟩ := allocDirect_frame _ _ _ _ _ _ hr
        exact ⟨a1, fun x _ _ => by rw [a2], a3, fun hb => by simp at hb⟩

/-! ## `Create` and `Remove` when they fail -/

theorem Create_false_unchanged (c : DiskConfig) (fuel : Nat) (fs fs1 : FileSystem)
    (path : List String) (initialSize : Int)
    (h : Create c fuel fs path initialSize = Except.ok (false, fs1)) : fs1 = fs := by
  unfold Create at h
  cases hroot : Directory.FetchFrom c.g fuel fs fs.directoryFile with
  | error e => simp [hroot] at h
  | ok root =>
    simp only [hroot] at h
    cases hw : createWalk c.g fuel fs root fs.directoryFile path.head? path with
    | error e => simp [hw] at h
    | ok r =>
      obtain ⟨directory, tmpFile, name⟩ := r
      cases name with
      | none => simp [hw] at h
      | some name =>
        simp only [hw] at h
        split_ifs at h with h1 h2
        · simp only [Except.ok.injEq, Prod.mk.injEq, true_and] at h
          exact h.symm
        · simp only [Except.ok.injEq, Prod.mk.injEq, true_and] at h
          exact h.symm
        · cases hadd : Directory.Add directory name (FindAndSet fs.freeMap).1 true with
          | none =>
            simp only [hadd, Except.ok.injEq, Prod.mk.injEq, true_and] at h
            exact h.symm
          | some directory1 =>
            simp only [hadd] at h
            cases ha : Allocate c.g (FileHeader.new c.g)
                { freeMap := (FindAndSet fs.freeMap).2, disk := fs.disk,
                  dataClaims := [], headerClaims := [] } initialSize with
            | error e => simp [ha] at h
            | ok r =>
              obtain ⟨b, hdr, st1⟩ := r
              cases b with
              | false =>
                simp only [ha, Except.ok.injEq, Prod.mk.injEq, true_and] at h
                obtain ⟨-, -, -, hsame⟩ := AllocateFuel_frame c.g 4 _ _ _ _ _ _ ha
                rw [hsame rfl] at h
                exact h.symm
              | true =>
                simp only [ha] at h
                cases hwb : Directory.WriteBack c.g fuel
                    { fs with disk := WriteBack st1.disk (FindAndSet fs.freeMap).1 hdr }
                    directory1 tmpFile with
                | error e => simp [hwb] at h
                | ok fs2 => simp [hwb] at h

theorem openWalk_misses (g : Geometry) (fuel : Nat) (fs : FileSystem) (path : List String) :
    ∀ (directory : List DirectoryEntry) (tmpFile : OpenFile) (prev : Option String),
      Directory.FetchFrom g fuel fs tmpFile = Except.ok directory →
      openWalkMisses g fuel fs directory path = true →
      ∃ directory1 tmpFile1 name,
        openWalk g fuel fs directory tmpFile prev path
          = Except.ok (directory1, tmpFile1, some name)
        ∧ Directory.FetchFrom g fuel fs tmpFile1 = Except.ok directory1
        ∧ Directory.Find directory1 name = -1 := by
  induction path with
  | nil => intro directory tmpFile prev _ h; simp [openWalkMisses] at h
  | cons token rest ih =>
    intro directory tmpFile prev hf h
    rw [openWalkMisses] at h
    rw [openWalk]
    by_cases h1 : Directory.Find directory token = -1
    · exact ⟨directory, tmpFile, token, by simp [h1], hf, h1⟩
    · simp only [h1, if_false] at h
      by_cases h2 : Directory.IsFile directory token = true
      · simp [h2] at h
      · simp only [h2, if_false] at h
        cases hn : Directory.FetchFrom g fuel fs
            (OpenFile.new fs.disk (Directory.Find directory token)) with
        | error e => simp [hn] at h
        | ok directory1 =>
          simp only [hn] at h
          obtain ⟨d2, t2, name, hw, hf2, hfind⟩ := ih directory1
            (OpenFile.new fs.disk (Directory.Find directory token)) (some token) hn h
          refine ⟨d2, t2, name, ?_, hf2, hfind⟩
          simp only [h1, h2, or_self, if_false, hn]
          exact hw

/-! ## Allocation followed by deallocation, level 1 -/

/-- Setting the bits `rs` of a free map. -/
theorem setAll_getElem_true (rs : List Nat) : ∀ (m : List Bool) (r : Nat),
    m[r]? = some true → (rs.foldl (fun m r => m.set r true) m)[r]? = some true := by
  induction rs with
  | nil => intro m r h; exact h
  | cons a rs ih =>
    intro m r h
    simp only [List.foldl_cons]
    apply ih
    rw [List.getElem?_set]
    split_ifs with h1 h2
    · rfl
    · subst h1
      have := (List.getElem?_eq_some_iff.1 h).1
      exact absurd this h2
    · exact h

theorem setAll_length (rs : List Nat) : ∀ (m : List Bool),
    (rs.foldl (fun m r => m.set r true) m).length = m.length := by
  induction rs with
  | nil => intro m; rfl
  | cons a rs ih => intro m; simp only [List.foldl_cons]; rw [ih]; simp

theorem setAll_clear_comm (rs : List Nat) : ∀ (m : List Bool) (r : Nat), r ∉ rs →
    (rs.foldl (fun m r => m.set r true) m).set r false
      = rs.foldl (fun m r => m.set r true) (m.set r false) := by
  induction rs with
  | nil => intro m r _; rfl
  | cons a rs ih =>
    intro m r hr
    simp only [List.foldl_cons]
    rw [ih _ _ (fun h => hr (List.mem_cons_of_mem _ h))]
    have hne : a ≠ r := fun e => hr (e ▸ List.mem_cons_self _ _)
    rw [List.set_comm _ _ _ hne]

theorem set_false_of_clear (m : List Bool) (r : Nat) (h : m[r]? = some false) :
    m.set r false = m := by
  apply List.ext_getElem?
  intro k
  rw [List.getElem?_set]
  split_ifs with h1 h2
  · subst h1; exact h.symm
  · subst h1
    rw [List.getElem?_eq_none (by omega)]
  · rfl

theorem Test_of_getElem (m : List Bool) (r : Nat) (b : Bool) (h : m[r]? = some b) :
    Test m (r : Int) = Except.ok b := by
  obtain ⟨hlt, hget⟩ := List.getElem?_eq_some_iff.1 h
  unfold Test
  have h1 : (0 : Int) ≤ (r : Int) ∧ (r : Int) < (m.length : Int) := ⟨by omega, by omega⟩
  rw [if_pos h1]
  simp [List.getD, h]

theorem Clear_of_lt (m : List Bool) (r : Nat) (h : r < m.length) :
    Clear m (r : Int) = Except.ok (m.set r false) := by
  unfold Clear
  have h1 : (0 : Int) ≤ (r : Int) ∧ (r : Int) < (m.length : Int) := ⟨by omega, by omega⟩
  rw [if_pos h1]
  simp

/-- Clearing, in the order of the table, the bits that were set for it gives
back the free map. -/
theorem deallocDirect_setAll (rs : List Nat) : ∀ (i : Nat) (hdr : FileHeader) (m : List Bool),
    rs.Nodup → (∀ r ∈ rs, m[r]? = some false) →
    (∀ j, j < rs.length → hdr.dataSectors[i + j]? = (rs[j]?).map (fun r => (r : Int))) →
    deallocDirect rs.length i hdr (rs.foldl (fun m r => m.set r true) m) = Except.ok m := by
  induction rs with
  | nil => intro i hdr m _ _ _; rfl
  | cons r rs ih =>
    intro i hdr m hnd hfree hsec
    rw [List.nodup_cons] at hnd
    have hr := hfree r (List.mem_cons_self _ _)
    have hrlt : r < m.length := (List.getElem?_eq_some_iff.1 hr).1
    have h0 := hsec 0 (by simp)
    simp only [Nat.add_zero, List.getElem?_cons_zero, Option.map_some'] at h0
    have hget : hdr.getSector (i : Int) = Except.ok (r : Int) :=
      getSector_of_getElem hdr (i : Int) (r : Int) (by omega) (by simpa using h0)
    have hset : ((r :: rs).foldl (fun m r => m.set r true) m)[r]? = some true := by
      simp only [List.foldl_cons]
      apply setAll_getElem_true
      rw [List.getElem?_set]
      simp [hrlt]
    have hlen : r < ((r :: rs).foldl (fun m r => m.set r true) m).length := by
      rw [setAll_length]; exact hrlt
    simp only [List.length_cons]
    rw [deallocDirect]
    simp only [hget, Test_of_getElem _ _ _ hset, Clear_of_lt _ _ hlen]
    simp only [List.foldl_cons]
    rw [setAll_clear_comm rs _ r hnd.1, List.set_set, set_false_of_clear m r hr]
    apply ih (i + 1) hdr m hnd.2 (fun x hx => hfree x (List.mem_cons_of_mem _ hx))
    intro j hj
    have := hsec (j + 1) (by simp; omega)
    simp only [List.getElem?_cons_succ] at this
    rw [← this]
    congr 1
    omega

/-- What a successful run of the direct loop did, exactly: it set the bits
`rs`, all different and all clear before, and stored them in the table. -/
theorem allocDirect_exact : ∀ (n i : Nat) (hdr : FileHeader) (st : FsState)
    (hdr1 : FileHeader) (st1 : FsState),
    allocDirect n i hdr st = Except.ok (hdr1, st1) →
    ∃ rs : List Nat, rs.length = n ∧ rs.Nodup
      ∧ (∀ r ∈ rs, st.freeMap[r]? = some false)
      ∧ st1.freeMap = rs.foldl (fun m r => m.set r true) st.freeMap
      ∧ (∀ j, j < n → hdr1.dataSectors[i + j]? = (rs[j]?).map (fun r => (r : Int)))
      ∧ (∀ j, j < i → hdr1.dataSectors[j]? = hdr.dataSectors[j]?)
      ∧ hdr1.numBytes = hdr.numBytes ∧ hdr1.numSectors = hdr.numSectors
      ∧ st1.disk = st.disk := by
  intro n
  induction n with
  | zero =>
    intro i hdr st hdr1 st1 h
    simp only [allocDirect, Except.ok.injEq, Prod.mk.injEq] at h
    obtain ⟨rfl, rfl⟩ := h
    exact ⟨[], rfl, List.nodup_nil, by simp, rfl, fun j hj => absurd hj (Nat.not_lt_zero j),
      fun _ _ => rfl, rfl, rfl, rfl⟩
  | succ n ih =>
    intro i hdr st hdr1 st1 h
    rw [allocDirect] at h
    unfold FindAndSet at h
    cases hf : firstClear st.freeMap with
    | none =>
      simp only [hf] at h
      cases hs : hdr.setSector i (-1) with
      | error e => simp [hs] at h
      | ok hdr2 => simp [hs] at h
    | some r =>
      simp only [hf] at h
      have hr := firstClear_some st.freeMap r hf
      cases hs : hdr.setSector i (r : Int) with
      | error e => simp [hs] at h
      | ok hdr2 =>
        simp only [hs] at h
        rw [if_pos (Int.ofNat_nonneg r)] at h
        unfold FileHeader.setSector at hs
        split_ifs at hs with hi
        simp only [Except.ok.injEq] at hs
        subst hs
        obtain ⟨rs, hlen, hnd, hfree, hmap, hsec, hold, hnb, hns, hdisk⟩ := ih _ _ _ _ _ h
        simp only at hfree hmap hold hnb hns hdisk
        have hrs : r ∉ rs := by
          intro hmem
          have := hfree r hmem
          rw [List.getElem?_set] at this
          simp only [if_true] at this
          split_ifs at this
          simp at this
        refine ⟨r :: rs, by simp [hlen], List.nodup_cons.2 ⟨hrs, hnd⟩, ?_, ?_, ?_, ?_,
          hnb, hns, hdisk⟩
        · intro x hx
          rcases List.mem_cons.1 hx with rfl | hx
          · exact hr
          · have := hfree x hx
            have hne : r ≠ x := fun e => hrs (e ▸ hx)
            rwa [List.getElem?_set_ne hne] at this
        · simpa using hmap
        · intro j hj
          cases j with
          | zero =>
            rw [Nat.add_zero, hold i (Nat.lt_succ_self i)]
            simp [List.getElem?_set, hi]
          | succ j =>
            have := hsec j (by omega)
            rw [List.getElem?_cons_succ, ← this]
            congr 1
            omega
        · intro j hj
          rw [hold j (by omega)]
          rw [List.getElem?_set_ne (by omega)]

/-- A successful `AllocateFuel` of a size that fits the header's own table. -/
theorem AllocateFuel_direct_exact (g : Geometry) (f : Nat) (this hdr : FileHeader)
    (st st1 : FsState) (size : Int) (hsize : size ≤ g.fileLevel2)
    (h : AllocateFuel g (f + 1) this st size = Except.ok (true, hdr, st1)) :
    ∃ rs : List Nat, rs.length = (divRoundUp size g.SectorSize).toNat ∧ rs.Nodup
      ∧ (∀ r ∈ rs, st.freeMap[r]? = some false)
      ∧ st1.freeMap = rs.foldl (fun m r => m.set r true) st.freeMap
      ∧ (∀ j, j < rs.length → hdr.dataSectors[j]? = (rs[j]?).map (fun r => (r : Int)))
      ∧ hdr.numBytes = size ∧ hdr.numSectors = divRoundUp size g.SectorSize
      ∧ st1.disk = st.disk := by
  have l23 := fileLevel2_le_3 g
  have l34 := fileLevel3_le_4 g
  rw [AllocateFuel] at h
  have h2 : ¬ size > g.fileLevel2 := by omega
  have h3 : ¬ size > g.fileLevel3 := by omega
  have h4 : ¬ size > g.fileLevel4 := by omega
  simp only [h2, h3, h4, if_false] at h
  split_ifs at h with hcheck
  · simp at h
  · cases hr : allocDirect (divRoundUp size g.SectorSize).toNat 0
        { this with numBytes := size, numSectors := divRoundUp size g.SectorSize } st with
    | error e => simp [hr] at h
    | ok r =>
      obtain ⟨h1, s1⟩ := r
      simp only [hr, Except.ok.injEq, Prod.mk.injEq, true_and] at h
      obtain ⟨rfl, rfl⟩ := h
      obtain ⟨rs, hlen, hnd, hfree, hmap, hsec, -, hnb, hns, hdisk⟩ :=
        allocDirect_exact _ _ _ _ _ _ hr
      simp only at hnb hns
      refine ⟨rs, hlen, hnd, hfree, hmap, fun j hj => ?_, hnb, hns, hdisk⟩
      have := hsec j (by omega)
      rwa [Nat.zero_add] at this

/-- A level-1 file: `Deallocate` undoes what `Allocate` did to the free map. -/
theorem Deallocate_Allocate_direct (g : Geometry) (f fuel : Nat) (this hdr : FileHeader)
    (st st1 : FsState) (size : Int) (hsize : size ≤ g.fileLevel2)
    (h : AllocateFuel g (f + 1) this st size = Except.ok (true, hdr, st1)) (disk : Disk) :
    Deallocate g (fuel + 1) disk hdr st1.freeMap = Except.ok st.freeMap := by
  obtain ⟨rs, hlen, hnd, hfree, hmap, hsec, hnb, hns, -⟩ :=
    AllocateFuel_direct_exact g f this hdr st st1 size hsize h
  rw [Deallocate]
  have : ¬ hdr.numBytes > g.fileLevel2 := by rw [hnb]; omega
  rw [if_neg this, hns, ← hlen, hmap]
  apply deallocDirect_setAll rs 0 hdr st.freeMap hnd hfree
  intro j hj
  rw [Nat.zero_add]
  exact hsec j hj

/-! ## Directories -/

theorem Directory.Find_of_hasName_false : ∀ (table : List DirectoryEntry) (name : String),
    Directory.hasName table name = false →
    Directory.Find table name = -1 ∧ Directory.IsFile table name = false := by
  intro table
  induction table with
  | nil => intro name _; exact ⟨rfl, rfl⟩
  | cons e table ih =>
    intro name h
    rw [Directory.hasName] at h
    rw [Directory.Find, Directory.IsFile]
    split_ifs at h ⊢ with hc
    exact ih name h

theorem Directory.fill_some : ∀ (table : List DirectoryEntry) (new : DirectoryEntry),
    (∃ e ∈ table, e.inUse = false) → ∃ table1, Directory.fill new table = some table1 := by
  intro table
  induction table with
  | nil => intro new h; obtain ⟨e, he, -⟩ := h; simp at he
  | cons e table ih =>
    intro new h
    rw [Directory.fill]
    by_cases hu : e.inUse = true
    · rw [if_pos hu]
      have : ∃ e ∈ table, e.inUse = false := by
        obtain ⟨x, hx, hxu⟩ := h
        rcases List.mem_cons.1 hx with rfl | hx
        · rw [hu] at hxu; cases hxu
        · exact ⟨x, hx, hxu⟩
      obtain ⟨t1, ht1⟩ := ih new this
      rw [ht1]
      exact ⟨_, rfl⟩
    · rw [if_neg hu]
      exact ⟨_, rfl⟩

/-- The table after an entry went into the first unused slot. -/
theorem Directory.fill_spec : ∀ (table table1 : List DirectoryEntry) (new : DirectoryEntry),
    Directory.fill new table = some table1 → new.inUse = true →
    Directory.hasName table new.name = false →
    Directory.Find table1 new.name = new.sector
    ∧ Directory.IsFile table1 new.name = new.isFile
    ∧ Directory.hasName table1 new.name = true
    ∧ table1.filter (fun e => e.inUse) ≠ table.filter (fun e => e.inUse)
    ∧ (∀ name, name ≠ new.name →
        Directory.Find table1 name = Directory.Find table name
        ∧ Directory.IsFile table1 name = Directory.IsFile table name
        ∧ Directory.hasName table1 name = Directory.hasName table name)
    ∧ (Directory.Remove table1 new.name).1 = true
    ∧ (Directory.Remove table1 new.name).2.filter (fun e => e.inUse)
        = table.filter (fun e => e.inUse) := by
  intro table
  induction table with
  | nil => intro table1 new h; simp [Directory.fill] at h
  | cons e table ih =>
    intro table1 new h hnew hno
    rw [Directory.fill] at h
    rw [Directory.hasName] at hno
    by_cases hu : e.inUse = true
    · rw [if_pos hu] at h
      cases hf : Directory.fill new table with
      | none => simp [hf] at h
      | some t1 =>
        simp only [hf, Option.some.injEq] at h
        subst h
        have hne : ¬ (e.inUse = true ∧ e.name = new.name) := by
          intro hc; rw [if_pos hc] at hno; cases hno
        rw [if_neg hne] at hno
        obtain ⟨a1, a2, a3, a4, a5, a6, a7⟩ := ih t1 new hf hnew hno
        refine ⟨?_, ?_, ?_, ?_, ?_, ?_, ?_⟩
        · rw [Directory.Find, if_neg hne]; exact a1
        · rw [Directory.IsFile, if_neg hne]; exact a2
        · rw [Directory.hasName, if_neg hne]; exact a3
        · simp only [List.filter_cons, hu, if_true]
          intro hc
          exact a4 (List.cons_injective hc)
        · intro name hname
          obtain ⟨b1, b2, b3⟩ := a5 name hname
          rw [Directory.Find, Directory.IsFile, Directory.hasName,
            Directory.Find, Directory.IsFile, Directory.hasName, b1, b2, b3]
          exact ⟨rfl, rfl, rfl⟩
        · rw [Directory.Remove, if_neg hne]; exact a6
        · rw [Directory.Remove, if_neg hne]
          simp only [List.filter_cons, hu, if_true]
          rw [a7]
    · rw [if_neg hu, Option.some.injEq] at h
      subst h
      have hu' : e.inUse = false := by simpa using hu
      refine ⟨?_, ?_, ?_, ?_, ?_, ?_, ?_⟩
      · rw [Directory.Find, if_pos ⟨hnew, rfl⟩]
      · rw [Directory.IsFile, if_pos ⟨hnew, rfl⟩]
      · rw [Directory.hasName, if_pos ⟨hnew, rfl⟩]
      · simp only [List.filter_cons, hu', hnew, if_true]
        intro hc
        have := congrArg List.length hc
        simp at this
      · intro name hname
        have h1 : ¬ (new.inUse = true ∧ new.name = name) := fun hc => hname hc.2.symm
        have h2 : ¬ (e.inUse = true ∧ e.name = name) := fun hc => hu hc.1
        rw [Directory.Find, Directory.IsFile, Directory.hasName, if_neg h1, if_neg h1,
          if_neg h1, Directory.Find, Directory.IsFile, Directory.hasName, if_neg h2,
          if_neg h2, if_neg h2]
        exact ⟨rfl, rfl, rfl⟩
      · rw [Directory.Remove, if_pos ⟨hnew, rfl⟩]
      · rw [Directory.Remove, if_pos ⟨hnew, rfl⟩]
        simp [List.filter_cons, hu']

theorem Directory.hasName_filter : ∀ (table : List DirectoryEntry) (name : String),
    Directory.hasName (table.filter (fun e => e.inUse)) name = Directory.hasName table name
    ∧ Directory.Find (table.filter (fun e => e.inUse)) name = Directory.Find table name
    ∧ Directory.IsFile (table.filter (fun e => e.inUse)) name
        = Directory.IsFile table name := by
  intro table
  induction table with
  | nil => intro name; exact ⟨rfl, rfl, rfl⟩
  | cons e table ih =>
    intro name
    obtain ⟨a1, a2, a3⟩ := ih name
    by_cases hu : e.inUse = true
    · simp only [List.filter_cons, hu, if_true]
      rw [Directory.hasName, Directory.Find, Directory.IsFile, a1, a2, a3]
      exact ⟨(Directory.hasName.eq_2 _ _ _).symm, (Directory.Find.eq_2 _ _ _).symm,
        (Directory.IsFile.eq_2 _ _ _).symm⟩
    · have hne : ¬ (e.inUse = true ∧ e.name = name) := fun hc => hu hc.1
      have hfl : (e :: table).filter (fun e => e.inUse) = table.filter (fun e => e.inUse) :=
        List.filter_cons_of_neg (by simpa using hu)
      rw [hfl, a1, a2, a3, Directory.hasName, Directory.Find, Directory.IsFile, if_neg hne,
        if_neg hne, if_neg hne]
      exact ⟨rfl, rfl, rfl⟩

theorem Directory.new_unused (n : Nat) : ∀ e ∈ Directory.new n, e.inUse = false := by
  intro e he
  rw [Directory.new] at he
  rw [List.eq_of_mem_replicate he]

theorem Directory.new_hasName (n : Nat) (name : String) :
    Directory.hasName (Directory.new n) name = false := by
  induction n with
  | zero => rfl
  | succ n ih =>
    rw [Directory.new, List.replicate_succ, Directory.hasName]
    simp only [Bool.false_eq_true, false_and, if_false]
    exact ih

/-! ## Directory files of level 1 -/

theorem ByteToSectorFuel_level1 (g : Geometry) (fuel : Nat) (disk : Disk) (hdr : FileHeader)
    (h : hdr.numBytes ≤ g.fileLevel2) :
    ByteToSectorFuel g (fuel + 1) disk hdr 0 = hdr.getSector 0 := by
  have l23 := fileLevel2_le_3 g
  have l34 := fileLevel3_le_4 g
  have h2 : ¬ hdr.numBytes > g.fileLevel2 := by omega
  have h3 : ¬ hdr.numBytes > g.fileLevel3 := by omega
  have h4 : ¬ hdr.numBytes > g.fileLevel4 := by omega
  rw [ByteToSectorFuel]
  simp only [h2, h3, h4, if_false, Int.zero_tdiv]

theorem Directory.FetchFrom_level1 (g : Geometry) (fuel : Nat) (fs : FileSystem)
    (file : OpenFile) (k : Int) (h : file.hdr.numBytes ≤ g.fileLevel2)
    (hk : file.hdr.getSector 0 = Except.ok k) :
    Directory.FetchFrom g (fuel + 1) fs file = Except.ok (fs.dirData k) := by
  rw [Directory.FetchFrom, ByteToSectorFuel_level1 g fuel _ _ h, hk]

theorem Directory.WriteBack_level1 (g : Geometry) (fuel : Nat) (fs : FileSystem)
    (table : List DirectoryEntry) (file : OpenFile) (k : Int)
    (h : file.hdr.numBytes ≤ g.fileLevel2) (hk : file.hdr.getSector 0 = Except.ok k) :
    Directory.WriteBack g (fuel + 1) fs table file
      = Except.ok { fs with dirData := fun x => if x = k then table else fs.dirData x } := by
  rw [Directory.WriteBack, ByteToSectorFuel_level1 g fuel _ _ h, hk]

/-- A directory that could be read through a level-1 header has a first data
sector. -/
theorem Directory.FetchFrom_key (g : Geometry) (fuel : Nat) (fs : FileSystem)
    (file : OpenFile) (table : List DirectoryEntry) (h : file.hdr.numBytes ≤ g.fileLevel2)
    (hf : Directory.FetchFrom g (fuel + 1) fs file = Except.ok table) :
    ∃ k, file.hdr.getSector 0 = Except.ok k ∧ table = fs.dirData k := by
  rw [Directory.FetchFrom, ByteToSectorFuel_level1 g fuel _ _ h] at hf
  cases hk : file.hdr.getSector 0 with
  | error e => simp [hk] at hf
  | ok k =>
    simp only [hk, Except.ok.injEq] at hf
    exact ⟨k, rfl, hf.symm⟩

/-! ## The steps of `Create`, `CreateDirectory` and `Remove` -/

theorem FindAndSet_of_ne (m : List Bool) (h : (FindAndSet m).1 ≠ -1) :
    ∃ i : Nat, FindAndSet m = ((i : Int), m.set i true) ∧ m[i]? = some false := by
  unfold FindAndSet at h ⊢
  cases hf : firstClear m with
  | none => simp [hf] at h
  | some i => exact ⟨i, rfl, firstClear_some m i hf⟩

/-- What a `Create` that returned `TRUE` has done. -/
theorem Create_true_inv (c : DiskConfig) (fuel : Nat) (fs fs1 : FileSystem)
    (path : List String) (initialSize : Int)
    (h : Create c fuel fs path initialSize = Except.ok (true, fs1)) :
    ∃ root directory tmpFile name directory1 hdr st1 fsw,
      Directory.FetchFrom c.g fuel fs fs.directoryFile = Except.ok root
      ∧ createWalk c.g fuel fs root fs.directoryFile path.head? path
          = Except.ok (directory, tmpFile, some name)
      ∧ Directory.Find directory name = -1
      ∧ (FindAndSet fs.freeMap).1 ≠ -1
      ∧ Directory.Add directory name (FindAndSet fs.freeMap).1 true = some directory1
      ∧ Allocate c.g (FileHeader.new c.g)
          { freeMap := (FindAndSet fs.freeMap).2, disk := fs.disk,
            dataClaims := [], headerClaims := [] } initialSize = Except.ok (true, hdr, st1)
      ∧ Directory.WriteBack c.g fuel
          { fs with disk := WriteBack st1.disk (FindAndSet fs.freeMap).1 hdr }
          directory1 tmpFile = Except.ok fsw
      ∧ fs1 = { fsw with freeMap := st1.freeMap } := by
  unfold Create at h
  cases hroot : Directory.FetchFrom c.g fuel fs fs.directoryFile with
  | error e => simp [hroot] at h
  | ok root =>
    simp only [hroot] at h
    cases hw : createWalk c.g fuel fs root fs.directoryFile path.head? path with
    | error e => simp [hw] at h
    | ok r =>
      obtain ⟨directory, tmpFile, name⟩ := r
      cases name with
      | none => simp [hw] at h
      | some name =>
        simp only [hw] at h
        split_ifs at h with h1 h2
        · simp at h
        · simp at h
        · cases hadd : Directory.Add directory name (FindAndSet fs.freeMap).1 true with
          | none => simp [hadd] at h
          | some directory1 =>
            simp only [hadd] at h
            cases ha : Allocate c.g (FileHeader.new c.g)
                { freeMap := (FindAndSet fs.freeMap).2, disk := fs.disk,
                  dataClaims := [], headerClaims := [] } initialSize with
            | error e => simp [ha] at h
            | ok r =>
              obtain ⟨b, hdr, st1⟩ := r
              cases b with
              | false => simp [ha] at h
              | true =>
                simp only [ha] at h
                cases hwb : Directory.WriteBack c.g fuel
                    { fs with disk := WriteBack st1.disk (FindAndSet fs.freeMap).1 hdr }
                    directory1 tmpFile with
                | error e => simp [hwb] at h
                | ok fsw =>
                  simp only [hwb, Except.ok.injEq, Prod.mk.injEq, true_and] at h
                  exact ⟨root, directory, tmpFile, name, directory1, hdr, st1, fsw, rfl, hw,
                    by simpa using h1, h2, hadd, rfl, hwb, h.symm⟩

/-- The steps of a `CreateDirectory` that works. -/
theorem CreateDirectory_ok (c : DiskConfig) (fuel : Nat) (fs fsa fsb : FileSystem)
    (path : List String) (root directory directory1 : List DirectoryEntry)
    (tmpFile : OpenFile) (name : String) (hdr : FileHeader) (st1 : FsState)
    (hroot : Directory.FetchFrom c.g fuel fs fs.directoryFile = Except.ok root)
    (hw : createWalk c.g fuel fs root fs.directoryFile path.head? path
      = Except.ok (directory, tmpFile, some name))
    (hfind : Directory.Find directory name = -1)
    (hs : (FindAndSet fs.freeMap).1 ≠ -1)
    (hadd : Directory.Add directory name (FindAndSet fs.freeMap).1 false = some directory1)
    (ha : Allocate c.g (FileHeader.new c.g)
      { freeMap := (FindAndSet fs.freeMap).2, disk := fs.disk,
        dataClaims := [], headerClaims := [] } c.DirectoryFileSize
      = Except.ok (true, hdr, st1))
    (hwa : Directory.WriteBack c.g fuel
      { fs with disk := WriteBack st1.disk (FindAndSet fs.freeMap).1 hdr }
      (Directory.new NumDirEntries)
      (OpenFile.new (WriteBack st1.disk (FindAndSet fs.freeMap).1 hdr)
        (FindAndSet fs.freeMap).1) = Except.ok fsa)
    (hwb : Directory.WriteBack c.g fuel fsa directory1 tmpFile = Except.ok fsb) :
    CreateDirectory c fuel fs path
      = Except.ok (true, { fsb with freeMap := st1.freeMap }) := by
  unfold CreateDirectory
  simp only [hroot, hw, hfind, hs, hadd, ha, hwa, hwb, ne_eq, not_true_eq_false, if_false]

/-- The steps of a `Remove` that works. -/
theorem Remove_ok (c : DiskConfig) (fuel : Nat) (fs fsw : FileSystem) (path : List String)
    (root walked directory : List DirectoryEntry) (tmpFile : OpenFile) (name : String)
    (freeMap1 freeMap2 : List Bool)
    (hroot : Directory.FetchFrom c.g fuel fs fs.directoryFile = Except.ok root)
    (hw : openWalk c.g fuel fs root fs.directoryFile path.head? path
      = Except.ok (walked, tmpFile, some name))
    (hdir : Directory.FetchFrom c.g fuel fs tmpFile = Except.ok directory)
    (hfind : Directory.Find directory name ≠ -1)
    (hd : Deallocate c.g fuel fs.disk (FetchFrom fs.disk (Directory.Find directory name))
      fs.freeMap = Except.ok freeMap1)
    (hc : Clear freeMap1 (Directory.Find directory name) = Except.ok freeMap2)
    (hwb : Directory.WriteBack c.g fuel fs (Directory.Remove directory name).2 tmpFile
      = Except.ok fsw) :
    Remove c fuel fs path = Except.ok (true, { fsw with freeMap := freeMap2 }) := by
  unfold Remove
  simp only [hroot, hw, hdir, hfind, hd, hc, hwb, if_false]

/-! ## `CreateDirectory` -/

theorem createWalk_single (g : Geometry) (fuel : Nat) (fs : FileSystem)
    (directory : List DirectoryEntry) (tmpFile : OpenFile) (prev : Option String)
    (name : String) (rest : List String) (h : Directory.Find directory name = -1) :
    createWalk g fuel fs directory tmpFile prev (name :: rest)
      = Except.ok (directory, tmpFile, some name) := by
  rw [createWalk, if_pos h]

theorem createWalk_step (g : Geometry) (fuel : Nat) (fs : FileSystem)
    (directory directory1 : List DirectoryEntry) (tmpFile : OpenFile) (prev : Option String)
    (name : String) (rest : List String) (h : Directory.Find directory name ≠ -1)
    (hf : Directory.FetchFrom g fuel fs (OpenFile.new fs.disk (Directory.Find directory name))
      = Except.ok directory1) :
    createWalk g fuel fs directory tmpFile prev (name :: rest)
      = createWalk g fuel fs directory1 (OpenFile.new fs.disk (Directory.Find directory name))
          (some name) rest := by
  rw [createWalk, if_neg h, hf]

theorem not_IsFree_of_true (m : List Bool) (r : Nat) (h : m[r]? = some true) :
    ¬ IsFree m (r : Int) := by
  intro hc
  have := hc.2
  simp only [Int.toNat_ofNat] at this
  rw [h] at this
  cases this

/-- The state that a `CreateDirectory` of a new name in root leaves. -/
theorem CreateDirectory_exact (c : DiskConfig) (fuel : Nat) (fs : FileSystem)
    (dn : String) (rt : List DirectoryEntry) (kr : Int)
    (hss : 0 < c.g.SectorSize) (hdfs0 : 0 < c.DirectoryFileSize)
    (hdfs : c.DirectoryFileSize ≤ c.g.fileLevel2)
    (hrootlvl : fs.directoryFile.hdr.numBytes ≤ c.g.fileLevel2)
    (hkr : fs.directoryFile.hdr.getSector 0 = Except.ok kr) (hrt : rt = fs.dirData kr)
    (hno : Directory.hasName rt dn = false)
    (hslot : ∃ e ∈ rt, e.inUse = false)
    (hfree : 1 + divRoundUp c.DirectoryFileSize c.g.SectorSize ≤ NumClear fs.freeMap)
    (hused : ¬ IsFree fs.freeMap kr) :
    ∃ (r : Nat) (hdr : FileHeader) (k0 : Int) (rt1 : List DirectoryEntry) (m1 : List Bool),
      CreateDirectory c (fuel + 1) fs [dn] = Except.ok (true,
        { fs with
          freeMap := m1
          disk := WriteBack fs.disk (r : Int) hdr
          dirData := fun x => if x = kr then rt1 else
            if x = k0 then Directory.new NumDirEntries else fs.dirData x })
      ∧ Directory.fill { inUse := true, isFile := false, sector := (r : Int), name := dn } rt
          = some rt1
      ∧ hdr.numBytes = c.DirectoryFileSize ∧ hdr.getSector 0 = Except.ok k0
      ∧ k0 ≠ kr ∧ m1[r]? = some true := by
  have hroot : Directory.FetchFrom c.g (fuel + 1) fs fs.directoryFile = Except.ok rt := by
    rw [hrt]; exact Directory.FetchFrom_level1 c.g fuel fs _ kr hrootlvl hkr
  have hfind := (Directory.Find_of_hasName_false rt dn hno).1
  have hss' : (0 : Int) < (c.g.SectorSize : Int) := by exact_mod_cast hss
  have hceil := divRoundUp_pos c.DirectoryFileSize c.g.SectorSize hdfs0 hss'
  obtain ⟨r, hfs, hr, hcount⟩ := FindAndSet_some fs.freeMap (by omega)
  have hfs1 : (FindAndSet fs.freeMap).1 = (r : Int) := by rw [hfs]
  have hfs2 : (FindAndSet fs.freeMap).2 = fs.freeMap.set r true := by rw [hfs]
  obtain ⟨rt1, hfill⟩ := Directory.fill_some rt
    { inUse := true, isFile := false, sector := (r : Int), name := dn } hslot
  have hadd : Directory.Add rt dn (r : Int) false = some rt1 := by
    rw [Directory.Add, hno]; simpa using hfill
  obtain ⟨b, hdr, st1, ha, hb, -⟩ := AllocateFuel_total c.g hss 4 (FileHeader.new c.g)
    { freeMap := fs.freeMap.set r true, disk := fs.disk, dataClaims := [], headerClaims := [] }
    c.DirectoryFileSize ⟨by decide, Or.inr (by decide), Or.inr (by decide), Or.inr (by decide)⟩
    (le_of_lt hdfs0) (FileHeader.new_length c.g)
  have hbt : b = true := by
    cases b with
    | true => rfl
    | false =>
      have := hb.1 rfl
      simp only at this
      omega
  subst hbt
  obtain ⟨rs, hlen, -, hfr, hmap, hsec, hnb, -, hdisk⟩ :=
    AllocateFuel_direct_exact c.g 3 _ _ _ _ _ hdfs ha
  simp only at hfr hmap hdisk
  have hpos : 0 < rs.length := by rw [hlen]; omega
  have hsec0 := hsec 0 hpos
  simp only [List.getElem?_eq_getElem hpos, Option.map_some', Option.bind_eq_bind,
    Option.some_bind, Option.pure_def, Option.map_eq_map] at hsec0
  have hk0 : hdr.getSector 0 = Except.ok ((rs[0] : Nat) : Int) :=
    getSector_of_getElem hdr 0 _ (le_refl _) (by simpa using hsec0)
  have hfree0 : IsFree fs.freeMap ((rs[0] : Nat) : Int) :=
    ((IsFree_set _ _ _).1 (IsFree_of_getElem _ _ (hfr _ (List.getElem_mem hpos)))).1
  have hne : ((rs[0] : Nat) : Int) ≠ kr := fun hc => hused (hc ▸ hfree0)
  have hrlt : r < fs.freeMap.length := (List.getElem?_eq_some_iff.1 hr).1
  have hm1 : st1.freeMap[r]? = some true := by
    rw [hmap]
    apply setAll_getElem_true
    rw [List.getElem?_set]
    simp [hrlt]
  have hopen : OpenFile.new (WriteBack st1.disk (r : Int) hdr) (r : Int) = { hdr := hdr } := by
    simp [OpenFile.new, FetchFrom, WriteBack]
  have hwa := Directory.WriteBack_level1 c.g fuel
    { fs with disk := WriteBack st1.disk (r : Int) hdr } (Directory.new NumDirEntries)
    { hdr := hdr } _ (by rw [hnb]; exact hdfs) hk0
  have hwb := Directory.WriteBack_level1 c.g fuel
    { fs with
      disk := WriteBack st1.disk (r : Int) hdr
      dirData := fun x => if x = ((rs[0] : Nat) : Int) then Directory.new NumDirEntries
        else fs.dirData x }
    rt1 fs.directoryFile kr hrootlvl hkr
  have hcd := CreateDirectory_ok c (fuel + 1) fs _ _ [dn] rt rt rt1 fs.directoryFile dn hdr st1
    hroot (createWalk_single _ _ _ _ _ _ _ _ hfind) hfind (by rw [hfs1]; omega)
    (by rw [hfs1]; exact hadd) (by rw [hfs2]; exact ha) (by rw [hfs1, hopen]; exact hwa) hwb
  refine ⟨r, hdr, ((rs[0] : Nat) : Int), rt1, st1.freeMap, ?_, hfill, hnb, hk0, hne, hm1⟩
  rw [hcd, hdisk]

/-- The state that a successful `Create` of a new name in a directory of root
leaves. -/
theorem Create_in_directory (c : DiskConfig) (fuel : Nat) (fs fs2 : FileSystem)
    (dn xn : String) (n : Int) (rt dt : List DirectoryEntry) (kr kd : Int)
    (hrootlvl : fs.directoryFile.hdr.numBytes ≤ c.g.fileLevel2)
    (hkr : fs.directoryFile.hdr.getSector 0 = Except.ok kr) (hrt : rt = fs.dirData kr)
    (hd : Directory.Find rt dn ≠ -1)
    (hdlvl : (FetchFrom fs.disk (Directory.Find rt dn)).numBytes ≤ c.g.fileLevel2)
    (hkd : (FetchFrom fs.disk (Directory.Find rt dn)).getSector 0 = Except.ok kd)
    (hdt : dt = fs.dirData kd)
    (hx : Directory.hasName dt xn = false)
    (hused : ¬ IsFree fs.freeMap (Directory.Find rt dn))
    (hc : Create c (fuel + 1) fs [dn, xn] n = Except.ok (true, fs2)) :
    ∃ (r : Nat) (hdr : FileHeader) (st1 : FsState) (dt1 : List DirectoryEntry),
      fs.freeMap[r]? = some false
      ∧ AllocateFuel c.g 4 (FileHeader.new c.g)
          { freeMap := fs.freeMap.set r true, disk := fs.disk,
            dataClaims := [], headerClaims := [] } n = Except.ok (true, hdr, st1)
      ∧ Directory.fill { inUse := true, isFile := true, sector := (r : Int), name := xn } dt
          = some dt1
      ∧ fs2 = { fs with
          freeMap := st1.freeMap
          disk := WriteBack st1.disk (r : Int) hdr
          dirData := fun x => if x = kd then dt1 else fs.dirData x }
      ∧ (r : Int) ≠ Directory.Find rt dn
      ∧ ¬ IsFree (fs.freeMap.set r true) (Directory.Find rt dn) := by
  have hroot : Directory.FetchFrom c.g (fuel + 1) fs fs.directoryFile = Except.ok rt := by
    rw [hrt]; exact Directory.FetchFrom_level1 c.g fuel fs _ kr hrootlvl hkr
  have hfd : Directory.FetchFrom c.g (fuel + 1) fs
      (OpenFile.new fs.disk (Directory.Find rt dn)) = Except.ok dt := by
    rw [hdt]; exact Directory.FetchFrom_level1 c.g fuel fs _ kd hdlvl hkd
  have hfx := (Directory.Find_of_hasName_false dt xn hx).1
  obtain ⟨root, directory, tmpFile, name, directory1, hdr, st1, fsw, h1, h2, -, h4, h5, h6,
    h7, h8⟩ := Create_true_inv c (fuel + 1) fs fs2 [dn, xn] n hc
  rw [hroot, Except.ok.injEq] at h1
  subst h1
  rw [createWalk_step c.g (fuel + 1) fs rt dt _ _ dn [xn] hd hfd,
    createWalk_single c.g (fuel + 1) fs dt _ _ xn [] hfx] at h2
  simp only [Except.ok.injEq, Prod.mk.injEq, Option.some.injEq] at h2
  obtain ⟨rfl, rfl, rfl⟩ := h2
  obtain ⟨r, hfs, hr⟩ := FindAndSet_of_ne fs.freeMap h4
  have hfs1 : (FindAndSet fs.freeMap).1 = (r : Int) := by rw [hfs]
  have hfs2 : (FindAndSet fs.freeMap).2 = fs.freeMap.set r true := by rw [hfs]
  rw [hfs1] at h5 h7
  rw [hfs2] at h6
  rw [Directory.Add, hx] at h5
  simp only [Bool.false_eq_true, if_false] at h5
  have h7' := (Directory.WriteBack_level1 c.g fuel
    { fs with disk := WriteBack st1.disk (r : Int) hdr } directory1
    (OpenFile.new fs.disk (Directory.Find rt dn)) kd hdlvl hkd).symm.trans h7
  rw [Except.ok.injEq] at h7'
  subst h7'
  have hne : (r : Int) ≠ Directory.Find rt dn :=
    fun hc => hused (hc ▸ IsFree_of_getElem _ _ hr)
  exact ⟨r, hdr, st1, directory1, hr, h6, h5, h8, hne,
    fun hc => hused ((IsFree_set _ _ _).1 hc).1⟩

theorem openWalk_stop (g : Geometry) (fuel : Nat) (fs : FileSystem)
    (directory : List DirectoryEntry) (tmpFile : OpenFile) (prev : Option String)
    (name : String) (rest : List String)
    (h : Directory.Find directory name = -1 ∨ Directory.IsFile directory name = true) :
    openWalk g fuel fs directory tmpFile prev (name :: rest)
      = Except.ok (directory, tmpFile, some name) := by
  rw [openWalk, if_pos h]

theorem openWalk_step (g : Geometry) (fuel : Nat) (fs : FileSystem)
    (directory directory1 : List DirectoryEntry) (tmpFile : OpenFile) (prev : Option String)
    (name : String) (rest : List String) (h : Directory.Find directory name ≠ -1)
    (hdir : Directory.IsFile directory name = false)
    (hf : Directory.FetchFrom g fuel fs (OpenFile.new fs.disk (Directory.Find directory name))
      = Except.ok directory1) :
    openWalk g fuel fs directory tmpFile prev (name :: rest)
      = openWalk g fuel fs directory1 (OpenFile.new fs.disk (Directory.Find directory name))
          (some name) rest := by
  rw [openWalk, if_neg (by simp [h, hdir]), hf]

/-- Marking a clear bit and clearing it again gives back the map. -/
theorem Clear_set (m : List Bool) (r : Nat) (h : m[r]? = some false) :
    Clear (m.set r true) (r : Int) = Except.ok m := by
  have hlt : r < m.length := (List.getElem?_eq_some_iff.1 h).1
  rw [Clear_of_lt _ _ (by simpa using hlt), List.set_set, set_false_of_clear m r h]

/-- C20: when root has no entry `d` but a free slot, and the free map holds
one sector for the header and the sectors of a directory file,
`CreateDirectory ["d"]` returns `TRUE`; afterwards root has the entry `d` with
`isFile = false`, its sector holds a header of `DirectoryFileSize` bytes, and
the directory stored in that file has no entry in use.  A following
`Create ["d", "x"]` that returns `TRUE` leaves that directory with the one
entry `x`, a file, and leaves root as it was.  (Root and the new directory are
kept in the header's own table, `DirectoryFileSize <= fileLevel2`, and the
first data sector `kr` of root is marked in the free map.) -/
theorem CreateDirectory_then_Create (c : DiskConfig) (fuel : Nat) (fs : FileSystem)
    (dn : String) (rt : List DirectoryEntry)
    (hss : 0 < c.g.SectorSize) (hdfs0 : 0 < c.DirectoryFileSize)
    (hdfs : c.DirectoryFileSize ≤ c.g.fileLevel2)
    (hrootlvl : fs.directoryFile.hdr.numBytes ≤ c.g.fileLevel2)
    (hroot : Directory.FetchFrom c.g (fuel + 1) fs fs.directoryFile = Except.ok rt)
    (hno : Directory.hasName rt dn = false)
    (hslot : ∃ e ∈ rt, e.inUse = false)
    (hfree : 1 + divRoundUp c.DirectoryFileSize c.g.SectorSize ≤ NumClear fs.freeMap)
    (kr : Int) (hkr : fs.directoryFile.hdr.getSector 0 = Except.ok kr)
    (hused : ¬ IsFree fs.freeMap kr) :
    ∃ fs1 rt1, CreateDirectory c (fuel + 1) fs [dn] = Except.ok (true, fs1)
      ∧ Directory.FetchFrom c.g (fuel + 1) fs1 fs1.directoryFile = Except.ok rt1
      ∧ Directory.Find rt1 dn ≠ -1 ∧ Directory.IsFile rt1 dn = false
      ∧ (FetchFrom fs1.disk (Directory.Find rt1 dn)).FileLength = c.DirectoryFileSize
      ∧ (∃ dt, Directory.FetchFrom c.g (fuel + 1) fs1
            (OpenFile.new fs1.disk (Directory.Find rt1 dn)) = Except.ok dt
          ∧ ∀ e ∈ dt, e.inUse = false)
      ∧ ∀ (xn : String) (n : Int) (fs2 : FileSystem),
          Create c (fuel + 1) fs1 [dn, xn] n = Except.ok (true, fs2) →
          Directory.FetchFrom c.g (fuel + 1) fs2 fs2.directoryFile = Except.ok rt1
          ∧ ∃ dt2, Directory.FetchFrom c.g (fuel + 1) fs2
                (OpenFile.new fs2.disk (Directory.Find rt1 dn)) = Except.ok dt2
              ∧ Directory.hasName dt2 xn = true ∧ Directory.IsFile dt2 xn = true
              ∧ ∀ name, name ≠ xn → Directory.hasName dt2 name = false := by
  have hrt : rt = fs.dirData kr := by
    rw [Directory.FetchFrom_level1 c.g fuel fs _ kr hrootlvl hkr, Except.ok.injEq] at hroot
    exact hroot.symm
  obtain ⟨r, hdr, k0, rt1, m1, hcd, hfill, hnb, hk0, hne, hm1⟩ :=
    CreateDirectory_exact c fuel fs dn rt kr hss hdfs0 hdfs hrootlvl hkr hrt hno hslot hfree
      hused
  obtain ⟨a1, a2, -, -, -, -, -⟩ := Directory.fill_spec rt rt1 _ hfill rfl hno
  simp only at a1 a2
  obtain ⟨fs1, hfs1⟩ : ∃ fs1 : FileSystem, fs1 = { fs with
      freeMap := m1
      disk := WriteBack fs.disk (r : Int) hdr
      dirData := fun x => if x = kr then rt1 else
        if x = k0 then Directory.new NumDirEntries else fs.dirData x } := ⟨_, rfl⟩
  rw [← hfs1] at hcd
  have e1 : fs1.directoryFile = fs.directoryFile := by rw [hfs1]
  have e2 : fs1.dirData kr = rt1 := by rw [hfs1]; simp
  have e3 : fs1.dirData k0 = Directory.new NumDirEntries := by rw [hfs1]; simp [hne]
  have e4 : FetchFrom fs1.disk (Directory.Find rt1 dn) = hdr := by
    rw [hfs1, a1]; simp [FetchFrom, WriteBack]
  have e5 : fs1.freeMap = m1 := by rw [hfs1]
  have hlvl1 : fs1.directoryFile.hdr.numBytes ≤ c.g.fileLevel2 := by rw [e1]; exact hrootlvl
  have hkr1 : fs1.directoryFile.hdr.getSector 0 = Except.ok kr := by rw [e1]; exact hkr
  have hdlvl : (FetchFrom fs1.disk (Directory.Find rt1 dn)).numBytes ≤ c.g.fileLevel2 := by
    rw [e4, hnb]; exact hdfs
  have hkd : (FetchFrom fs1.disk (Directory.Find rt1 dn)).getSector 0 = Except.ok k0 := by
    rw [e4]; exact hk0
  have hdn : Directory.Find rt1 dn ≠ -1 := by rw [a1]; omega
  have hnf : ¬ IsFree fs1.freeMap (Directory.Find rt1 dn) := by
    rw [e5, a1]; exact not_IsFree_of_true _ _ hm1
  refine ⟨fs1, rt1, hcd, ?_, hdn, a2, ?_, ?_, ?_⟩
  · rw [← e2]; exact Directory.FetchFrom_level1 c.g fuel fs1 _ kr hlvl1 hkr1
  · rw [e4]; exact hnb
  · refine ⟨Directory.new NumDirEntries, ?_, Directory.new_unused _⟩
    rw [← e3]
    exact Directory.FetchFrom_level1 c.g fuel fs1 _ k0 hdlvl hkd
  · intro xn n fs2 hc
    obtain ⟨r2, hdr2, st2, dt1, hr2, hal, hfill2, hfs2, hne2, hnf2⟩ :=
      Create_in_directory c fuel fs1 fs2 dn xn n rt1 (Directory.new NumDirEntries) kr k0
        hlvl1 hkr1 e2.symm hdn hdlvl hkd e3.symm (Directory.new_hasName _ _) hnf hc
    obtain ⟨b1, b2, b3, -, b5, -, -⟩ := Directory.fill_spec _ dt1 _ hfill2 rfl
      (Directory.new_hasName _ _)
    simp only at b1 b2 b3 b5
    have hfr := (AllocateFuel_frame c.g 4 _ _ _ _ _ _ hal).2.1 (Directory.Find rt1 dn)
      (by rw [a1]; omega) hnf2
    simp only at hfr
    have f1 : fs2.directoryFile = fs1.directoryFile := by rw [hfs2]
    have f2 : fs2.dirData kr = rt1 := by rw [hfs2]; simp [Ne.symm hne, e2]
    have f3 : fs2.dirData k0 = dt1 := by rw [hfs2]; simp
    have f4 : FetchFrom fs2.disk (Directory.Find rt1 dn) = hdr := by
      rw [← e4, hfs2]
      simp only [FetchFrom, WriteBack]
      rw [if_neg (Ne.symm hne2)]
      exact hfr
    refine ⟨?_, dt1, ?_, b3, b2, fun name hname => ?_⟩
    · rw [← f2]
      exact Directory.FetchFrom_level1 c.g fuel fs2 _ kr (by rw [f1]; exact hlvl1)
        (by rw [f1]; exact hkr1)
    · rw [← f3]
      exact Directory.FetchFrom_level1 c.g fuel fs2 _ k0
        (by show (FetchFrom fs2.disk _).numBytes ≤ _; rw [f4, hnb]; exact hdfs)
        (by show (FetchFrom fs2.disk _).getSector 0 = _; rw [f4]; exact hk0)
    · rw [(b5 name hname).2.2]
      exact Directory.new_hasName _ _

/-- C18: a directory `d` of root that has no entry `x`, and `n` bytes that fit
the header's own table: after a `Create ["d", "x"] n` that returned `TRUE`,
`Remove ["d", "x"]` returns `TRUE`, the free map is the one before the
`Create`, root is as it was, and `d` holds the entries it held before, none
of them named `x`.  (Root and `d` are kept in the header's own table, in the
different sectors `kr` and `kd`, and the header sector of `d` is marked in the
free map.) -/
theorem Remove_after_Create (c : DiskConfig) (fuel : Nat) (fs fs1 : FileSystem)
    (dn xn : String) (n : Int) (rt dt : List DirectoryEntry)
    (hrootlvl : fs.directoryFile.hdr.numBytes ≤ c.g.fileLevel2)
    (hroot : Directory.FetchFrom c.g (fuel + 1) fs fs.directoryFile = Except.ok rt)
    (hd : Directory.Find rt dn ≠ -1) (hdir : Directory.IsFile rt dn = false)
    (hdlvl : (FetchFrom fs.disk (Directory.Find rt dn)).numBytes ≤ c.g.fileLevel2)
    (hdt : Directory.FetchFrom c.g (fuel + 1) fs
      (OpenFile.new fs.disk (Directory.Find rt dn)) = Except.ok dt)
    (hx : Directory.hasName dt xn = false)
    (kr kd : Int) (hkr : fs.directoryFile.hdr.getSector 0 = Except.ok kr)
    (hkd : (FetchFrom fs.disk (Directory.Find rt dn)).getSector 0 = Except.ok kd)
    (hne : kr ≠ kd)
    (hused : ¬ IsFree fs.freeMap (Directory.Find rt dn))
    (hn : n ≤ c.g.fileLevel2)
    (hc : Create c (fuel + 1) fs [dn, xn] n = Except.ok (true, fs1)) :
    ∃ fs2, Remove c (fuel + 1) fs1 [dn, xn] = Except.ok (true, fs2)
      ∧ fs2.freeMap = fs.freeMap
      ∧ Directory.FetchFrom c.g (fuel + 1) fs2 fs2.directoryFile = Except.ok rt
      ∧ ∃ dt2, Directory.FetchFrom c.g (fuel + 1) fs2
            (OpenFile.new fs2.disk (Directory.Find rt dn)) = Except.ok dt2
          ∧ Directory.hasName dt2 xn = false
          ∧ dt2.filter (fun e => e.inUse) = dt.filter (fun e => e.inUse) := by
  have hrt : rt = fs.dirData kr := by
    rw [Directory.FetchFrom_level1 c.g fuel fs _ kr hrootlvl hkr, Except.ok.injEq] at hroot
    exact hroot.symm
  have hdtk : dt = fs.dirData kd := by
    have h := (Directory.FetchFrom_level1 c.g fuel fs
      (OpenFile.new fs.disk (Directory.Find rt dn)) kd hdlvl hkd).symm.trans hdt
    rw [Except.ok.injEq] at h
    exact h.symm
  have hkd' : (FetchFrom fs.disk (Directory.Find rt dn)).getSector 0 = Except.ok kd := hkd
  obtain ⟨r, hdr, st1, dt1, hr, hal, hfill, hfs1, hner, -⟩ :=
    Create_in_directory c fuel fs fs1 dn xn n rt dt kr kd hrootlvl hkr hrt hd hdlvl hkd' hdtk
      hx hused hc
  obtain ⟨-, -, -, -, -, -, -, -, hdisk⟩ := AllocateFuel_direct_exact c.g 3 _ _ _ _ _ hn hal
  simp only at hdisk
  have hdeal := Deallocate_Allocate_direct c.g 3 fuel _ _ _ _ _ hn hal
    (WriteBack fs.disk (r : Int) hdr)
  simp only at hdeal
  obtain ⟨b1, b2, -, -, -, -, b7⟩ := Directory.fill_spec dt dt1 _ hfill rfl hx
  simp only at b1 b2 b7
  rw [hdisk] at hfs1
  have e1 : fs1.directoryFile = fs.directoryFile := by rw [hfs1]
  have e2 : fs1.dirData kr = rt := by rw [hfs1]; simp [hne, hrt]
  have e3 : fs1.dirData kd = dt1 := by rw [hfs1]; simp
  have e4 : fs1.disk = WriteBack fs.disk (r : Int) hdr := by rw [hfs1]
  have e5 : fs1.freeMap = st1.freeMap := by rw [hfs1]
  have e6 : FetchFrom fs1.disk (Directory.Find rt dn) = FetchFrom fs.disk (Directory.Find rt dn) := by
    rw [e4]
    simp only [FetchFrom, WriteBack]
    rw [if_neg (Ne.symm hner)]
  have e7 : FetchFrom fs1.disk (r : Int) = hdr := by
    rw [e4]; simp [FetchFrom, WriteBack]
  have hlvl1 : fs1.directoryFile.hdr.numBytes ≤ c.g.fileLevel2 := by rw [e1]; exact hrootlvl
  have hkr1 : fs1.directoryFile.hdr.getSector 0 = Except.ok kr := by rw [e1]; exact hkr
  have hdlvl1 : (OpenFile.new fs1.disk (Directory.Find rt dn)).hdr.numBytes ≤ c.g.fileLevel2 := by
    show (FetchFrom fs1.disk _).numBytes ≤ _
    rw [e6]; exact hdlvl
  have hkd1 : (OpenFile.new fs1.disk (Directory.Find rt dn)).hdr.getSector 0 = Except.ok kd := by
    show (FetchFrom fs1.disk _).getSector 0 = _
    rw [e6]; exact hkd'
  have hroot1 : Directory.FetchFrom c.g (fuel + 1) fs1 fs1.directoryFile = Except.ok rt := by
    rw [← e2]; exact Directory.FetchFrom_level1 c.g fuel fs1 _ kr hlvl1 hkr1
  have hfd1 : Directory.FetchFrom c.g (fuel + 1) fs1
      (OpenFile.new fs1.disk (Directory.Find rt dn)) = Except.ok dt1 := by
    rw [← e3]; exact Directory.FetchFrom_level1 c.g fuel fs1 _ kd hdlvl1 hkd1
  have hw : openWalk c.g (fuel + 1) fs1 rt fs1.directoryFile [dn, xn].head? [dn, xn]
      = Except.ok (dt1, OpenFile.new fs1.disk (Directory.Find rt dn), some xn) := by
    rw [openWalk_step c.g (fuel + 1) fs1 rt dt1 _ _ dn [xn] hd hdir hfd1,
      openWalk_stop c.g (fuel + 1) fs1 dt1 _ _ xn [] (Or.inr b2)]
  have hrem := Remove_ok c (fuel + 1) fs1 _ [dn, xn] rt dt1 dt1
    (OpenFile.new fs1.disk (Directory.Find rt dn)) xn (fs.freeMap.set r true) fs.freeMap
    hroot1 hw hfd1 (by rw [b1]; omega)
    (by rw [b1, e7, e4, e5]; exact hdeal)
    (by rw [b1]; exact Clear_set _ _ hr)
    (Directory.WriteBack_level1 c.g fuel fs1 _ _ kd hdlvl1 hkd1)
  refine ⟨_, hrem, rfl, ?_, (Directory.Remove dt1 xn).2, ?_, ?_, b7⟩
  · refine (Directory.FetchFrom_level1 c.g fuel _ _ kr hlvl1 hkr1).trans ?_
    simp [hne, e2]
  · refine (Directory.FetchFrom_level1 c.g fuel _ _ kd hdlvl1 hkd1).trans ?_
    simp
  · rw [← (Directory.hasName_filter _ xn).1, b7, (Directory.hasName_filter _ xn).1]
    exact hx

/-! ## The claims on `Deallocate`, `Create`, `Open` and `Remove` -/

set_option maxRecDepth 1000000

/-- C11: a file of 3841 bytes (one byte more than `fileLevel2`) allocated on
a free map of 40 clear bits takes 33 sectors, 31 for data and 2 for the child
headers; `Deallocate` on the header clears the 31 data sectors only, and the
bits 0 and 31 of the two child headers stay set: the free map is not the one
before `Allocate`. -/
theorem Deallocate_keeps_child_headers :
    ∃ hdr st1 m,
      Allocate Geometry.nachos (FileHeader.new Geometry.nachos)
        { freeMap := List.replicate 40 false, disk := fun _ => FileHeader.blank Geometry.nachos,
          dataClaims := [], headerClaims := [] } 3841 = Except.ok (true, hdr, st1)
      ∧ NumClear st1.freeMap = 7
      ∧ Deallocate Geometry.nachos 4 st1.disk hdr st1.freeMap = Except.ok m
      ∧ m ≠ List.replicate 40 false
      ∧ m = ((List.replicate 40 false).set 0 true).set 31 true := by
  refine ⟨_, _, _, rfl, by decide, rfl, by decide, by decide⟩

/-- C12: for a size that fits the header's own table (`size <= fileLevel2`),
after an `Allocate` that returned `TRUE` the `Deallocate` on the header it
built passes every assertion and gives back the free map from before the
`Allocate`. -/
theorem Deallocate_after_Allocate (g : Geometry) (fuel : Nat) (this hdr : FileHeader)
    (st st1 : FsState) (size : Int) (hsize : size ≤ g.fileLevel2)
    (h : Allocate g this st size = Except.ok (true, hdr, st1)) :
    Deallocate g (fuel + 1) st1.disk hdr st1.freeMap = Except.ok st.freeMap :=
  Deallocate_Allocate_direct g 3 fuel this hdr st st1 size hsize h st1.disk

theorem Deallocate_after_Allocate_witness :
    ∃ hdr st1,
      Allocate Geometry.nachos (FileHeader.new Geometry.nachos)
        { freeMap := true :: true :: List.replicate 38 false,
          disk := fun _ => FileHeader.blank Geometry.nachos,
          dataClaims := [], headerClaims := [] } 300 = Except.ok (true, hdr, st1)
      ∧ NumClear st1.freeMap = 35
      ∧ Deallocate Geometry.nachos 4 st1.disk hdr st1.freeMap
          = Except.ok (true :: true :: List.replicate 38 false) := by
  refine ⟨_, _, rfl, by decide, ?_⟩
  exact Deallocate_after_Allocate Geometry.nachos 3 (FileHeader.new Geometry.nachos) _
    { freeMap := true :: true :: List.replicate 38 false,
      disk := fun _ => FileHeader.blank Geometry.nachos,
      dataClaims := [], headerClaims := [] } _ 300 (by decide) rfl

/-- C13: on a freshly formatted disk `Create ["a"] 128` and then
`Create ["a"] 256` both return `TRUE`, and the following `Open ["a"]` gives a
handle on a header whose `FileLength` is 128, not the 256 of the last
successful `Create`. -/
theorem Open_after_second_Create :
    ∃ fs0 fs1 fs2 h fs3, FileSystem.format DiskConfig.nachos 4 = Except.ok fs0
      ∧ Create DiskConfig.nachos 4 fs0 ["a"] 128 = Except.ok (true, fs1)
      ∧ Create DiskConfig.nachos 4 fs1 ["a"] 256 = Except.ok (true, fs2)
      ∧ Open DiskConfig.nachos 4 fs2 ["a"] = Except.ok (some h, fs3)
      ∧ h.hdr.FileLength = 128 ∧ h.hdr.FileLength ≠ 256 := by
  refine ⟨_, _, _, _, _, rfl, rfl, rfl, rfl, by decide, by decide⟩

/-- C14: on a freshly formatted disk on which `Create ["a"] 128` has put the
file `a` into root, `Create ["a"] 256` returns `TRUE` (the walk opens `a` as a
directory and looks the name up in there) and takes three more sectors of the
free map. -/
theorem Create_existing_returns_true :
    ∃ fs0 fs1 fs2 root, FileSystem.format DiskConfig.nachos 4 = Except.ok fs0
      ∧ Create DiskConfig.nachos 4 fs0 ["a"] 128 = Except.ok (true, fs1)
      ∧ Directory.FetchFrom Geometry.nachos 4 fs1 fs1.directoryFile = Except.ok root
      ∧ Directory.hasName root "a" = true
      ∧ Create DiskConfig.nachos 4 fs1 ["a"] 256 = Except.ok (true, fs2)
      ∧ NumClear fs1.freeMap = 1009 ∧ NumClear fs2.freeMap = 1006 := by
  refine ⟨_, _, _, _, rfl, rfl, rfl, by decide, rfl, by decide, by decide⟩

/-- C15: a `Create` that returns `FALSE` leaves the free map, every stored
directory and every sector of the disk as they were. -/
theorem Create_false_nothing_written (c : DiskConfig) (fuel : Nat) (fs fs1 : FileSystem)
    (path : List String) (initialSize : Int)
    (h : Create c fuel fs path initialSize = Except.ok (false, fs1)) :
    fs1.freeMap = fs.freeMap ∧ fs1.dirData = fs.dirData ∧ fs1.disk = fs.disk := by
  rw [Create_false_unchanged c fuel fs fs1 path initialSize h]
  exact ⟨rfl, rfl, rfl⟩

theorem Create_false_nothing_written_witness :
    ∃ fs0 fs1, FileSystem.format DiskConfig.nachos 4 = Except.ok fs0
      ∧ Create DiskConfig.nachos 4 fs0 ["big"] 200000 = Except.ok (false, fs1)
      ∧ fs1.freeMap = fs0.freeMap ∧ fs1.dirData = fs0.dirData ∧ fs1.disk = fs0.disk := by
  refine ⟨_, _, rfl, rfl, ?_⟩
  exact Create_false_nothing_written DiskConfig.nachos 4 _ _ ["big"] 200000 rfl

/-- C16: on a freshly formatted disk with the file `a`, after `Open ["a"]`
(not closed) the call `Open ["zzz"]` of a name that is not found returns the
handle of `a`, not a null handle. -/
theorem Open_missing_returns_stale :
    ∃ fs0 fs1 h fs2 fs3 root, FileSystem.format DiskConfig.nachos 4 = Except.ok fs0
      ∧ Create DiskConfig.nachos 4 fs0 ["a"] 128 = Except.ok (true, fs1)
      ∧ Open DiskConfig.nachos 4 fs1 ["a"] = Except.ok (some h, fs2)
      ∧ Directory.FetchFrom Geometry.nachos 4 fs2 fs2.directoryFile = Except.ok root
      ∧ Directory.Find root "zzz" = -1
      ∧ Open DiskConfig.nachos 4 fs2 ["zzz"] = Except.ok (some h, fs3) := by
  refine ⟨_, _, _, _, _, _, rfl, rfl, rfl, rfl, by decide, rfl⟩

/-- C17: when the walk of `Remove` reaches a component that is not found in
the directory reached at that point, `Remove` returns `FALSE` and the file
system (free map, directories, disk) is as before. -/
theorem Remove_missing_component (c : DiskConfig) (fuel : Nat) (fs : FileSystem)
    (path : List String) (root : List DirectoryEntry)
    (hroot : Directory.FetchFrom c.g fuel fs fs.directoryFile = Except.ok root)
    (hmiss : openWalkMisses c.g fuel fs root path = true) :
    Remove c fuel fs path = Except.ok (false, fs) := by
  obtain ⟨directory1, tmpFile1, name, hw, hf, hfind⟩ :=
    openWalk_misses c.g fuel fs path root fs.directoryFile path.head? hroot hmiss
  unfold Remove
  simp only [hroot, hw, hf, hfind, if_true]

theorem Remove_missing_component_witness :
    ∃ fs0 fs1, FileSystem.format DiskConfig.nachos 4 = Except.ok fs0
      ∧ CreateDirectory DiskConfig.nachos 4 fs0 ["d"] = Except.ok (true, fs1)
      ∧ Remove DiskConfig.nachos 4 fs1 ["d", "y"] = Except.ok (false, fs1) := by
  refine ⟨_, _, rfl, rfl, ?_⟩
  exact Remove_missing_component DiskConfig.nachos 4 _ ["d", "y"] _ rfl rfl

/-- C19: on a freshly formatted disk, after `CreateDirectory ["d"]` returned
`TRUE` the call `Remove ["d"]` returns `FALSE` (the walk enters `d` and the
name is looked up in `d` itself): root still has the entry `d` and no sector
was freed. -/
theorem Remove_directory_fails :
    ∃ fs0 fs1 fs2 root, FileSystem.format DiskConfig.nachos 4 = Except.ok fs0
      ∧ CreateDirectory DiskConfig.nachos 4 fs0 ["d"] = Except.ok (true, fs1)
      ∧ Remove DiskConfig.nachos 4 fs1 ["d"] = Except.ok (false, fs2)
      ∧ Directory.FetchFrom Geometry.nachos 4 fs2 fs2.directoryFile = Except.ok root
      ∧ Directory.hasName root "d" = true
      ∧ fs2.freeMap = fs1.freeMap ∧ NumClear fs2.freeMap = 1000 := by
  refine ⟨_, _, _, _, rfl, rfl, rfl, rfl, by decide, rfl, by decide⟩

theorem Remove_after_Create_witness :
    ∃ fs0 fs fs1, FileSystem.format DiskConfig.nachos 4 = Except.ok fs0
      ∧ CreateDirectory DiskConfig.nachos 4 fs0 ["d"] = Except.ok (true, fs)
      ∧ Create DiskConfig.nachos 4 fs ["d", "x"] 50 = Except.ok (true, fs1)
      ∧ NumClear fs.freeMap = 1000 ∧ NumClear fs1.freeMap = 998
      ∧ ∃ fs2, Remove DiskConfig.nachos 4 fs1 ["d", "x"] = Except.ok (true, fs2)
        ∧ fs2.freeMap = fs.freeMap
        ∧ Directory.FetchFrom Geometry.nachos 4 fs2 fs2.directoryFile
            = Directory.FetchFrom Geometry.nachos 4 fs fs.directoryFile
        ∧ ∃ dt2, Directory.FetchFrom Geometry.nachos 4 fs2
              (OpenFile.new fs2.disk 13) = Except.ok dt2
            ∧ Directory.hasName dt2 "x" = false
            ∧ dt2.filter (fun e => e.inUse) = [] := by
  refine ⟨_, _, _, rfl, rfl, rfl, by decide, by decide, ?_⟩
  exact Remove_after_Create DiskConfig.nachos 3 _ _ "d" "x" 50 _ (Directory.new NumDirEntries)
    (by decide) rfl (by decide) (by decide) (by decide) rfl (by decide) 3 14 rfl rfl
    (by decide) (fun h => absurd h.2 (by decide)) (by decide) rfl

theorem CreateDirectory_then_Create_witness :
    ∃ fs0 fsd, FileSystem.format DiskConfig.nachos 4 = Except.ok fs0
      ∧ CreateDirectory DiskConfig.nachos 4 fs0 ["d"] = Except.ok (true, fsd)
      ∧ (∃ fs2, Create DiskConfig.nachos 4 fsd ["d", "x"] 50 = Except.ok (true, fs2))
      ∧ ∃ fs1 rt1, CreateDirectory DiskConfig.nachos 4 fs0 ["d"] = Except.ok (true, fs1)
        ∧ Directory.FetchFrom Geometry.nachos 4 fs1 fs1.directoryFile = Except.ok rt1
        ∧ Directory.Find rt1 "d" ≠ -1 ∧ Directory.IsFile rt1 "d" = false
        ∧ (FetchFrom fs1.disk (Directory.Find rt1 "d")).FileLength = 1280
        ∧ (∃ dt, Directory.FetchFrom Geometry.nachos 4 fs1
              (OpenFile.new fs1.disk (Directory.Find rt1 "d")) = Except.ok dt
            ∧ ∀ e ∈ dt, e.inUse = false)
        ∧ ∀ (xn : String) (n : Int) (fs2 : FileSystem),
            Create DiskConfig.nachos 4 fs1 ["d", xn] n = Except.ok (true, fs2) →
            Directory.FetchFrom Geometry.nachos 4 fs2 fs2.directoryFile = Except.ok rt1
            ∧ ∃ dt2, Directory.FetchFrom Geometry.nachos 4 fs2
                  (OpenFile.new fs2.disk (Directory.Find rt1 "d")) = Except.ok dt2
                ∧ Directory.hasName dt2 xn = true ∧ Directory.IsFile dt2 xn = true
                ∧ ∀ name, name ≠ xn → Directory.hasName dt2 name = false := by
  refine ⟨_, _, rfl, rfl, ⟨_, rfl⟩, ?_⟩
  exact CreateDirectory_then_Create DiskConfig.nachos 3 _ "d" (Directory.new NumDirEntries)
    (by decide) (by decide) (by decide) (by decide) rfl (by decide)
    ⟨{ inUse := false, isFile := false, sector := 0, name := "" }, by decide, rfl⟩
    (by decide) 3 rfl (fun h => absurd h.2 (by decide))

/-! ## The preemption flag and the order of the queues -/

/-- The preemption flag after a run of `readyAll`. -/
theorem readyAll_flag (ts : List Thread) : ∀ (k k1 : Kernel), k.level = IntStatus.IntOff →
    readyAll k ts = some k1 →
    k1.preemtive = (k.preemtive || ts.any (fun t => decide (100 ≤ t.priority ∧
        (k.currentThread.priority < 100
          ∨ k.currentThread.approximate_burst_time > t.approximate_burst_time)))) := by
  induction ts with
  | nil =>
    intro k k1 _ h
    simp only [readyAll, Option.some.injEq] at h
    subst h
    simp
  | cons t ts ih =>
    intro k k1 hoff h
    obtain ⟨k2, hk2, hoff2, -, hcur, -, -, -, -, hflag⟩ := ReadyToRun_eq k t hoff
    simp only [readyAll, hk2] at h
    rw [ih k2 k1 hoff2 h, hflag, hcur]
    simp [List.any_cons, Bool.or_assoc]

/-- The preemption flag after `aging`: it is raised by the re-insertion of a
thread that goes to L1 under the condition of `ReadyToRun`, and never
cleared. -/
theorem aging_flag (k k1 : Kernel) (h : aging k = some k1) :
    k1.preemtive = (k.preemtive || (k.queued.map (agingUpdate k.totalTicks)).any
      (fun t => decide (100 ≤ t.priority ∧
        (k.currentThread.priority < 100
          ∨ k.currentThread.approximate_burst_time > t.approximate_burst_time)))) := by
  unfold aging at h
  simp only [agingLoop_eq_readyAll] at h
  split at h
  · cases h
  · next k2 hr =>
    simp only [Option.some.injEq] at h
    subst h
    have := readyAll_flag _ _ k2 rfl hr
    simpa [Kernel.queued] using this

theorem agingUpdate_priority_ge (now : Int) (t : Thread) (h : 100 ≤ t.priority) :
    100 ≤ (agingUpdate now t).priority := by
  by_cases hw : t.total_ready_time + (now - t.enter_ready_time) > 1500
  · rw [(agingUpdate_promoted now t hw).1]
    split_ifs <;> omega
  · rw [(agingUpdate_kept now t hw).1]
    exact h

/-- In every reachable state L1 is sorted by burst time and L2 by priority. -/
theorem Reachable_sorted (k : Kernel) (h : Reachable k) :
    k.L1.Pairwise (fun a b => a.approximate_burst_time ≤ b.approximate_burst_time)
    ∧ k.L2.Pairwise (fun a b => -a.priority ≤ -b.priority) := by
  induction h with
  | init level totalTicks currentThread => simp [Kernel.init]
  | ready k k1 t _ _ hk1 ih =>
    have hoff : k.level = IntStatus.IntOff := by
      by_contra hc
      simp [ReadyToRun, hc] at hk1
    obtain ⟨k2, hk2, -, -, -, -, hL1, hL2, -, -⟩ := ReadyToRun_eq k t hoff
    rw [hk1] at hk2
    cases hk2
    constructor
    · rw [hL1]; split_ifs
      · exact SortedListInsert_pairwise _ _ SJFSort_lt _ _ ih.1
      · exact ih.1
    · rw [hL2]; split_ifs
      · exact SortedListInsert_pairwise _ _ PrioritySort_lt _ _ ih.2
      · exact ih.2
  | find k k1 r _ hk1 ih =>
    have hoff : k.level = IntStatus.IntOff := by
      by_contra hc
      simp [FindNextToRun, hc] at hk1
    obtain ⟨r2, k2, hk2, -, hL1, hL2, -, -⟩ := FindNextToRun_front k hoff
    rw [hk1] at hk2
    cases hk2
    constructor
    · rw [hL1]; exact ih.1.tail
    · rw [hL2]; split_ifs
      · exact ih.2.tail
      · exact ih.2
  | age k k1 _ hk1 _ =>
    obtain ⟨k2, hk2, -, -, -, -, -, -, -, hS1, hS2⟩ := aging_eq k
    rw [hk1] at hk2
    cases hk2
    exact ⟨hS1, hS2⟩
  | machine k level totalTicks currentThread _ ih => exact ih

/-- In every reachable state a raised preemption flag comes with a thread in
L1. -/
theorem Reachable_flag (k : Kernel) (h : Reachable k) : k.preemtive = true → k.L1 ≠ [] := by
  induction h with
  | init level totalTicks currentThread => intro hf; simp [Kernel.init] at hf
  | ready k k1 t _ _ hk1 ih =>
    intro hf
    have hoff : k.level = IntStatus.IntOff := by
      by_contra hc
      simp [ReadyToRun, hc] at hk1
    obtain ⟨k2, hk2, -, -, -, -, hL1, -, -, hflag⟩ := ReadyToRun_eq k t hoff
    rw [hk1] at hk2
    cases hk2
    rw [hL1]
    have hins : SortedListInsert SJFSort (markReady k.totalTicks t) k.L1 ≠ [] := by
      intro hc
      have := SortedListInsert_length SJFSort (markReady k.totalTicks t) k.L1
      rw [hc] at this
      simp at this
    split_ifs with hp
    · exact hins
    · rw [hflag] at hf
      simp only [Bool.or_eq_true, decide_eq_true_eq] at hf
      rcases hf with hf | hf
      · exact ih hf
      · exact absurd hf.1 hp
  | find k k1 r hreach hk1 ih =>
    intro hf
    exfalso
    have hoff : k.level = IntStatus.IntOff := by
      by_contra hc
      simp [FindNextToRun, hc] at hk1
    unfold FindNextToRun at hk1
    simp only [hoff, ne_eq, not_true_eq_false, if_false] at hk1
    cases h1 : k.L1 with
    | cons t rest =>
      simp only [h1, Option.some.injEq, Prod.mk.injEq] at hk1
      obtain ⟨-, rfl⟩ := hk1
      simp at hf
    | nil =>
      have hsame : k1.preemtive = k.preemtive := by
        cases h2 : k.L2 with
        | cons t rest =>
          simp only [h1, h2, Option.some.injEq, Prod.mk.injEq] at hk1
          obtain ⟨-, rfl⟩ := hk1
          rfl
        | nil =>
          cases h3 : k.L3 with
          | cons t rest =>
            simp only [h1, h2, h3, Option.some.injEq, Prod.mk.injEq] at hk1
            obtain ⟨-, rfl⟩ := hk1
            rfl
          | nil =>
            simp only [h1, h2, h3, Option.some.injEq, Prod.mk.injEq] at hk1
            obtain ⟨-, rfl⟩ := hk1
            rfl
      rw [hsame] at hf
      exact ih hf h1
  | age k k1 hreach hk1 ih =>
    intro hf
    obtain ⟨k2, hk2, -, -, -, -, -, hP1, -, -, -⟩ := aging_eq k
    rw [hk1] at hk2
    cases hk2
    have hmem : ∀ t ∈ k.queued, 100 ≤ (agingUpdate k.totalTicks t).priority → k1.L1 ≠ [] := by
      intro t ht hp hnil
      have : markReady k.totalTicks (agingUpdate k.totalTicks t) ∈ k1.L1 := by
        rw [hP1.mem_iff, List.mem_filter]
        refine ⟨List.mem_map.2 ⟨t, ht, rfl⟩, ?_⟩
        simpa [markReady_priority] using hp
      rw [hnil] at this
      simp at this
    rw [aging_flag k k1 hk1] at hf
    simp only [Bool.or_eq_true, List.any_eq_true, List.mem_map, decide_eq_true_eq] at hf
    rcases hf with hf | ⟨u, ⟨t, ht, rfl⟩, hp, -⟩
    · have hne := ih hf
      obtain ⟨t, ht⟩ := List.exists_mem_of_ne_nil _ hne
      have hb := (Reachable_bands k hreach).1 t ht
      exact hmem t (by unfold Kernel.queued; simp [ht])
        (agingUpdate_priority_ge _ _ hb)
    · exact hmem t ht hp
  | machine k level totalTicks currentThread _ ih => exact ih

/-! ## Claims about the flag and the order of the queues -/

/-- C21: with interrupts off, `FindNextToRun` returns; when L1 is not empty
it returns the front of L1 and the preemption flag is clear afterwards; when
L1 is empty (the thread comes from L2 or L3, or the result is `NULL`) the flag
is what it was. -/
theorem FindNextToRun_flag (k : Kernel) (hoff : k.level = IntStatus.IntOff) :
    ∃ r k1, FindNextToRun k = some (r, k1)
      ∧ (k.L1 ≠ [] → r = k.L1.head? ∧ k1.preemtive = false)
      ∧ (k.L1 = [] → k1.preemtive = k.preemtive) := by
  unfold FindNextToRun
  simp only [hoff, ne_eq, not_true_eq_false, if_false]
  cases h1 : k.L1 with
  | cons t rest => exact ⟨_, _, rfl, by simp, by simp⟩
  | nil =>
    cases h2 : k.L2 with
    | cons t rest => exact ⟨_, _, rfl, by simp, by simp⟩
    | nil =>
      cases h3 : k.L3 with
      | cons t rest => exact ⟨_, _, rfl, by simp, by simp⟩
      | nil => exact ⟨_, _, rfl, by simp, by simp⟩

/-- The flag is set in both states: a thread taken from L1 clears it, a thread
taken from L2 leaves it set. -/
theorem FindNextToRun_flag_witness :
    (∃ r k1, FindNextToRun
        { S1_kernel with L1 := [⟨3, 120, 30, 0, 0, 0, ThreadStatus.READY⟩],
                         L2 := [⟨2, 80, 0, 0, 0, 0, ThreadStatus.READY⟩],
                         preemtive := true } = some (r, k1)
      ∧ r = some ⟨3, 120, 30, 0, 0, 0, ThreadStatus.READY⟩ ∧ k1.preemtive = false)
    ∧ (∃ r k1, FindNextToRun
        { S1_kernel with L2 := [⟨2, 80, 0, 0, 0, 0, ThreadStatus.READY⟩],
                         preemtive := true } = some (r, k1)
      ∧ r = some ⟨2, 80, 0, 0, 0, 0, ThreadStatus.READY⟩ ∧ k1.preemtive = true) := by
  constructor
  · obtain ⟨r, k1, h, h1, -⟩ := FindNextToRun_flag
      { S1_kernel with L1 := [⟨3, 120, 30, 0, 0, 0, ThreadStatus.READY⟩],
                       L2 := [⟨2, 80, 0, 0, 0, 0, ThreadStatus.READY⟩],
                       preemtive := true } rfl
    exact ⟨r, k1, h, (h1 (by simp)).1, (h1 (by simp)).2⟩
  · obtain ⟨r, k1, h, -, h2⟩ := FindNextToRun_flag
      { S1_kernel with L2 := [⟨2, 80, 0, 0, 0, 0, ThreadStatus.READY⟩],
                       preemtive := true } rfl
    refine ⟨r, k1, h, ?_, h2 rfl⟩
    have h' : FindNextToRun
        { S1_kernel with L2 := [⟨2, 80, 0, 0, 0, 0, ThreadStatus.READY⟩],
                         preemtive := true }
        = some (some ⟨2, 80, 0, 0, 0, 0, ThreadStatus.READY⟩,
            { S1_kernel with preemtive := true }) := by decide
    rw [h] at h'
    simp only [Option.some.injEq, Prod.mk.injEq] at h'
    exact h'.1

/-- C22: `aging` returns for every content of the queues, and the threads
queued afterwards are the threads queued before: the IDs in `L1 ++ L2 ++ L3`
after the call are a permutation of the IDs before it (none lost, none
doubled), and every queued thread has status READY. -/
theorem aging_keeps_threads (k : Kernel) :
    ∃ k1, aging k = some k1
      ∧ List.Perm (k1.queued.map Thread.ID) (k.queued.map Thread.ID)
      ∧ k1.queued.length = k.queued.length
      ∧ ∀ t ∈ k1.queued, t.status = ThreadStatus.READY := by
  obtain ⟨k1, hk1, -, -, -, hperm, -, -, -⟩ := aging_queued_perm k
  have hid : (Thread.ID ∘ fun t => markReady k.totalTicks (agingUpdate k.totalTicks t))
      = Thread.ID := by
    funext t
    simp [Function.comp, markReady_ID, agingUpdate_ID]
  refine ⟨k1, hk1, ?_, ?_, ?_⟩
  · have := hperm.map Thread.ID
    rwa [List.map_map, hid] at this
  · rw [hperm.length_eq, List.length_map]
  · intro t ht
    obtain ⟨u, -, rfl⟩ := List.mem_map.1 (hperm.mem_iff.1 ht)
    rfl

/-- C23: in every reachable scheduler state L1 is sorted by non-decreasing
`approximate_burst_time` and L2 by non-increasing `priority`; and the queues
that an `aging` call leaves are sorted in the same way. -/
theorem queue_order_invariant (k : Kernel) (h : Reachable k) :
    k.L1.Pairwise (fun a b => a.approximate_burst_time ≤ b.approximate_burst_time)
    ∧ k.L2.Pairwise (fun a b => b.priority ≤ a.priority)
    ∧ ∀ k1, aging k = some k1 →
        k1.L1.Pairwise (fun a b => a.approximate_burst_time ≤ b.approximate_burst_time)
        ∧ k1.L2.Pairwise (fun a b => b.priority ≤ a.priority) := by
  obtain ⟨h1, h2⟩ := Reachable_sorted k h
  refine ⟨h1, h2.imp (fun h => by omega), fun k1 hk1 => ?_⟩
  obtain ⟨k2, hk2, -, -, -, -, -, -, -, hS1, hS2⟩ := aging_eq k
  rw [hk1] at hk2
  cases hk2
  exact ⟨hS1, hS2.imp (fun h => by omega)⟩

/-- T1 (priority 45) and T2 (priority 55) are made ready at tick 0 and `aging`
runs at tick 1600: both are promoted, T1 crosses into L2 and is queued behind
T2. -/
theorem queue_order_invariant_witness :
    Reachable { S1_kernel with L2 := [⟨2, 65, 0, 1600, 100, 0, ThreadStatus.READY⟩,
                                      ⟨1, 55, 0, 1600, 100, 0, ThreadStatus.READY⟩],
                               totalTicks := 1600 }
    ∧ ({ S1_kernel with L2 := [⟨2, 65, 0, 1600, 100, 0, ThreadStatus.READY⟩,
                               ⟨1, 55, 0, 1600, 100, 0, ThreadStatus.READY⟩],
                        totalTicks := 1600 } : Kernel).L2.Pairwise
        (fun a b => b.priority ≤ a.priority) := by
  have hr : Reachable { S1_kernel with L2 := [⟨2, 65, 0, 1600, 100, 0, ThreadStatus.READY⟩,
                                              ⟨1, 55, 0, 1600, 100, 0, ThreadStatus.READY⟩],
                                       totalTicks := 1600 } := by
    have r0 : Reachable S1_kernel := Reachable.init _ _ _
    have r1 := Reachable.ready S1_kernel
      { S1_kernel with L3 := [⟨1, 45, 0, 0, 0, 0, ThreadStatus.READY⟩] }
      ⟨1, 45, 0, 0, 0, 0, ThreadStatus.JUST_CREATED⟩ r0 (by decide) (by decide)
    have r2 := Reachable.ready _
      { S1_kernel with L3 := [⟨1, 45, 0, 0, 0, 0, ThreadStatus.READY⟩],
                       L2 := [⟨2, 55, 0, 0, 0, 0, ThreadStatus.READY⟩] }
      ⟨2, 55, 0, 0, 0, 0, ThreadStatus.JUST_CREATED⟩ r1 (by decide) (by decide)
    have r3 := Reachable.machine _ IntStatus.IntOff 1600 S1_kernel.currentThread r2
    exact Reachable.age _ _ r3 (by decide)
  exact ⟨hr, (queue_order_invariant _ hr).2.1⟩

/-- C30: in every reachable scheduler state in which the preemption flag is
set, L1 is not empty; with interrupts off `FindNextToRun` then returns the
front of L1 and the flag is clear afterwards. -/
theorem preemtive_needs_L1 (k : Kernel) (h : Reachable k) (hflag : k.preemtive = true) :
    k.L1 ≠ []
    ∧ (k.level = IntStatus.IntOff →
        ∃ t k1, FindNextToRun k = some (some t, k1) ∧ k.L1.head? = some t
          ∧ k1.preemtive = false) := by
  have hne := Reachable_flag k h hflag
  refine ⟨hne, fun hoff => ?_⟩
  unfold FindNextToRun
  simp only [hoff, ne_eq, not_true_eq_false, if_false]
  cases h1 : k.L1 with
  | nil => exact absurd h1 hne
  | cons t rest => exact ⟨t, _, rfl, rfl, rfl⟩

/-- T3 (priority 120) is made ready while a thread of priority 0 runs: the
flag is set and T3 is in L1. -/
theorem preemtive_needs_L1_witness :
    Reachable { S1_kernel with L1 := [⟨3, 120, 30, 0, 0, 0, ThreadStatus.READY⟩],
                               preemtive := true }
    ∧ ({ S1_kernel with L1 := [⟨3, 120, 30, 0, 0, 0, ThreadStatus.READY⟩],
                        preemtive := true } : Kernel).L1 ≠ []
    ∧ ∃ t k1, FindNextToRun
          { S1_kernel with L1 := [⟨3, 120, 30, 0, 0, 0, ThreadStatus.READY⟩],
                           preemtive := true } = some (some t, k1)
        ∧ k1.preemtive = false := by
  have hr : Reachable { S1_kernel with L1 := [⟨3, 120, 30, 0, 0, 0, ThreadStatus.READY⟩],
                                       preemtive := true } :=
    Reachable.ready S1_kernel _ ⟨3, 120, 30, 0, 0, 0, ThreadStatus.JUST_CREATED⟩
      (Reachable.init _ _ _) (by decide) (by decide)
  obtain ⟨h1, h2⟩ := preemtive_needs_L1 _ hr rfl
  obtain ⟨t, k1, h3, -, h4⟩ := h2 rfl
  exact ⟨hr, h1, t, k1, h3, h4⟩

/-! ## The number of children and the loop bound of `Deallocate` -/

/-- The child loop runs once for every stride that the size covers. -/
theorem childrenNeeded_count (cap : Int) (hcap : 0 < cap) : ∀ (n : Nat) (size : Int),
    0 ≤ size → size ≤ (n : Int) * cap →
    (childrenNeeded (fun _ => 0) cap n size : Int) = divRoundUp size cap := by
  intro n
  induction n with
  | zero =>
    intro size h0 h1
    have : size = 0 := by simp at h1; omega
    subst this
    simp [childrenNeeded, divRoundUp]
  | succ n ih =>
    intro size h0 h1
    by_cases hpos : 0 < size
    swap
    · have : size = 0 := by omega
      subst this
      simp [childrenNeeded, divRoundUp]
    · rw [childrenNeeded_pos _ _ _ _ hpos]
      by_cases hle : size ≤ cap
      · rw [childrenNeeded_nonpos _ _ _ _ (by omega)]
        rw [divRoundUp_unique size cap 1 h0 hcap (by omega) (by omega)]
        simp
      · have hfit : size - cap ≤ (n : Int) * cap := by
          push_cast at h1
          rw [add_mul, one_mul] at h1
          omega
        have := ih (size - cap) (by omega) hfit
        have hsplit : divRoundUp size cap = divRoundUp (size - cap) cap + 1 := by
          have := divRoundUp_add_mul (size - cap) 1 cap (by omega) (by omega) hcap
          rw [one_mul, sub_add_cancel] at this
          exact this
        rw [hsplit]
        push_cast
        omega

/-- Rounding up twice is rounding up once. -/
theorem divRoundUp_divRoundUp (n a b : Int) (hn : 0 ≤ n) (ha : 0 < a) (hb : 0 < b) :
    divRoundUp (divRoundUp n a) b = divRoundUp n (b * a) := by
  have hba : 0 < b * a := Int.mul_pos hb ha
  obtain ⟨c1, c2⟩ := divRoundUp_spec n a hn ha
  obtain ⟨d1, d2⟩ := divRoundUp_spec n (b * a) hn hba
  have e0 := divRoundUp_nonneg n a hn ha
  apply divRoundUp_unique _ _ _ e0 hb
  · apply divRoundUp_le n a _ hn ha
    rw [mul_assoc]; exact d1
  · by_contra hc
    have h1 : divRoundUp n a + b ≤ divRoundUp n (b * a) * b := by omega
    have h2 : (divRoundUp n a + b) * a ≤ divRoundUp n (b * a) * b * a :=
      Int.mul_le_mul_of_nonneg_right h1 (le_of_lt ha)
    rw [add_mul, mul_assoc] at h2
    omega

theorem setSector_fields (hdr hdr1 : FileHeader) (i : Nat) (s : Int)
    (h : hdr.setSector i s = Except.ok hdr1) :
    hdr1.numBytes = hdr.numBytes ∧ hdr1.numSectors = hdr.numSectors
      ∧ hdr1.dataSectors.length = hdr.dataSectors.length := by
  unfold FileHeader.setSector at h
  split_ifs at h
  cases h
  simp

theorem allocDirect_fields : ∀ (n i : Nat) (hdr : FileHeader) (st : FsState)
    (hdr1 : FileHeader) (st1 : FsState),
    allocDirect n i hdr st = Except.ok (hdr1, st1) →
    hdr1.numSectors = hdr.numSectors ∧ hdr1.dataSectors.length = hdr.dataSectors.length := by
  intro n
  induction n with
  | zero =>
    intro i hdr st hdr1 st1 h
    simp only [allocDirect, Except.ok.injEq, Prod.mk.injEq] at h
    obtain ⟨rfl, rfl⟩ := h
    exact ⟨rfl, rfl⟩
  | succ n ih =>
    intro i hdr st hdr1 st1 h
    rw [allocDirect] at h
    cases hs : hdr.setSector i (FindAndSet st.freeMap).1 with
    | error e => simp [hs] at h
    | ok hdr2 =>
      simp only [hs] at h
      split_ifs at h with hge
      obtain ⟨h1, h2⟩ := ih _ _ _ _ _ h
      obtain ⟨-, s2, s3⟩ := setSector_fields _ _ _ _ hs
      exact ⟨by rw [h1, s2], by rw [h2, s3]⟩

theorem allocIndirect_fields
    (child : FsState → Int → Except Fault (Bool × FileHeader × FsState)) (cap : Int) :
    ∀ (n i : Nat) (size : Int) (hdr : FileHeader) (st : FsState)
      (hdr1 : FileHeader) (st1 : FsState),
      allocIndirect child cap n i size hdr st = Except.ok (hdr1, st1) →
      hdr1.numSectors = hdr.numSectors
        ∧ hdr1.dataSectors.length = hdr.dataSectors.length := by
  intro n
  induction n with
  | zero =>
    intro i size hdr st hdr1 st1 h
    simp only [allocIndirect, Except.ok.injEq, Prod.mk.injEq] at h
    obtain ⟨rfl, rfl⟩ := h
    exact ⟨rfl, rfl⟩
  | succ n ih =>
    intro i size hdr st hdr1 st1 h
    rw [allocIndirect] at h
    by_cases hpos : size > 0
    swap
    · simp only [hpos, if_false, Except.ok.injEq, Prod.mk.injEq] at h
      obtain ⟨rfl, rfl⟩ := h
      exact ⟨rfl, rfl⟩
    · simp only [hpos, if_true] at h
      cases hs : hdr.setSector i (FindAndSet st.freeMap).1 with
      | error e => simp [hs] at h
      | ok hdr2 =>
        simp only [hs] at h
        cases hc : child { st with freeMap := (FindAndSet st.freeMap).2,
                                   headerClaims := st.headerClaims ++ [(FindAndSet st.freeMap).1] }
            (if size > cap then cap else size) with
        | error e => simp [hc] at h
        | ok r =>
          obtain ⟨b, nextHDR, st2⟩ := r
          simp only [hc] at h
          obtain ⟨h1, h2⟩ := ih _ _ _ _ _ _ h
          obtain ⟨-, s2, s3⟩ := setSector_fields _ _ _ _ hs
          exact ⟨by rw [h1, s2], by rw [h2, s3]⟩

/-- Whatever `AllocateFuel` returns, the header has the size asked for, the
number of sectors of that size, and a table as long as before. -/
theorem AllocateFuel_fields (g : Geometry) (f : Nat) (this : FileHeader) (st : FsState)
    (size : Int) (b : Bool) (hdr : FileHeader) (st1 : FsState)
    (h : AllocateFuel g f this st size = Except.ok (b, hdr, st1)) :
    hdr.numBytes = size ∧ hdr.numSectors = divRoundUp size g.SectorSize
      ∧ hdr.dataSectors.length = this.dataSectors.length := by
  obtain ⟨-, -, hnb, -⟩ := AllocateFuel_frame g f this st size b hdr st1 h
  refine ⟨hnb, ?_⟩
  cases f with
  | zero => simp [AllocateFuel] at h
  | succ f =>
    rw [AllocateFuel] at h
    simp only at h
    split_ifs at h with hcheck h4 h3 h2
    · simp only [Except.ok.injEq, Prod.mk.injEq] at h
      obtain ⟨-, rfl, -⟩ := h
      exact ⟨rfl, rfl⟩
    · cases hr : allocIndirect (fun s z => AllocateFuel g f (FileHeader.new g) s z)
          g.fileLevel4 g.NumDirect 0 size
          { this with numBytes := size, numSectors := divRoundUp size g.SectorSize } st with
      | error e => simp [hr] at h
      | ok r =>
        obtain ⟨h1, s1⟩ := r
        simp only [hr, Except.ok.injEq, Prod.mk.injEq] at h
        obtain ⟨-, rfl, -⟩ := h
        exact allocIndirect_fields _ _ _ _ _ _ _ _ _ hr
    · cases hr : allocIndirect (fun s z => AllocateFuel g f (FileHeader.new g) s z)
          g.fileLevel3 g.NumDirect 0 size
          { this with numBytes := size, numSectors := divRoundUp size g.SectorSize } st with
      | error e => simp [hr] at h
      | ok r =>
        obtain ⟨h1, s1⟩ := r
        simp only [hr, Except.ok.injEq, Prod.mk.injEq] at h
        obtain ⟨-, rfl, -⟩ := h
        exact allocIndirect_fields _ _ _ _ _ _ _ _ _ hr
    · cases hr : allocIndirect (fun s z => AllocateFuel g f (FileHeader.new g) s z)
          g.fileLevel2 g.NumDirect 0 size
          { this with numBytes := size, numSectors := divRoundUp size g.SectorSize } st with
      | error e => simp [hr] at h
      | ok r =>
        obtain ⟨h1, s1⟩ := r
        simp only [hr, Except.ok.injEq, Prod.mk.injEq] at h
        obtain ⟨-, rfl, -⟩ := h
        exact allocIndirect_fields _ _ _ _ _ _ _ _ _ hr
    · cases hr : allocDirect (divRoundUp size g.SectorSize).toNat 0
          { this with numBytes := size, numSectors := divRoundUp size g.SectorSize } st with
      | error e => simp [hr] at h
      | ok r =>
        obtain ⟨h1, s1⟩ := r
        simp only [hr, Except.ok.injEq, Prod.mk.injEq] at h
        obtain ⟨-, rfl, -⟩ := h
        exact allocDirect_fields _ _ _ _ _ _ hr

/-- A positive size that fits four levels: the geometry is not degenerate. -/
theorem Geometry.pos_of_fit (g : Geometry) (size : Int) (hpos : 0 < size)
    (hfit : size ≤ (g.NumDirect : Int) * g.fileLevel4) :
    0 < g.SectorSize ∧ 0 < g.NumDirect := by
  unfold Geometry.fileLevel4 at hfit
  constructor
  · rcases Nat.eq_zero_or_pos g.SectorSize with hz | hz
    · rw [hz] at hfit
      simp at hfit
      omega
    · exact hz
  · rcases Nat.eq_zero_or_pos g.NumDirect with hz | hz
    · rw [hz] at hfit
      simp at hfit
      omega
    · exact hz

theorem childrenNeeded_le (cap : Int) : ∀ (n : Nat) (size : Int),
    childrenNeeded (fun _ => 0) cap n size ≤ n := by
  intro n
  induction n with
  | zero => intro size; simp [childrenNeeded]
  | succ n ih =>
    intro size
    by_cases hpos : 0 < size
    · rw [childrenNeeded_pos _ _ _ _ hpos]
      have := ih (size - cap)
      omega
    · rw [childrenNeeded_nonpos _ _ _ _ hpos]
      omega

theorem Claims_refl (st : FsState) : Claims st st [] [] :=
  { data := by simp
    headers := by simp
    mono := fun _ h => h
    freshData := fun _ h => by simp at h
    freshHeaders := fun _ h => by simp at h
    nodup := List.nodup_nil
    disjoint := fun _ h => by simp at h }

theorem Claims_trans {st st1 st2 : FsState} {a b c d : List Int}
    (h1 : Claims st st1 a b) (h2 : Claims st1 st2 c d) :
    Claims st st2 (a ++ c) (b ++ d) :=
  { data := by rw [h2.data, h1.data, List.append_assoc]
    headers := by rw [h2.headers, h1.headers, List.append_assoc]
    mono := fun x hx => h1.mono x (h2.mono x hx)
    freshData := fun x hx => by
      rcases List.mem_append.1 hx with hx | hx
      · exact ⟨(h1.freshData x hx).1, fun hc => (h1.freshData x hx).2 (h2.mono x hc)⟩
      · exact ⟨h1.mono x (h2.freshData x hx).1, (h2.freshData x hx).2⟩
    freshHeaders := fun x hx => by
      rcases List.mem_append.1 hx with hx | hx
      · rcases h1.freshHeaders x hx with hm | hf
        · exact Or.inl hm
        · exact Or.inr ⟨hf.1, fun hc => hf.2 (h2.mono x hc)⟩
      · rcases h2.freshHeaders x hx with hm | hf
        · exact Or.inl hm
        · exact Or.inr ⟨h1.mono x hf.1, hf.2⟩
    nodup := by
      rw [List.nodup_append]
      refine ⟨h1.nodup, h2.nodup, fun x hx hy => ?_⟩
      exact (h1.freshData x hx).2 (h2.freshData x hy).1
    disjoint := fun x hx hy => by
      rcases List.mem_append.1 hx with hx | hx
      · rcases List.mem_append.1 hy with hy | hy
        · exact h1.disjoint x hx hy
        · rcases h2.freshHeaders x hy with hm | hf
          · have := (h1.freshData x hx).1.1
            omega
          · exact (h1.freshData x hx).2 hf.1
      · rcases List.mem_append.1 hy with hy | hy
        · rcases h1.freshHeaders x hy with hm | hf
          · have := (h2.freshData x hx).1.1
            omega
          · exact hf.2 (h2.freshData x hx).1
        · exact h2.disjoint x hx hy }

/-- One served request for a data sector. -/
theorem Claims_claimData (st : FsState) (h : (FindAndSet st.freeMap).1 ≥ 0) :
    Claims st { st with freeMap := (FindAndSet st.freeMap).2,
                        dataClaims := st.dataClaims ++ [(FindAndSet st.freeMap).1] }
      [(FindAndSet st.freeMap).1] [] := by
  have hr : IsFree st.freeMap (FindAndSet st.freeMap).1
      ∧ ¬ IsFree (FindAndSet st.freeMap).2 (FindAndSet st.freeMap).1 := by
    rcases FindAndSet_result st.freeMap with h1 | h1
    · omega
    · exact h1
  exact
    { data := rfl
      headers := by simp
      mono := fun x hx => FindAndSet_mono _ _ hx
      freshData := fun x hx => by
        rw [List.mem_singleton] at hx
        subst hx
        exact hr
      freshHeaders := fun _ hx => by simp at hx
      nodup := List.nodup_singleton _
      disjoint := fun _ _ hy => by simp at hy }

/-- One request for the sector of a child header. -/
theorem Claims_claimHeader (st : FsState) :
    Claims st { st with freeMap := (FindAndSet st.freeMap).2,
                        headerClaims := st.headerClaims ++ [(FindAndSet st.freeMap).1] }
      [] [(FindAndSet st.freeMap).1] :=
  { data := by simp
    headers := rfl
    mono := fun x hx => FindAndSet_mono _ _ hx
    freshData := fun _ hx => by simp at hx
    freshHeaders := fun x hx => by
      rw [List.mem_singleton] at hx
      subst hx
      exact FindAndSet_result st.freeMap
    nodup := List.nodup_nil
    disjoint := fun _ hx => by simp at hx }

theorem Claims_writeBack {st st1 : FsState} {nd nh : List Int} (h : Claims st st1 nd nh)
    (r : Int) (hd : FileHeader) :
    Claims st { st1 with disk := WriteBack st1.disk r hd } nd nh :=
  { data := h.data
    headers := h.headers
    mono := h.mono
    freshData := h.freshData
    freshHeaders := h.freshHeaders
    nodup := h.nodup
    disjoint := h.disjoint }

theorem allocDirect_claims : ∀ (n i : Nat) (hdr : FileHeader) (st : FsState)
    (hdr1 : FileHeader) (st1 : FsState),
    allocDirect n i hdr st = Except.ok (hdr1, st1) → ∃ nd, Claims st st1 nd [] := by
  intro n
  induction n with
  | zero =>
    intro i hdr st hdr1 st1 h
    simp only [allocDirect, Except.ok.injEq, Prod.mk.injEq] at h
    obtain ⟨-, rfl⟩ := h
    exact ⟨[], Claims_refl _⟩
  | succ n ih =>
    intro i hdr st hdr1 st1 h
    rw [allocDirect] at h
    cases hs : hdr.setSector i (FindAndSet st.freeMap).1 with
    | error e => simp [hs] at h
    | ok hdr2 =>
      simp only [hs] at h
      split_ifs at h with hge
      obtain ⟨nd, hnd⟩ := ih _ _ _ _ _ h
      exact ⟨_, Claims_trans (Claims_claimData st hge) hnd⟩

theorem allocIndirect_claims
    (child : FsState → Int → Except Fault (Bool × FileHeader × FsState)) (cap : Int)
    (hchild : ∀ st c b h st1, child st c = Except.ok (b, h, st1) →
      ∃ nd nh, Claims st st1 nd nh) :
    ∀ (n i : Nat) (size : Int) (hdr : FileHeader) (st : FsState)
      (hdr1 : FileHeader) (st1 : FsState),
      allocIndirect child cap n i size hdr st = Except.ok (hdr1, st1) →
      ∃ nd nh, Claims st st1 nd nh := by
  intro n
  induction n with
  | zero =>
    intro i size hdr st hdr1 st1 h
    simp only [allocIndirect, Except.ok.injEq, Prod.mk.injEq] at h
    obtain ⟨-, rfl⟩ := h
    exact ⟨[], [], Claims_refl _⟩
  | succ n ih =>
    intro i size hdr st hdr1 st1 h
    rw [allocIndirect] at h
    by_cases hpos : size > 0
    swap
    · simp only [hpos, if_false, Except.ok.injEq, Prod.mk.injEq] at h
      obtain ⟨-, rfl⟩ := h
      exact ⟨[], [], Claims_refl _⟩
    · simp only [hpos, if_true] at h
      cases hs : hdr.setSector i (FindAndSet st.freeMap).1 with
      | error e => simp [hs] at h
      | ok hdr2 =>
        simp only [hs] at h
        cases hc : child { st with freeMap := (FindAndSet st.freeMap).2,
                                   headerClaims := st.headerClaims ++ [(FindAndSet st.freeMap).1] }
            (if size > cap then cap else size) with
        | error e => simp [hc] at h
        | ok r =>
          obtain ⟨b, nextHDR, st2⟩ := r
          simp only [hc] at h
          obtain ⟨nd1, nh1, c1⟩ := hchild _ _ _ _ _ hc
          obtain ⟨nd2, nh2, c2⟩ := ih _ _ _ _ _ _ h
          exact ⟨_, _, Claims_trans (Claims_trans (Claims_claimHeader st)
            (Claims_writeBack c1 (FindAndSet st.freeMap).1 nextHDR)) c2⟩

/-- Whatever `AllocateFuel` returns, the data sectors it claimed are distinct
sectors that were free and are set now, and none of them was given to a child
header. -/
theorem AllocateFuel_claims (g : Geometry) : ∀ (f : Nat) (this : FileHeader) (st : FsState)
    (size : Int) (b : Bool) (hdr : FileHeader) (st1 : FsState),
    AllocateFuel g f this st size = Except.ok (b, hdr, st1) →
    ∃ nd nh, Claims st st1 nd nh := by
  intro f
  induction f with
  | zero => intro this st size b hdr st1 h; simp [AllocateFuel] at h
  | succ f ih =>
    intro this st size b hdr st1 h
    have hchild : ∀ st c b h st1,
        (fun s z => AllocateFuel g f (FileHeader.new g) s z) st c = Except.ok (b, h, st1) →
        ∃ nd nh, Claims st st1 nd nh := fun st c b h st1 hr => ih _ _ _ _ _ _ hr
    rw [AllocateFuel] at h
    simp only at h
    split_ifs at h with hcheck h4 h3 h2
    · simp only [Except.ok.injEq, Prod.mk.injEq] at h
      obtain ⟨-, -, rfl⟩ := h
      exact ⟨[], [], Claims_refl _⟩
    · cases hr : allocIndirect (fun s z => AllocateFuel g f (FileHeader.new g) s z)
          g.fileLevel4 g.NumDirect 0 size
          { this with numBytes := size, numSectors := divRoundUp size g.SectorSize } st with
      | error e => simp [hr] at h
      | ok r =>
        obtain ⟨h1, s1⟩ := r
        simp only [hr, Except.ok.injEq, Prod.mk.injEq] at h
        obtain ⟨-, -, rfl⟩ := h
        exact allocIndirect_claims _ _ hchild _ _ _ _ _ _ _ hr
    · cases hr : allocIndirect (fun s z => AllocateFuel g f (FileHeader.new g) s z)
          g.fileLevel3 g.NumDirect 0 size
          { this with numBytes := size, numSectors := divRoundUp size g.SectorSize } st with
      | error e => simp [hr] at h
      | ok r =>
        obtain ⟨h1, s1⟩ := r
        simp only [hr, Except.ok.injEq, Prod.mk.injEq] at h
        obtain ⟨-, -, rfl⟩ := h
        exact allocIndirect_claims _ _ hchild _ _ _ _ _ _ _ hr
    · cases hr : allocIndirect (fun s z => AllocateFuel g f (FileHeader.new g) s z)
          g.fileLevel2 g.NumDirect 0 size
          { this with numBytes := size, numSectors := divRoundUp size g.SectorSize } st with
      | error e => simp [hr] at h
      | ok r =>
        obtain ⟨h1, s1⟩ := r
        simp only [hr, Except.ok.injEq, Prod.mk.injEq] at h
        obtain ⟨-, -, rfl⟩ := h
        exact allocIndirect_claims _ _ hchild _ _ _ _ _ _ _ hr
    · cases hr : allocDirect (divRoundUp size g.SectorSize).toNat 0
          { this with numBytes := size, numSectors := divRoundUp size g.SectorSize } st with
      | error e => simp [hr] at h
      | ok r =>
        obtain ⟨h1, s1⟩ := r
        simp only [hr, Except.ok.injEq, Prod.mk.injEq] at h
        obtain ⟨-, -, rfl⟩ := h
        obtain ⟨nd, hnd⟩ := allocDirect_claims _ _ _ _ _ _ hr
        exact ⟨nd, [], hnd⟩

/-! ## Claim about the blocks of a file -/

/-- C25: a header built by `Allocate` for `0 < size <= NumDirect * fileLevel4`
on a free map that holds the `sectorsNeeded` sectors (data and child headers):
`ByteToSector` returns a sector for every offset below `size`; that sector was
clear in the free map before `Allocate`, is set after it, and is not one of
the sectors `nh` requested for child headers; and two offsets in different
`SectorSize`-blocks get different sectors. -/
theorem ByteToSector_blocks_distinct (g : Geometry) (this : FileHeader) (st : FsState)
    (size : Int) (hss : 0 < g.SectorSize) (hlen : this.dataSectors.length = g.NumDirect)
    (hpos : 0 < size) (hfit : size ≤ (g.NumDirect : Int) * g.fileLevel4)
    (hfree : (sectorsNeeded g size : Int) ≤ NumClear st.freeMap) :
    ∃ hdr st1 nh, Allocate g this st size = Except.ok (true, hdr, st1)
      ∧ st1.headerClaims = st.headerClaims ++ nh
      ∧ (∀ o : Int, 0 ≤ o → o < size →
          ∃ s, ByteToSector g st1.disk hdr o = Except.ok s
            ∧ IsFree st.freeMap s ∧ ¬ IsFree st1.freeMap s ∧ s ∉ nh)
      ∧ (∀ (o o2 s s2 : Int), 0 ≤ o → o < size → 0 ≤ o2 → o2 < size →
          o / (g.SectorSize : Int) ≠ o2 / (g.SectorSize : Int) →
          ByteToSector g st1.disk hdr o = Except.ok s →
          ByteToSector g st1.disk hdr o2 = Except.ok s2 → s ≠ s2) := by
  obtain ⟨hdr, st1, new, hrun, hext, hnl, hread⟩ := AllocateFuel_spec g hss 4 size
    ⟨by decide, Or.inr (by decide), Or.inr (by decide), Or.inr (by decide)⟩
    (le_of_lt hpos) hfit this st hlen hfree
  obtain ⟨nd, nh, hc⟩ := AllocateFuel_claims g 4 this st size true hdr st1 hrun
  have hnew : nd = new := by
    have := hc.data
    rw [hext.claims] at this
    exact (List.append_cancel_left this).symm
  subst hnew
  have hb : (0 : Int) < g.SectorSize := by exact_mod_cast hss
  have hr : ∀ o : Int, 0 ≤ o → o < size →
      ∃ s, nd[(o / (g.SectorSize : Int)).toNat]? = some s
        ∧ ByteToSector g st1.disk hdr o = Except.ok s :=
    fun o h0 h1 => hread st1.disk (fun _ _ _ => rfl) o h0 h1
  refine ⟨hdr, st1, nh, hrun, hc.headers, ?_, ?_⟩
  · intro o h0 h1
    obtain ⟨s, hs1, hs2⟩ := hr o h0 h1
    have hmem : s ∈ nd := by
      obtain ⟨hi, hgi⟩ := List.getElem?_eq_some_iff.1 hs1
      rw [← hgi]
      exact List.getElem_mem hi
    exact ⟨s, hs2, (hc.freshData s hmem).1, (hc.freshData s hmem).2, hc.disjoint s hmem⟩
  · intro o o2 s s2 h0 h1 h2 h3 hne e1 e2 hs
    obtain ⟨t, ht1, ht2⟩ := hr o h0 h1
    obtain ⟨t2, hu1, hu2⟩ := hr o2 h2 h3
    rw [e1, Except.ok.injEq] at ht2
    rw [e2, Except.ok.injEq] at hu2
    subst ht2 hu2 hs
    obtain ⟨hi, hgi⟩ := List.getElem?_eq_some_iff.1 ht1
    obtain ⟨hj, hgj⟩ := List.getElem?_eq_some_iff.1 hu1
    have := (List.Nodup.getElem_inj_iff hc.nodup).1 (hgi.trans hgj.symm)
    have q0 := Int.ediv_nonneg h0 (le_of_lt hb)
    have q2 := Int.ediv_nonneg h2 (le_of_lt hb)
    omega

/-- The file of 9 bytes with `SectorSize = 2`, `NumDirect = 2`: the five
blocks are in the sectors 2, 3, 5, 6, 8 and the headers of the children are in
the sectors 0, 1, 4, 7. -/
theorem ByteToSector_blocks_distinct_witness :
    ∃ hdr st1, Allocate (Geometry.mk 2 2) (FileHeader.new (Geometry.mk 2 2))
        ⟨List.replicate 12 false, fun _ => FileHeader.new (Geometry.mk 2 2), [], []⟩ 9
        = Except.ok (true, hdr, st1)
      ∧ st1.dataClaims = [2, 3, 5, 6, 8] ∧ st1.headerClaims = [0, 1, 4, 7]
      ∧ ∃ hdr2 st2 nh, Allocate (Geometry.mk 2 2) (FileHeader.new (Geometry.mk 2 2))
          ⟨List.replicate 12 false, fun _ => FileHeader.new (Geometry.mk 2 2), [], []⟩ 9
          = Except.ok (true, hdr2, st2)
        ∧ st2.headerClaims = [] ++ nh
        ∧ (∀ o : Int, 0 ≤ o → o < 9 →
            ∃ s, ByteToSector (Geometry.mk 2 2) st2.disk hdr2 o = Except.ok s
              ∧ IsFree (List.replicate 12 false) s ∧ ¬ IsFree st2.freeMap s ∧ s ∉ nh)
        ∧ (∀ (o o2 s s2 : Int), 0 ≤ o → o < 9 → 0 ≤ o2 → o2 < 9 →
            o / ((Geometry.mk 2 2).SectorSize : Int) ≠ o2 / ((Geometry.mk 2 2).SectorSize : Int) →
            ByteToSector (Geometry.mk 2 2) st2.disk hdr2 o = Except.ok s →
            ByteToSector (Geometry.mk 2 2) st2.disk hdr2 o2 = Except.ok s2 → s ≠ s2) :=
  ⟨_, _, rfl, by decide, by decide,
    ByteToSector_blocks_distinct (Geometry.mk 2 2) (FileHeader.new (Geometry.mk 2 2))
      ⟨List.replicate 12 false, fun _ => FileHeader.new (Geometry.mk 2 2), [], []⟩ 9
      (by decide) (by decide) (by decide) (by decide) (by decide)⟩

/-! ## The children of a header -/

/-- The header table after the child loop: one child for every stride that
the size covers, each in a sector that was free, holding a header of the
stride or of what is left; the entries behind them are not touched. -/
theorem allocIndirect_shape (g : Geometry) (f m : Nat) (hss : 0 < g.SectorSize) (hm : 0 < m)
    (cap : Int) (hcap : cap = (m : Int) * (g.SectorSize : Int))
    (hchild : ∀ c, 0 < c → c ≤ cap → AllocSpec g f c) :
    ∀ (n i : Nat) (size : Int) (hdr : FileHeader) (st : FsState),
      i + n ≤ hdr.dataSectors.length → size ≤ (n : Int) * cap →
      (childrenNeeded (sectorsNeededFuel g f) cap n size : Int) ≤ NumClear st.freeMap →
      ∃ hdr1 st1 new,
        allocIndirect (fun s z => AllocateFuel g f (FileHeader.new g) s z) cap n i size hdr st
          = Except.ok (hdr1, st1)
        ∧ Extends st st1 (childrenNeeded (sectorsNeededFuel g f) cap n size) new
        ∧ (∀ j : Nat, (j : Int) * cap < size →
            ∃ s, hdr1.dataSectors[i + j]? = some s ∧ IsFree st.freeMap s
              ∧ ¬ IsFree st1.freeMap s
              ∧ (st1.disk s).numBytes = min (size - (j : Int) * cap) cap)
        ∧ (∀ j : Nat, size ≤ (j : Int) * cap →
            hdr1.dataSectors[i + j]? = hdr.dataSectors[i + j]?)
        ∧ (∀ k, k < i → hdr1.dataSectors[k]? = hdr.dataSectors[k]?) := by
  have hb : (0 : Int) < g.SectorSize := by exact_mod_cast hss
  have hcappos : 0 < cap := by
    rw [hcap]; exact Int.mul_pos (by exact_mod_cast hm) hb
  intro n
  induction n with
  | zero =>
    intro i size hdr st _ hfit _
    simp only [CharP.cast_eq_zero, zero_mul] at hfit
    refine ⟨hdr, st, [], rfl, Extends.refl st, fun j hj => ?_, fun _ _ => rfl, fun _ _ => rfl⟩
    have : 0 ≤ (j : Int) * cap := Int.mul_nonneg (by omega) (le_of_lt hcappos)
    omega
  | succ n ih =>
    intro i size hdr st hlen hfit hneed
    by_cases hpos : 0 < size
    swap
    · refine ⟨hdr, st, [], ?_, ?_, fun j hj => ?_, fun _ _ => rfl, fun _ _ => rfl⟩
      · rw [allocIndirect]; simp only [gt_iff_lt, hpos, if_false]
      · rw [childrenNeeded_nonpos _ _ _ _ hpos]; exact Extends.refl st
      · have : 0 ≤ (j : Int) * cap := Int.mul_nonneg (by omega) (le_of_lt hcappos)
        omega
    · have hc0 : 0 < (if size > cap then cap else size) := by split_ifs <;> omega
      have hc1 : (if size > cap then cap else size) ≤ cap := by split_ifs <;> omega
      rw [childrenNeeded_pos _ _ _ _ hpos] at hneed ⊢
      push_cast at hneed
      obtain ⟨r, hfs, hr, hcount⟩ := FindAndSet_some st.freeMap (by omega)
      have hi : i < hdr.dataSectors.length := by omega
      have hrfree : IsFree st.freeMap (r : Int) := IsFree_of_getElem _ _ hr
      obtain ⟨nextHDR, stb, new0, hrunc, hextc, -, -⟩ :=
        hchild _ hc0 hc1 (FileHeader.new g)
          { st with freeMap := st.freeMap.set r true,
                    headerClaims := st.headerClaims ++ [(r : Int)] }
          (FileHeader.new_length g) (by simp only; omega)
      obtain ⟨-, -, hnbc, -⟩ := AllocateFuel_frame g f _ _ _ _ _ _ hrunc
      have hexta := Extends.claimHeader st r hcount
      have hextb := hexta.trans hextc
      have hextw := hextb.writeBack (r : Int) hrfree nextHDR
      simp only [List.nil_append] at hextw
      have hnc := hextw.numClear
      push_cast at hnc
      obtain ⟨hdr1, st1, newR, hrunR, hextR, hshapeR, hrestR, holdR⟩ :=
        ih (i + 1) (size - cap) { hdr with dataSectors := hdr.dataSectors.set i (r : Int) }
          { stb with disk := WriteBack stb.disk (r : Int) nextHDR }
          (by simp only [List.length_set]; omega)
          (by push_cast at hfit; rw [add_mul, one_mul] at hfit; omega)
          (by simp only at hnc ⊢; omega)
      have hnf : ¬ IsFree stb.freeMap (r : Int) := fun h =>
        ((IsFree_set _ _ _).1 (hextc.mono _ h)).2 rfl
      refine ⟨hdr1, st1, new0 ++ newR, ?_, hextw.trans hextR, ?_, ?_, ?_⟩
      · rw [allocIndirect]
        simp only [gt_iff_lt, hpos, if_true, hfs, setSector_ok hdr i _ hi]
        simp only [gt_iff_lt] at hrunc
        simp only [hrunc]
        exact hrunR
      · intro j hj
        cases j with
        | zero =>
          refine ⟨(r : Int), ?_, hrfree, fun h => hnf (hextR.mono _ h), ?_⟩
          · rw [Nat.add_zero, holdR i (Nat.lt_succ_self i)]
            simp [List.getElem?_set, hi]
          · rw [hextR.frame _ hnf]
            simp only [WriteBack, if_true, hnbc, CharP.cast_eq_zero, zero_mul, sub_zero]
            split_ifs with hbig
            · rw [min_eq_right (by omega)]
            · rw [min_eq_left (by omega)]
        | succ j =>
          push_cast at hj
          rw [add_mul, one_mul] at hj
          obtain ⟨s, h1, h2, h3, h4⟩ := hshapeR j (by omega)
          refine ⟨s, ?_, hextw.mono s h2, h3, ?_⟩
          · rw [show i + (j + 1) = i + 1 + j by omega]; exact h1
          · rw [h4]
            push_cast
            rw [add_mul, one_mul, show size - cap - (j : Int) * cap
              = size - ((j : Int) * cap + cap) by ring]
      · intro j hj
        cases j with
        | zero => simp at hj; omega
        | succ j =>
          push_cast at hj
          rw [add_mul, one_mul] at hj
          rw [show i + (j + 1) = i + 1 + j by omega, hrestR j (by omega)]
          simp only
          rw [List.getElem?_set_ne (by omega)]
      · intro k hk
        rw [holdR k (by omega)]
        simp only
        rw [List.getElem?_set_ne (by omega)]

/-- Strides counted by `divRoundUp`. -/
theorem lt_divRoundUp_iff (size cap : Int) (hsize : 0 ≤ size) (hcap : 0 < cap) (j : Int) :
    j < divRoundUp size cap ↔ j * cap < size := by
  obtain ⟨c1, c2⟩ := divRoundUp_spec size cap hsize hcap
  constructor
  · intro h
    have : (j + 1) * cap ≤ divRoundUp size cap * cap :=
      Int.mul_le_mul_of_nonneg_right (by omega) (le_of_lt hcap)
    rw [add_mul, one_mul] at this
    omega
  · intro h
    by_contra hc
    have : divRoundUp size cap * cap ≤ j * cap :=
      Int.mul_le_mul_of_nonneg_right (by omega) (le_of_lt hcap)
    omega

/-- The children's sizes add up to the size of the file. -/
theorem sum_min_strides (cap : Int) (hcap : 0 < cap) : ∀ (n : Nat) (size : Int),
    0 ≤ size → (divRoundUp size cap).toNat = n →
    ((List.range n).map (fun i : Nat => min (size - (i : Int) * cap) cap)).sum = size := by
  intro n
  induction n with
  | zero =>
    intro size h0 hn
    by_cases hpos : 0 < size
    · have := divRoundUp_pos size cap hpos hcap
      omega
    · simp
      omega
  | succ n ih =>
    intro size h0 hn
    have hpos : 0 < size := by
      by_contra hc
      have : size = 0 := by omega
      subst this
      simp [divRoundUp] at hn
    rw [List.range_succ_eq_map, List.map_cons, List.sum_cons, List.map_map]
    simp only [CharP.cast_eq_zero, zero_mul, sub_zero]
    by_cases hle : size ≤ cap
    · have h1 := divRoundUp_unique size cap 1 h0 hcap (by omega) (by omega)
      rw [h1] at hn
      have : n = 0 := by simpa using hn.symm
      subst this
      simp
      exact hle
    · have hsplit : divRoundUp size cap = divRoundUp (size - cap) cap + 1 := by
        have := divRoundUp_add_mul (size - cap) 1 cap (by omega) (by omega) hcap
        rw [one_mul, sub_add_cancel] at this
        exact this
      have hnn := divRoundUp_nonneg (size - cap) cap (by omega) hcap
      have := ih (size - cap) (by omega) (by rw [hsplit] at hn; omega)
      have hfun : ((fun i : Nat => min (size - (i : Int) * cap) cap) ∘ Nat.succ)
          = (fun i : Nat => min (size - cap - (i : Int) * cap) cap) := by
        funext i
        simp only [Function.comp, Nat.succ_eq_add_one]
        push_cast
        rw [add_mul, one_mul, show size - ((i : Int) * cap + cap)
          = size - cap - (i : Int) * cap by ring]
      rw [hfun, this, min_eq_right (by omega)]
      ring

/-- A size in the branch of stride `cap`: the children of the header that
`AllocateFuel` builds. -/
theorem AllocateFuel_shape (g : Geometry) (f m : Nat) (hss : 0 < g.SectorSize)
    (hm : 0 < m) (cap : Int) (hcap : cap = (m : Int) * (g.SectorSize : Int))
    (hchild : ∀ c, 0 < c → c ≤ cap → AllocSpec g f c)
    (size : Int) (hfit : size ≤ (g.NumDirect : Int) * cap)
    (hdata : divRoundUp size g.SectorSize ≤ (sectorsNeededFuel g (f + 1) size : Int))
    (hN : sectorsNeededFuel g (f + 1) size
      = childrenNeeded (sectorsNeededFuel g f) cap g.NumDirect size)
    (hA : ∀ (this : FileHeader) (st : FsState),
      ¬ NumClear st.freeMap < divRoundUp size g.SectorSize →
      AllocateFuel g (f + 1) this st size
        = (match allocIndirect (fun s z => AllocateFuel g f (FileHeader.new g) s z) cap
              g.NumDirect 0 size
              { this with numBytes := size,
                          numSectors := divRoundUp size g.SectorSize } st with
           | Except.error e => Except.error e
           | Except.ok (h, s) => Except.ok (true, h, s)))
    (this : FileHeader) (st : FsState) (hlen : this.dataSectors.length = g.NumDirect)
    (hfree : (sectorsNeededFuel g (f + 1) size : Int) ≤ NumClear st.freeMap) :
    ∃ hdr st1, AllocateFuel g (f + 1) this st size = Except.ok (true, hdr, st1)
      ∧ (∀ j : Nat, (j : Int) * cap < size →
          ∃ s, hdr.dataSectors[j]? = some s ∧ IsFree st.freeMap s ∧ ¬ IsFree st1.freeMap s
            ∧ (FetchFrom st1.disk s).numBytes = min (size - (j : Int) * cap) cap)
      ∧ (∀ j : Nat, size ≤ (j : Int) * cap → hdr.dataSectors[j]? = this.dataSectors[j]?) := by
  rw [hN] at hfree
  obtain ⟨hdr1, st1, new, hrun, -, hshape, hrest, -⟩ :=
    allocIndirect_shape g f m hss hm cap hcap hchild g.NumDirect 0 size
      { this with numBytes := size, numSectors := divRoundUp size g.SectorSize } st
      (by simp [hlen]) hfit hfree
  refine ⟨hdr1, st1, ?_, ?_, ?_⟩
  · rw [hA this st (by rw [hN] at hdata; omega), hrun]
  · intro j hj
    obtain ⟨s, h1, h2, h3, h4⟩ := hshape j hj
    rw [Nat.zero_add] at h1
    exact ⟨s, h1, h2, h3, h4⟩
  · intro j hj
    have := hrest j hj
    rw [Nat.zero_add] at this
    exact this

/-! ## Claim about the shape of a multi-level allocation -/

/-- C24: for `fileLevel2 < size <= NumDirect * fileLevel4` on a free map that
holds the `sectorsNeeded` sectors, `Allocate` returns `TRUE` and the header
keeps `numBytes = size` and `numSectors = divRoundUp size SectorSize`.  With
`cap = stride size`, the largest of `fileLevel2`, `fileLevel3`, `fileLevel4`
below `size`, there are `divRoundUp size cap <= NumDirect` children: entry
`i` below that number is a sector that was free and is set now, and the header
stored there has `numBytes = min (size - i * cap) cap`; the entries from that
number on are not touched; and the `numBytes` of the children add up to
`size`. -/
theorem Allocate_shape (g : Geometry) (this : FileHeader) (st : FsState) (size : Int)
    (hlen : this.dataSectors.length = g.NumDirect)
    (hlow : g.fileLevel2 < size) (hfit : size ≤ (g.NumDirect : Int) * g.fileLevel4)
    (hfree : (sectorsNeeded g size : Int) ≤ NumClear st.freeMap) :
    ∃ hdr st1, Allocate g this st size = Except.ok (true, hdr, st1)
      ∧ hdr.numBytes = size ∧ hdr.numSectors = divRoundUp size g.SectorSize
      ∧ g.stride size < size
      ∧ (g.stride size = g.fileLevel2 ∨ g.stride size = g.fileLevel3
          ∨ g.stride size = g.fileLevel4)
      ∧ (∀ L, (L = g.fileLevel2 ∨ L = g.fileLevel3 ∨ L = g.fileLevel4) → L < size →
          L ≤ g.stride size)
      ∧ divRoundUp size (g.stride size) ≤ g.NumDirect
      ∧ (∀ i : Nat, (i : Int) < divRoundUp size (g.stride size) →
          ∃ s, hdr.dataSectors[i]? = some s ∧ IsFree st.freeMap s ∧ ¬ IsFree st1.freeMap s
            ∧ (FetchFrom st1.disk s).numBytes
                = min (size - (i : Int) * g.stride size) (g.stride size))
      ∧ (∀ i : Nat, divRoundUp size (g.stride size) ≤ (i : Int) →
          hdr.dataSectors[i]? = this.dataSectors[i]?)
      ∧ ((List.range (divRoundUp size (g.stride size)).toNat).map
          (fun i => (FetchFrom st1.disk (hdr.dataSectors.getD i (-1))).numBytes)).sum
          = size := by
  have l0 := fileLevel2_nonneg g
  have l23 := fileLevel2_le_3 g
  have l34 := fileLevel3_le_4 g
  have hpos : 0 < size := by omega
  obtain ⟨hss, hd⟩ := Geometry.pos_of_fit g size hpos hfit
  have hb : (0 : Int) < g.SectorSize := by exact_mod_cast hss
  have hdi : (0 : Int) < g.NumDirect := by exact_mod_cast hd
  have hf : FuelOK g 4 size :=
    ⟨by decide, Or.inr (by decide), Or.inr (by decide), Or.inr (by decide)⟩
  have hdata := data_le_needed g hss 4 size hf (le_of_lt hpos) hfit
  have hch : ∀ cap : Int, cap ≤ g.fileLevel4 → ∀ c, 0 < c → c ≤ cap → AllocSpec g 3 c :=
    fun cap hcap c hc0 hc => AllocateFuel_spec g hss 3 c
      ⟨by decide, Or.inr (by decide), Or.inr (by decide), Or.inl (by omega)⟩ (le_of_lt hc0)
      (le_NumDirect_mul g c _ hd (by omega) (by omega))
  -- the stride, and the branch of `Allocate` that belongs to it
  have hcappos : 0 < g.stride size := by
    have h2 : 0 < g.fileLevel2 := Int.mul_pos hdi hb
    unfold Geometry.stride
    split_ifs <;> omega
  have hcapfit : size ≤ (g.NumDirect : Int) * g.stride size := by
    unfold Geometry.stride
    split_ifs with h4 h3
    · exact hfit
    · rw [← fileLevel4_eq]; omega
    · rw [← fileLevel3_eq]; omega
  have hmain : ∃ hdr st1, AllocateFuel g 4 this st size = Except.ok (true, hdr, st1)
      ∧ (∀ j : Nat, (j : Int) * g.stride size < size →
          ∃ s, hdr.dataSectors[j]? = some s ∧ IsFree st.freeMap s ∧ ¬ IsFree st1.freeMap s
            ∧ (FetchFrom st1.disk s).numBytes
                = min (size - (j : Int) * g.stride size) (g.stride size))
      ∧ (∀ j : Nat, size ≤ (j : Int) * g.stride size →
          hdr.dataSectors[j]? = this.dataSectors[j]?) := by
    by_cases h4 : size > g.fileLevel4
    · have hs : g.stride size = g.fileLevel4 := by simp [Geometry.stride, h4]
      rw [hs]
      refine AllocateFuel_shape g 3 (g.NumDirect * g.NumDirect * g.NumDirect) hss
        (Nat.mul_pos (Nat.mul_pos hd hd) hd) g.fileLevel4
        (by unfold Geometry.fileLevel4; push_cast; ring) (hch _ (le_refl _))
        size hfit hdata ?_ ?_ this st hlen hfree
      · simp [sectorsNeededFuel, h4]
      · intro this st hcheck
        simp only [AllocateFuel, hcheck, h4, if_false, if_true]
    · by_cases h3 : size > g.fileLevel3
      · have hs : g.stride size = g.fileLevel3 := by simp [Geometry.stride, h4, h3]
        rw [hs] at hcapfit ⊢
        refine AllocateFuel_shape g 3 (g.NumDirect * g.NumDirect) hss
          (Nat.mul_pos hd hd) g.fileLevel3
          (by unfold Geometry.fileLevel3; push_cast; ring) (hch _ l34)
          size hcapfit hdata ?_ ?_ this st hlen hfree
        · simp [sectorsNeededFuel, h4, h3]
        · intro this st hcheck
          simp only [AllocateFuel, hcheck, h4, h3, if_false, if_true]
      · have h2 : size > g.fileLevel2 := hlow
        have hs : g.stride size = g.fileLevel2 := by simp [Geometry.stride, h4, h3]
        rw [hs] at hcapfit ⊢
        refine AllocateFuel_shape g 3 g.NumDirect hss hd g.fileLevel2
          (by unfold Geometry.fileLevel2; rfl) (hch _ (by omega))
          size hcapfit hdata ?_ ?_ this st hlen hfree
        · simp [sectorsNeededFuel, h4, h3, h2]
        · intro this st hcheck
          simp only [AllocateFuel, hcheck, h4, h3, h2, if_false, if_true]
  obtain ⟨hdr, st1, hrun, hshape, hrest⟩ := hmain
  obtain ⟨hnb, hns, -⟩ := AllocateFuel_fields g 4 this st size true hdr st1 hrun
  have hiff := lt_divRoundUp_iff size (g.stride size) (le_of_lt hpos) hcappos
  refine ⟨hdr, st1, hrun, hnb, hns, ?_, ?_, ?_, ?_, ?_, ?_, ?_⟩
  · unfold Geometry.stride
    split_ifs <;> omega
  · unfold Geometry.stride
    split_ifs
    · exact Or.inr (Or.inr rfl)
    · exact Or.inr (Or.inl rfl)
    · exact Or.inl rfl
  · intro L hL hlt
    unfold Geometry.stride
    rcases hL with rfl | rfl | rfl <;> split_ifs <;> omega
  · exact divRoundUp_le _ _ _ (le_of_lt hpos) hcappos hcapfit
  · intro i hi
    exact hshape i ((hiff i).1 hi)
  · intro i hi
    apply hrest i
    by_contra hc
    have := (hiff i).2 (by omega)
    omega
  · have hcongr : (List.range (divRoundUp size (g.stride size)).toNat).map
        (fun i => (FetchFrom st1.disk (hdr.dataSectors.getD i (-1))).numBytes)
        = (List.range (divRoundUp size (g.stride size)).toNat).map
            (fun i : Nat => min (size - (i : Int) * g.stride size) (g.stride size)) := by
      apply List.map_congr_left
      intro i hi
      rw [List.mem_range] at hi
      obtain ⟨s, h1, -, -, h4⟩ := hshape i ((hiff i).1 (by omega))
      rw [List.getD_eq_getElem?_getD, h1]
      exact h4
    rw [hcongr]
    exact sum_min_strides _ hcappos _ _ (le_of_lt hpos) rfl

/-- Scenario S5 on the Nachos disk (`fileLevel2 = 3840`): a file of 3841 bytes
on a free map of 40 clear bits has two children, in the sectors 0 and 31, of
3840 bytes and of 1 byte; a file of 3840 bytes has no child header and 30
data sectors. -/
theorem Allocate_shape_witness :
    (∃ hdr st1, Allocate Geometry.nachos (FileHeader.new Geometry.nachos)
        { freeMap := List.replicate 40 false, disk := fun _ => FileHeader.blank Geometry.nachos,
          dataClaims := [], headerClaims := [] } 3841 = Except.ok (true, hdr, st1)
      ∧ hdr.numBytes = 3841 ∧ hdr.numSectors = 31
      ∧ Geometry.nachos.stride 3841 = 3840
      ∧ divRoundUp 3841 (Geometry.nachos.stride 3841) = 2
      ∧ hdr.dataSectors.take 3 = [0, 31, -1]
      ∧ (FetchFrom st1.disk 0).numBytes = 3840 ∧ (FetchFrom st1.disk 31).numBytes = 1
      ∧ ((List.range (divRoundUp 3841 (Geometry.nachos.stride 3841)).toNat).map
          (fun i => (FetchFrom st1.disk (hdr.dataSectors.getD i (-1))).numBytes)).sum
          = 3841)
    ∧ (∃ hdr st1, Allocate Geometry.nachos (FileHeader.new Geometry.nachos)
        { freeMap := List.replicate 40 false, disk := fun _ => FileHeader.blank Geometry.nachos,
          dataClaims := [], headerClaims := [] } 3840 = Except.ok (true, hdr, st1)
      ∧ st1.headerClaims = [] ∧ st1.dataClaims.length = 30
      ∧ hdr.dataSectors = st1.dataClaims) := by
  constructor
  · obtain ⟨hdr, st1, h1, h2, h3, -, -, -, -, -, -, h10⟩ :=
      Allocate_shape Geometry.nachos (FileHeader.new Geometry.nachos)
        { freeMap := List.replicate 40 false, disk := fun _ => FileHeader.blank Geometry.nachos,
          dataClaims := [], headerClaims := [] } 3841 (by decide) (by decide) (by decide)
        (by decide)
    have hrun : ∃ hdr0 st0, Allocate Geometry.nachos (FileHeader.new Geometry.nachos)
        { freeMap := List.replicate 40 false, disk := fun _ => FileHeader.blank Geometry.nachos,
          dataClaims := [], headerClaims := [] } 3841 = Except.ok (true, hdr0, st0)
        ∧ hdr0.dataSectors.take 3 = [0, 31, -1]
        ∧ (FetchFrom st0.disk 0).numBytes = 3840 ∧ (FetchFrom st0.disk 31).numBytes = 1 :=
      ⟨_, _, rfl, by decide, by decide, by decide⟩
    obtain ⟨hdr0, st0, e1, e2, e3, e4⟩ := hrun
    rw [h1, Except.ok.injEq, Prod.mk.injEq, Prod.mk.injEq] at e1
    obtain ⟨-, rfl, rfl⟩ := e1
    exact ⟨hdr, st1, h1, h2, by rw [h3]; decide, by decide, by decide, e2, e3, e4, h10⟩
  · exact ⟨_, _, rfl, by decide, by decide, by decide⟩

/-! ## Paths through a file and paths with a missing component -/

/-- The walk of `Create` over components that are all found, up to a
component that is missing: the walk stops there, whatever follows. -/
theorem createWalk_walkAll (g : Geometry) (fuel : Nat) (fs : FileSystem) (m : String)
    (rest : List String) (dir : List DirectoryEntry) (tmp : OpenFile)
    (hmiss : Directory.Find dir m = -1) :
    ∀ (pre : List String) (dir0 : List DirectoryEntry) (tmp0 : OpenFile)
      (prev : Option String),
      walkAll g fuel fs dir0 tmp0 pre = some (dir, tmp) →
      createWalk g fuel fs dir0 tmp0 prev (pre ++ m :: rest)
        = Except.ok (dir, tmp, some m) := by
  intro pre
  induction pre with
  | nil =>
    intro dir0 tmp0 prev h
    simp only [walkAll, Option.some.injEq, Prod.mk.injEq] at h
    obtain ⟨rfl, rfl⟩ := h
    rw [List.nil_append, createWalk, if_pos hmiss]
  | cons t pre ih =>
    intro dir0 tmp0 prev h
    rw [walkAll] at h
    split_ifs at h with hf
    cases hn : Directory.FetchFrom g fuel fs (OpenFile.new fs.disk (Directory.Find dir0 t)) with
    | error e => simp [hn] at h
    | ok d1 =>
      simp only [hn] at h
      rw [List.cons_append, createWalk, if_neg hf, hn]
      exact ih d1 _ (some t) h

theorem head_of_append_cons (pre : List String) (m : String) (rest : List String) :
    (pre ++ m :: rest).head? = (pre ++ [m]).head? := by
  cases pre with
  | nil => rfl
  | cons t pre => rfl

/-! ## Claims about the walk of a path -/

/-- C29: the components `pre` of the path are all found, the component `m`
that follows them is not found in the directory reached, and more components
may follow: a `Create` that returns `TRUE` has done what `Create` of the path
cut after `m` does.  The directory reached has one more entry, the file `m`
in a sector that was free, whose header has `n` bytes; the entries of other
names are as before, and no other directory was written. -/
theorem Create_missing_component (c : DiskConfig) (fuel : Nat) (fs fs1 : FileSystem)
    (pre : List String) (m : String) (rest : List String) (n : Int)
    (rt dir : List DirectoryEntry) (tmp : OpenFile)
    (hroot : Directory.FetchFrom c.g fuel fs fs.directoryFile = Except.ok rt)
    (hpre : walkAll c.g fuel fs rt fs.directoryFile pre = some (dir, tmp))
    (hmiss : Directory.Find dir m = -1)
    (hc : Create c fuel fs (pre ++ m :: rest) n = Except.ok (true, fs1)) :
    Create c fuel fs (pre ++ [m]) n = Except.ok (true, fs1)
    ∧ ∃ (s : Int) (dir1 : List DirectoryEntry) (key : Int),
        IsFree fs.freeMap s
        ∧ Directory.fill { inUse := true, isFile := true, sector := s, name := m } dir
            = some dir1
        ∧ Directory.FetchFrom c.g fuel fs1 tmp = Except.ok dir1
        ∧ (FetchFrom fs1.disk s).FileLength = n
        ∧ Directory.Find dir1 m = s ∧ Directory.IsFile dir1 m = true
        ∧ (∀ name, name ≠ m →
            Directory.Find dir1 name = Directory.Find dir name
            ∧ Directory.IsFile dir1 name = Directory.IsFile dir name
            ∧ Directory.hasName dir1 name = Directory.hasName dir name)
        ∧ ByteToSectorFuel c.g fuel fs1.disk tmp.hdr 0 = Except.ok key
        ∧ (∀ x, x ≠ key → fs1.dirData x = fs.dirData x) := by
  have hsame : Create c fuel fs (pre ++ [m]) n = Create c fuel fs (pre ++ m :: rest) n := by
    unfold Create
    simp only [hroot, createWalk_walkAll c.g fuel fs m _ dir tmp hmiss pre rt _ _ hpre]
  refine ⟨by rw [hsame, hc], ?_⟩
  obtain ⟨root, directory, tmpFile, name, directory1, hdr, st1, fsw, h1, h2, -, h4, h5, h6,
    h7, h8⟩ := Create_true_inv c fuel fs fs1 (pre ++ m :: rest) n hc
  rw [hroot, Except.ok.injEq] at h1
  subst h1
  rw [createWalk_walkAll c.g fuel fs m rest dir tmp hmiss pre rt _ _ hpre] at h2
  simp only [Except.ok.injEq, Prod.mk.injEq, Option.some.injEq] at h2
  obtain ⟨rfl, rfl, rfl⟩ := h2
  obtain ⟨r, hfs, hr⟩ := FindAndSet_of_ne fs.freeMap h4
  have hfs1 : (FindAndSet fs.freeMap).1 = (r : Int) := by rw [hfs]
  rw [hfs1] at h5 h7
  have hno : Directory.hasName dir m = false := by
    cases hn : Directory.hasName dir m with
    | false => rfl
    | true => simp [Directory.Add, hn] at h5
  rw [Directory.Add, hno] at h5
  simp only [Bool.false_eq_true, if_false] at h5
  obtain ⟨-, -, hnb, -⟩ := AllocateFuel_frame c.g 4 _ _ _ _ _ _ h6
  rw [Directory.WriteBack] at h7
  cases hk : ByteToSectorFuel c.g fuel (WriteBack st1.disk (r : Int) hdr) tmp.hdr 0 with
  | error e => simp [hk] at h7
  | ok key =>
    simp only [hk, Except.ok.injEq] at h7
    subst h7
    subst h8
    obtain ⟨b1, b2, -, -, b5, -, -⟩ := Directory.fill_spec dir directory1 _ h5 rfl hno
    simp only at b1 b2 b5
    refine ⟨(r : Int), directory1, key, IsFree_of_getElem _ _ hr, h5, ?_, ?_, b1, b2, b5,
      hk, fun x hx => ?_⟩
    · rw [Directory.FetchFrom]
      simp only [hk]
      simp
    · simp [FileHeader.FileLength, FetchFrom, WriteBack, hnb]
    · simp [hx]

/-- A formatted disk, where root has no `d`: `Create ["d", "x"] 50` returns
`TRUE` and puts a file `d` of 50 bytes into root; there is no entry `x`. -/
theorem Create_missing_component_witness :
    ∃ fs0 fs1 root, FileSystem.format DiskConfig.nachos 4 = Except.ok fs0
      ∧ Create DiskConfig.nachos 4 fs0 ["d", "x"] 50 = Except.ok (true, fs1)
      ∧ Create DiskConfig.nachos 4 fs0 ["d"] 50 = Except.ok (true, fs1)
      ∧ Directory.FetchFrom Geometry.nachos 4 fs1 fs1.directoryFile = Except.ok root
      ∧ Directory.IsFile root "d" = true
      ∧ (FetchFrom fs1.disk (Directory.Find root "d")).FileLength = 50
      ∧ Directory.hasName root "x" = false := by
  refine ⟨_, _, _, rfl, rfl, ?_, rfl, by decide, by decide, by decide⟩
  exact And.left (Create_missing_component DiskConfig.nachos 4 _ _ [] "d" ["x"] 50
    (Directory.new NumDirEntries) (Directory.new NumDirEntries) _ rfl rfl (by decide) rfl)

/-! ## Claim about the flag after `aging` -/

/-- C31: `aging` returns, and afterwards the preemption flag is set exactly
when it was set before or some queued thread `t` has, after the update of its
priority, a priority of at least 100 while the running thread has a priority
below 100 or a longer `approximate_burst_time` than `t`.  So a thread of L2
that `aging` promotes into L1 while a thread of priority below 100 runs sets
the flag, and so does the re-insertion of a thread that was in L1 already,
under the same condition. -/
theorem aging_requests_preemption (k : Kernel) :
    ∃ k1, aging k = some k1
      ∧ (k1.preemtive = true ↔
          k.preemtive = true
          ∨ ∃ t ∈ k.queued, 100 ≤ (agingUpdate k.totalTicks t).priority
              ∧ (k.currentThread.priority < 100
                  ∨ t.approximate_burst_time < k.currentThread.approximate_burst_time))
      ∧ (∀ t ∈ k.L2, 90 ≤ t.priority →
          t.total_ready_time + (k.totalTicks - t.enter_ready_time) > 1500 →
          k.currentThread.priority < 100 →
          k1.preemtive = true ∧ ∃ u ∈ k1.L1, u.ID = t.ID)
      ∧ (∀ t ∈ k.L1, 100 ≤ t.priority →
          (k.currentThread.priority < 100
            ∨ t.approximate_burst_time < k.currentThread.approximate_burst_time) →
          k1.preemtive = true) := by
  obtain ⟨k1, hk1, -, -, -, -, -, hP1, -, -, -⟩ := aging_eq k
  have hiff : k1.preemtive = true ↔
      k.preemtive = true
      ∨ ∃ t ∈ k.queued, 100 ≤ (agingUpdate k.totalTicks t).priority
          ∧ (k.currentThread.priority < 100
              ∨ t.approximate_burst_time < k.currentThread.approximate_burst_time) := by
    rw [aging_flag k k1 hk1]
    simp only [Bool.or_eq_true, List.any_eq_true, List.mem_map, decide_eq_true_eq]
    constructor
    · rintro (h | ⟨u, ⟨t, ht, rfl⟩, hp, hc⟩)
      · exact Or.inl h
      · rw [agingUpdate_burst] at hc
        exact Or.inr ⟨t, ht, hp, hc⟩
    · rintro (h | ⟨t, ht, hp, hc⟩)
      · exact Or.inl h
      · refine Or.inr ⟨_, ⟨t, ht, rfl⟩, hp, ?_⟩
        rw [agingUpdate_burst]
        exact hc
  refine ⟨k1, hk1, hiff, ?_, ?_⟩
  · intro t ht hp hw hcur
    have hq : t ∈ k.queued := by unfold Kernel.queued; simp [ht]
    have hnew : 100 ≤ (agingUpdate k.totalTicks t).priority := by
      rw [(agingUpdate_promoted k.totalTicks t hw).1]
      split_ifs <;> omega
    refine ⟨hiff.2 (Or.inr ⟨t, hq, hnew, Or.inl hcur⟩),
      markReady k.totalTicks (agingUpdate k.totalTicks t), ?_, ?_⟩
    · rw [hP1.mem_iff, List.mem_filter]
      refine ⟨List.mem_map.2 ⟨t, hq, rfl⟩, ?_⟩
      simpa [markReady_priority] using hnew
    · rw [markReady_ID, agingUpdate_ID]
  · intro t ht hp hc
    have hq : t ∈ k.queued := by unfold Kernel.queued; simp [ht]
    exact hiff.2 (Or.inr ⟨t, hq, agingUpdate_priority_ge _ _ hp, hc⟩)

/-- T2 (priority 95) has waited 1600 ticks in L2 while a thread of priority 0
runs: `aging` moves it into L1 with priority 105 and sets the flag. -/
theorem aging_requests_preemption_witness :
    ∃ k1, aging { S1_kernel with L2 := [⟨2, 95, 0, 0, 0, 0, ThreadStatus.READY⟩],
                                 totalTicks := 1600 } = some k1
      ∧ k1.preemtive = true
      ∧ k1.L1 = [⟨2, 105, 0, 1600, 100, 0, ThreadStatus.READY⟩] ∧ k1.L2 = [] := by
  obtain ⟨k1, h1, -, h3, -⟩ := aging_requests_preemption
    { S1_kernel with L2 := [⟨2, 95, 0, 0, 0, 0, ThreadStatus.READY⟩], totalTicks := 1600 }
  have he : aging { S1_kernel with L2 := [⟨2, 95, 0, 0, 0, 0, ThreadStatus.READY⟩],
                                   totalTicks := 1600 }
      = some { S1_kernel with L1 := [⟨2, 105, 0, 1600, 100, 0, ThreadStatus.READY⟩],
                              totalTicks := 1600, preemtive := true } := by decide
  have hflag := (h3 ⟨2, 95, 0, 0, 0, 0, ThreadStatus.READY⟩ (by simp) (by decide) (by decide)
    (by decide)).1
  rw [he, Option.some.injEq] at h1
  subst h1
  exact ⟨_, he, hflag, rfl, rfl⟩

/-! ## The child headers that `Allocate` creates -/

theorem allocDirect_headers : ∀ (n i : Nat) (hdr : FileHeader) (st : FsState)
    (hdr1 : FileHeader) (st1 : FsState),
    allocDirect n i hdr st = Except.ok (hdr1, st1) → st1.headerClaims = st.headerClaims := by
  intro n
  induction n with
  | zero =>
    intro i hdr st hdr1 st1 h
    simp only [allocDirect, Except.ok.injEq, Prod.mk.injEq] at h
    obtain ⟨rfl, rfl⟩ := h
    rfl
  | succ n ih =>
    intro i hdr st hdr1 st1 h
    rw [allocDirect] at h
    cases hs : hdr.setSector i (FindAndSet st.freeMap).1 with
    | error e => simp [hs] at h
    | ok hdr2 =>
      simp only [hs] at h
      split_ifs at h with hge
      have := ih _ _ _ _ _ h
      exact this

/-- A file without child headers: `AllocateFuel` asks for no header sector. -/
theorem AllocateFuel_direct_headers (g : Geometry) (f : Nat) (this : FileHeader) (st : FsState)
    (size : Int) (hsize : size ≤ g.fileLevel2) (b : Bool) (hdr : FileHeader) (st1 : FsState)
    (h : AllocateFuel g f this st size = Except.ok (b, hdr, st1)) :
    st1.headerClaims = st.headerClaims := by
  have l23 := fileLevel2_le_3 g
  have l34 := fileLevel3_le_4 g
  cases f with
  | zero => simp [AllocateFuel] at h
  | succ f =>
    rw [AllocateFuel] at h
    simp only at h
    have h4 : ¬ size > g.fileLevel4 := by omega
    have h3 : ¬ size > g.fileLevel3 := by omega
    have h2 : ¬ size > g.fileLevel2 := by omega
    simp only [h4, h3, h2, if_false] at h
    split_ifs at h with hcheck
    · simp only [Except.ok.injEq, Prod.mk.injEq] at h
      obtain ⟨-, -, rfl⟩ := h
      rfl
    · cases hr : allocDirect (divRoundUp size g.SectorSize).toNat 0
          { this with numBytes := size, numSectors := divRoundUp size g.SectorSize } st with
      | error e => simp [hr] at h
      | ok r =>
        obtain ⟨h1, s1⟩ := r
        simp only [hr, Except.ok.injEq, Prod.mk.injEq] at h
        obtain ⟨-, -, rfl⟩ := h
        exact allocDirect_headers _ _ _ _ _ _ hr

theorem setSector_table (hdr hdr1 : FileHeader) (i : Nat) (s : Int)
    (h : hdr.setSector i s = Except.ok hdr1) :
    hdr1.dataSectors[i]? = some s
      ∧ ∀ k : Nat, k ≠ i → hdr1.dataSectors[k]? = hdr.dataSectors[k]? := by
  unfold FileHeader.setSector at h
  split_ifs at h with hi
  cases h
  constructor
  · simp [List.getElem?_set, hi]
  · intro k hk
    simp [List.getElem?_set, Ne.symm hk]

/-- The child loop when no child asks for a header sector of its own: the
requests for header sectors are those of the passes, one for each stride that
the size covers, and their results are the entries of the table from index
`i` on; the other entries are not touched. -/
theorem allocIndirect_children
    (child : FsState → Int → Except Fault (Bool × FileHeader × FsState)) (cap : Int)
    (hchild : ∀ s z b h s1, z ≤ cap → child s z = Except.ok (b, h, s1) →
      s1.headerClaims = s.headerClaims) :
    ∀ (n i : Nat) (size : Int) (hdr : FileHeader) (st : FsState)
      (hdr1 : FileHeader) (st1 : FsState),
      allocIndirect child cap n i size hdr st = Except.ok (hdr1, st1) →
      ∃ nh : List Int, st1.headerClaims = st.headerClaims ++ nh
        ∧ nh.length = childrenNeeded (fun _ => 0) cap n size
        ∧ (∀ j : Nat, j < nh.length → hdr1.dataSectors[i + j]? = nh[j]?)
        ∧ (∀ k : Nat, k < i ∨ i + nh.length ≤ k →
            hdr1.dataSectors[k]? = hdr.dataSectors[k]?) := by
  intro n
  induction n with
  | zero =>
    intro i size hdr st hdr1 st1 h
    simp only [allocIndirect, Except.ok.injEq, Prod.mk.injEq] at h
    obtain ⟨rfl, rfl⟩ := h
    exact ⟨[], by simp, by simp [childrenNeeded], by simp, fun _ _ => rfl⟩
  | succ n ih =>
    intro i size hdr st hdr1 st1 h
    rw [allocIndirect] at h
    by_cases hpos : size > 0
    swap
    · simp only [hpos, if_false, Except.ok.injEq, Prod.mk.injEq] at h
      obtain ⟨rfl, rfl⟩ := h
      exact ⟨[], by simp, by rw [childrenNeeded_nonpos _ _ _ _ hpos]; rfl, by simp,
        fun _ _ => rfl⟩
    · simp only [hpos, if_true] at h
      cases hs : hdr.setSector i (FindAndSet st.freeMap).1 with
      | error e => simp [hs] at h
      | ok hdr2 =>
        simp only [hs] at h
        cases hc : child { st with freeMap := (FindAndSet st.freeMap).2,
                                   headerClaims := st.headerClaims ++ [(FindAndSet st.freeMap).1] }
            (if size > cap then cap else size) with
        | error e => simp [hc] at h
        | ok r =>
          obtain ⟨b, nextHDR, st2⟩ := r
          simp only [hc] at h
          have hz : (if size > cap then cap else size) ≤ cap := by split_ifs <;> omega
          have hkeep := hchild _ _ _ _ _ hz hc
          simp only at hkeep
          obtain ⟨nh, e1, e2, e3, e4⟩ := ih _ _ _ _ _ _ h
          obtain ⟨t1, t2⟩ := setSector_table _ _ _ _ hs
          refine ⟨(FindAndSet st.freeMap).1 :: nh, ?_, ?_, ?_, ?_⟩
          · rw [e1]
            simp only [hkeep, List.append_assoc, List.singleton_append]
          · rw [childrenNeeded_pos _ _ _ _ hpos, List.length_cons, e2]
            omega
          · intro j hj
            cases j with
            | zero =>
              rw [Nat.add_zero, e4 i (Or.inl (by omega)), t1]
              simp
            | succ j =>
              rw [List.length_cons] at hj
              rw [show i + (j + 1) = i + 1 + j by omega, e3 j (by omega)]
              simp
          · intro k hk
            rw [List.length_cons] at hk
            rw [e4 k (by omega), t2 k (by omega)]

/-- A size in the branch of stride `fileLevel2`: the requests for header
sectors that `Allocate` makes when it returns `TRUE`. -/
theorem Allocate_level2_children (g : Geometry) (size : Int)
    (hlow : g.fileLevel2 < size) (hhigh : size ≤ g.fileLevel3)
    (this : FileHeader) (st : FsState) (hdr : FileHeader) (st1 : FsState)
    (h : Allocate g this st size = Except.ok (true, hdr, st1)) :
    ∃ nh : List Int, st1.headerClaims = st.headerClaims ++ nh
      ∧ (nh.length : Int) = divRoundUp size g.fileLevel2
      ∧ (∀ i : Nat, i < nh.length → hdr.dataSectors[i]? = nh[i]?)
      ∧ (∀ i : Nat, nh.length ≤ i → hdr.dataSectors[i]? = this.dataSectors[i]?) := by
  have l0 := fileLevel2_nonneg g
  have l34 := fileLevel3_le_4 g
  have hcap : 0 < g.fileLevel2 := by
    by_contra hc
    have hz : g.fileLevel2 = 0 := by omega
    have e3 := fileLevel3_eq g
    rw [hz, mul_zero] at e3
    omega
  unfold Allocate at h
  rw [AllocateFuel] at h
  simp only at h
  have h4 : ¬ size > g.fileLevel4 := by omega
  have h3 : ¬ size > g.fileLevel3 := by omega
  have h2 : size > g.fileLevel2 := hlow
  simp only [h4, h3, h2, if_false, if_true] at h
  split_ifs at h with hcheck
  · simp at h
  cases hr : allocIndirect (fun s z => AllocateFuel g 3 (FileHeader.new g) s z)
      g.fileLevel2 g.NumDirect 0 size
      { this with numBytes := size, numSectors := divRoundUp size g.SectorSize } st with
  | error e => simp [hr] at h
  | ok r =>
    obtain ⟨h1, s1⟩ := r
    simp only [hr, Except.ok.injEq, Prod.mk.injEq] at h
    obtain ⟨-, eh, es⟩ := h
    rw [← eh, ← es]
    obtain ⟨nh, e1, e2, e3, e4⟩ := allocIndirect_children _ g.fileLevel2
      (fun s z b hh s1 hz hc => AllocateFuel_direct_headers g 3 _ s z hz b hh s1 hc)
      _ _ _ _ _ _ _ hr
    refine ⟨nh, e1, ?_, ?_, ?_⟩
    · rw [e2]
      exact childrenNeeded_count _ hcap _ _ (by omega) (by rw [← fileLevel3_eq]; exact hhigh)
    · intro i hi
      have := e3 i hi
      rw [Nat.zero_add] at this
      exact this
    · intro i hi
      exact e4 i (Or.inr (by omega))

/-- A size above `fileLevel2` on a free map that holds the `sectorsNeeded`
sectors: `Allocate` returns `TRUE`; with `cap = stride size`, every entry `j`
of the table with `j * cap < size` is a child, in a sector that was free and
is set now, and the entries from there on are not touched. -/
theorem Allocate_children (g : Geometry) (this : FileHeader) (st : FsState) (size : Int)
    (hlen : this.dataSectors.length = g.NumDirect)
    (hlow : g.fileLevel2 < size) (hfit : size ≤ (g.NumDirect : Int) * g.fileLevel4)
    (hfree : (sectorsNeeded g size : Int) ≤ NumClear st.freeMap) :
    ∃ hdr st1, Allocate g this st size = Except.ok (true, hdr, st1)
      ∧ (∀ j : Nat, (j : Int) * g.stride size < size →
          ∃ s, hdr.dataSectors[j]? = some s ∧ IsFree st.freeMap s ∧ ¬ IsFree st1.freeMap s
            ∧ (FetchFrom st1.disk s).numBytes
                = min (size - (j : Int) * g.stride size) (g.stride size))
      ∧ (∀ j : Nat, size ≤ (j : Int) * g.stride size →
          hdr.dataSectors[j]? = this.dataSectors[j]?) := by
  have l0 := fileLevel2_nonneg g
  have l23 := fileLevel2_le_3 g
  have l34 := fileLevel3_le_4 g
  have hpos : 0 < size := by omega
  obtain ⟨hss, hd⟩ := Geometry.pos_of_fit g size hpos hfit
  have hf : FuelOK g 4 size :=
    ⟨by decide, Or.inr (by decide), Or.inr (by decide), Or.inr (by decide)⟩
  have hdata := data_le_needed g hss 4 size hf (le_of_lt hpos) hfit
  have hch : ∀ cap : Int, cap ≤ g.fileLevel4 → ∀ c, 0 < c → c ≤ cap → AllocSpec g 3 c :=
    fun cap hcap c hc0 hc => AllocateFuel_spec g hss 3 c
      ⟨by decide, Or.inr (by decide), Or.inr (by decide), Or.inl (by omega)⟩ (le_of_lt hc0)
      (le_NumDirect_mul g c _ hd (by omega) (by omega))
  have hcapfit : size ≤ (g.NumDirect : Int) * g.stride size := by
    unfold Geometry.stride
    split_ifs with h4 h3
    · exact hfit
    · rw [← fileLevel4_eq]; omega
    · rw [← fileLevel3_eq]; omega
  unfold Allocate
  by_cases h4 : size > g.fileLevel4
  · have hs : g.stride size = g.fileLevel4 := by simp [Geometry.stride, h4]
    rw [hs]
    refine AllocateFuel_shape g 3 (g.NumDirect * g.NumDirect * g.NumDirect) hss
      (Nat.mul_pos (Nat.mul_pos hd hd) hd) g.fileLevel4
      (by unfold Geometry.fileLevel4; push_cast; ring) (hch _ (le_refl _))
      size hfit hdata ?_ ?_ this st hlen hfree
    · simp [sectorsNeededFuel, h4]
    · intro this st hcheck
      simp only [AllocateFuel, hcheck, h4, if_false, if_true]
  · by_cases h3 : size > g.fileLevel3
    · have hs : g.stride size = g.fileLevel3 := by simp [Geometry.stride, h4, h3]
      rw [hs] at hcapfit ⊢
      refine AllocateFuel_shape g 3 (g.NumDirect * g.NumDirect) hss
        (Nat.mul_pos hd hd) g.fileLevel3
        (by unfold Geometry.fileLevel3; push_cast; ring) (hch _ l34)
        size hcapfit hdata ?_ ?_ this st hlen hfree
      · simp [sectorsNeededFuel, h4, h3]
      · intro this st hcheck
        simp only [AllocateFuel, hcheck, h4, h3, if_false, if_true]
    · have h2 : size > g.fileLevel2 := hlow
      have hs : g.stride size = g.fileLevel2 := by simp [Geometry.stride, h4, h3]
      rw [hs] at hcapfit ⊢
      refine AllocateFuel_shape g 3 g.NumDirect hss hd g.fileLevel2
        (by unfold Geometry.fileLevel2; rfl) (hch _ (by omega))
        size hcapfit hdata ?_ ?_ this st hlen hfree
      · simp [sectorsNeededFuel, h4, h3, h2]
      · intro this st hcheck
        simp only [AllocateFuel, hcheck, h4, h3, h2, if_false, if_true]

/-- C26: for `fileLevel2 < size <= fileLevel3` the loop bound of `Deallocate`,
`divRoundUp (divRoundUp size SectorSize) NumDirect`, equals
`divRoundUp size (NumDirect * SectorSize)` and is at most `NumDirect`.  On
every header that `Allocate` returns for that size, the bound
`divRoundUp numSectors NumDirect` is this number and the loop of `Deallocate`
makes that many passes.  When `Allocate` returned `TRUE`, it is the number of
child headers that `Allocate` created: the run asked for exactly that many
header sectors, the results are the entries of the table below the bound, in
order, and the entries from the bound on are not touched.  On a free map that
holds the `sectorsNeeded` sectors, `Allocate` returns `TRUE` and every entry
below the bound is a sector that was free and is set now, where the child
header of `min (size - i * fileLevel2) fileLevel2` bytes is stored. -/
theorem Deallocate_bound_level2 (g : Geometry) (size : Int)
    (hlow : g.fileLevel2 < size) (hhigh : size ≤ g.fileLevel3) :
    divRoundUp (divRoundUp size g.SectorSize) g.NumDirect = divRoundUp size g.fileLevel2
    ∧ divRoundUp size g.fileLevel2 ≤ g.NumDirect
    ∧ (∀ (this : FileHeader) (st : FsState) (b : Bool) (hdr : FileHeader) (st1 : FsState),
        Allocate g this st size = Except.ok (b, hdr, st1) →
        divRoundUp hdr.numSectors g.NumDirect = divRoundUp size g.fileLevel2
        ∧ (∀ (fuel : Nat) (disk : Disk) (m : List Bool),
            Deallocate g (fuel + 1) disk hdr m
              = deallocIndirect (Deallocate g fuel disk) disk
                  (divRoundUp size g.fileLevel2).toNat 0 hdr m)
        ∧ (b = true →
            ∃ nh : List Int, st1.headerClaims = st.headerClaims ++ nh
              ∧ (nh.length : Int) = divRoundUp hdr.numSectors g.NumDirect
              ∧ (∀ i : Nat, i < nh.length → hdr.dataSectors[i]? = nh[i]?)
              ∧ (∀ i : Nat, nh.length ≤ i → hdr.dataSectors[i]? = this.dataSectors[i]?)))
    ∧ (∀ (this : FileHeader) (st : FsState), this.dataSectors.length = g.NumDirect →
        (sectorsNeeded g size : Int) ≤ NumClear st.freeMap →
        ∃ hdr st1, Allocate g this st size = Except.ok (true, hdr, st1)
          ∧ (∀ i : Nat, (i : Int) < divRoundUp hdr.numSectors g.NumDirect →
              ∃ s, hdr.dataSectors[i]? = some s ∧ IsFree st.freeMap s
                ∧ ¬ IsFree st1.freeMap s
                ∧ (FetchFrom st1.disk s).numBytes
                    = min (size - (i : Int) * g.fileLevel2) g.fileLevel2)) := by
  have l0 := fileLevel2_nonneg g
  have l34 := fileLevel3_le_4 g
  have hpos : 0 < size := by omega
  have hfit : size ≤ (g.NumDirect : Int) * g.fileLevel4 := by
    have e3 := fileLevel3_eq g
    have e4 := fileLevel4_eq g
    have l23 := fileLevel2_le_3 g
    rcases Nat.eq_zero_or_pos g.NumDirect with hz | hz
    · rw [hz] at e3; simp at e3; omega
    · have h1 : g.fileLevel3 ≤ (g.NumDirect : Int) * g.fileLevel3 := by
        have : (1 : Int) ≤ (g.NumDirect : Int) := by exact_mod_cast hz
        nlinarith
      have h2 : (g.NumDirect : Int) * g.fileLevel3 ≤ (g.NumDirect : Int) * g.fileLevel4 := by
        have : (0 : Int) ≤ (g.NumDirect : Int) := by omega
        nlinarith
      omega
  obtain ⟨hss, hnd⟩ := Geometry.pos_of_fit g size hpos hfit
  have hb : (0 : Int) < g.SectorSize := by exact_mod_cast hss
  have hd : (0 : Int) < g.NumDirect := by exact_mod_cast hnd
  have hcap : 0 < g.fileLevel2 := Int.mul_pos hd hb
  have e1 : divRoundUp (divRoundUp size g.SectorSize) g.NumDirect
      = divRoundUp size g.fileLevel2 :=
    divRoundUp_divRoundUp size g.SectorSize g.NumDirect (le_of_lt hpos) hb hd
  have hfit2 : size ≤ (g.NumDirect : Int) * g.fileLevel2 := by rw [← fileLevel3_eq]; exact hhigh
  have hstride : g.stride size = g.fileLevel2 := by
    unfold Geometry.stride
    rw [if_neg (by omega), if_neg (by omega)]
  refine ⟨e1, divRoundUp_le _ _ _ (le_of_lt hpos) hcap hfit2, ?_, ?_⟩
  · intro this st b hdr st1 h
    obtain ⟨hnb, hns, -⟩ := AllocateFuel_fields g 4 this st size b hdr st1 h
    have hbound : divRoundUp hdr.numSectors g.NumDirect = divRoundUp size g.fileLevel2 := by
      rw [hns, e1]
    refine ⟨hbound, ?_, ?_⟩
    · intro fuel disk m
      rw [Deallocate, if_pos (by rw [hnb]; exact hlow), hbound]
    · intro hb1
      subst hb1
      obtain ⟨nh, n1, n2, n3, n4⟩ := Allocate_level2_children g size hlow hhigh this st hdr st1 h
      exact ⟨nh, n1, by rw [n2, hbound], n3, n4⟩
  · intro this st hlen hfree
    obtain ⟨hdr, st1, hrun, hshape, -⟩ := Allocate_children g this st size hlen hlow hfit hfree
    obtain ⟨-, hns, -⟩ := AllocateFuel_fields g 4 this st size true hdr st1 hrun
    refine ⟨hdr, st1, hrun, ?_⟩
    intro i hi
    rw [hns, e1] at hi
    have := hshape i (by
      rw [hstride]
      exact (lt_divRoundUp_iff size g.fileLevel2 (le_of_lt hpos) hcap i).1 hi)
    rw [hstride] at this
    exact this

/-- A file of 3841 bytes on the Nachos disk, allocated on a free map of 40
clear bits: 31 sectors, the bound of `Deallocate` is 2, and `Allocate` asked
for two header sectors, 0 and 31, which are the first two entries of the
table; the third entry is the -1 of the constructor. -/
theorem Deallocate_bound_level2_witness :
    divRoundUp (divRoundUp 3841 Geometry.nachos.SectorSize) Geometry.nachos.NumDirect = 2
    ∧ ∃ hdr st1, Allocate Geometry.nachos (FileHeader.new Geometry.nachos)
          { freeMap := List.replicate 40 false, disk := fun _ => FileHeader.blank Geometry.nachos,
            dataClaims := [], headerClaims := [] } 3841 = Except.ok (true, hdr, st1)
        ∧ divRoundUp hdr.numSectors Geometry.nachos.NumDirect = 2
        ∧ st1.headerClaims = [0, 31]
        ∧ hdr.dataSectors.take 3 = [0, 31, -1]
        ∧ ∃ nh : List Int, st1.headerClaims = [] ++ nh
            ∧ (nh.length : Int) = divRoundUp hdr.numSectors Geometry.nachos.NumDirect
            ∧ (∀ i : Nat, i < nh.length → hdr.dataSectors[i]? = nh[i]?)
            ∧ (∀ i : Nat, nh.length ≤ i →
                hdr.dataSectors[i]? = (FileHeader.new Geometry.nachos).dataSectors[i]?) := by
  have hrun : ∃ hdr st1, Allocate Geometry.nachos (FileHeader.new Geometry.nachos)
      { freeMap := List.replicate 40 false, disk := fun _ => FileHeader.blank Geometry.nachos,
        dataClaims := [], headerClaims := [] } 3841 = Except.ok (true, hdr, st1)
      ∧ st1.headerClaims = [0, 31] ∧ hdr.dataSectors.take 3 = [0, 31, -1] :=
    ⟨_, _, rfl, by decide, by decide⟩
  obtain ⟨hdr, st1, e1, e2, e3⟩ := hrun
  obtain ⟨h1, -, h3, -⟩ := Deallocate_bound_level2 Geometry.nachos 3841 (by decide) (by decide)
  obtain ⟨h5, -, h6⟩ := h3 _ _ _ _ _ e1
  have h7 : divRoundUp 3841 Geometry.nachos.fileLevel2 = 2 := by decide
  exact ⟨by rw [h1, h7], hdr, st1, e1, by rw [h5, h7], e2, e3, h6 rfl⟩

end Nachos
